import Mathlib

/-!
# OCFX text subsystem: glyph cache and atlas packer

A shallow embedding of `src/src/text.c` (functions `find_glyph`, `cache_glyph`,
`get_glyph`, `ocfx_font_load`, the metric getters, `ocfx_text_measure`,
`ocfx_text_measure_n`, `ocfx_text_draw` and its variants) together with theorems
about it.

Modelling conventions.

* C `int` fields are `Int`; `unsigned int` values are `Nat`.  The mixed
  `int`/`unsigned` expressions of `cache_glyph` are evaluated modulo 2^32 through
  `to_unsigned`, `to_int`, `uadd` and `iadd`.
* C `float` values live in an arbitrary carrier `F` that supplies the operations the
  code uses (`+`, `-`, `/`, conversion from `int` and from `unsigned`).  Nothing is
  assumed about these operations, so every statement holds for IEEE binary32 as well
  as for exact rationals; concrete scenarios are evaluated in `ℚ`.
* The external collaborators (FreeType face, `realloc`, the signedness of `char`)
  are collected in `Env`.  The rasterizer is deterministic: `FT_Load_Char` is a
  function of the character code.
* The glyph cache array together with `glyph_cache_size` is the list `glyph_cache`
  (its length is the size); `glyph_cache_capacity` is kept as a separate field.
* A returned `glyph_cache_entry_t *` is modelled by the entry it points to
  (`none` for `NULL`); callers read it before the cache is touched again.
* OpenGL calls are effects: the `glTexSubImage2D` call of `cache_glyph` is recorded
  in the result, and `ocfx_text_draw` returns the vertex arrays it submits.
-/

namespace OCFX

/-! ## Machine integers -/

/-- The modulus of C `unsigned int` arithmetic (32 bits). -/
def UINT_MOD : Nat := 4294967296

/-- Conversion of an `int` operand to `unsigned int`. -/
def to_unsigned (i : Int) : Nat := (i % 4294967296).toNat

/-- Conversion of an `unsigned int` value to `int` (two's complement). -/
def to_int (n : Nat) : Int :=
  if n % 4294967296 < 2147483648 then ((n % 4294967296 : Nat) : Int)
  else ((n % 4294967296 : Nat) : Int) - 4294967296

/-- Sum of two operands in `unsigned int` arithmetic. -/
def uadd (a b : Nat) : Nat := (a + b) % 4294967296

/-- Sum of two `int` operands, wrapped to 32 bits. -/
def iadd (a b : Int) : Int := to_int (to_unsigned (a + b))

/-! ## Data model -/

/-- Glyph cache entry (`glyph_cache_entry_t`, text.c:15-22). -/
structure glyph_cache_entry_t (F : Type) where
  codepoint : Nat
  atlas_x : F
  atlas_y : F
  atlas_width : F
  atlas_height : F
  width : F
  height : F
  bearing_x : F
  bearing_y : F
  advance : F

/-- Font structure (`struct ocfx_font_t`, text.c:25-56).  The FreeType handles are
part of `Env`; the GPU object names (`texture`, `shader_program`, `vao`, `vbo`) and
the `renderer` back pointer carry no data used by the modelled functions. -/
structure ocfx_font_t (F : Type) where
  size : Int
  height : Int
  advance : Int
  ascent : Int
  descent : Int
  atlas_width : Int
  atlas_height : Int
  atlas_x : Int
  atlas_y : Int
  atlas_row_height : Int
  glyph_cache : List (glyph_cache_entry_t F)
  glyph_cache_capacity : Nat

/-- The fields of FreeType's glyph slot that `cache_glyph` reads after
`FT_Load_Char (..., FT_LOAD_RENDER)`: `bitmap.rows` and `bitmap.width`
(`unsigned int`), `bitmap_left`, `bitmap_top` (`FT_Int`) and `advance.x`
(`FT_Pos`, 26.6 fixed point). -/
structure FT_GlyphSlotRec where
  bitmap_rows : Nat
  bitmap_width : Nat
  bitmap_left : Int
  bitmap_top : Int
  advance_x : Int

/-- External collaborators of the text subsystem.
`FT_Load_Char c` is `none` when FreeType reports an error for character code `c`,
otherwise the rendered glyph slot.  `realloc_ok n` tells whether `realloc` to a
capacity of `n` entries succeeds.  `char_is_signed` is the signedness of plain
`char` on the platform. -/
structure Env where
  FT_Load_Char : Nat → Option FT_GlyphSlotRec
  realloc_ok : Nat → Bool
  char_is_signed : Bool

/-- Arguments of one `glTexSubImage2D` call (text.c:167-171): the texel rectangle of
the atlas that is written. -/
structure tex_upload where
  xoffset : Int
  yoffset : Int
  width : Int
  height : Int
deriving DecidableEq, Repr

/-- How a glyph lookup ended; one constructor per `return` of `cache_glyph`
(text.c:147, 162, 180, 205) and one for a cache hit in `get_glyph`. -/
inductive glyph_result (F : Type) where
  | load_failed : glyph_result F
  | atlas_full : glyph_result F
  | alloc_failed (up : tex_upload) : glyph_result F
  | cached (up : tex_upload) (e : glyph_cache_entry_t F) : glyph_result F
  | hit (e : glyph_cache_entry_t F) : glyph_result F

/-- The pointer returned to the caller: `none` is `NULL`. -/
def glyph_result.entry {F : Type} : glyph_result F → Option (glyph_cache_entry_t F)
  | .load_failed => none
  | .atlas_full => none
  | .alloc_failed _ => none
  | .cached _ e => some e
  | .hit e => some e

/-- The atlas rectangle written by the call, if any. -/
def glyph_result.upload {F : Type} : glyph_result F → Option tex_upload
  | .load_failed => none
  | .atlas_full => none
  | .alloc_failed up => some up
  | .cached up _ => some up
  | .hit _ => none

/-- The atlas rectangle reserved by the call: present exactly when a new entry was
cached. -/
def glyph_result.placement {F : Type} : glyph_result F → Option tex_upload
  | .cached up _ => some up
  | _ => none

/-- The call ended at text.c:161-162 ("Font atlas full!"). -/
def glyph_result.is_full {F : Type} : glyph_result F → Bool
  | .atlas_full => true
  | _ => false

/-- The codepoint for which the call created a new cache entry, if it did. -/
def glyph_result.cached_codepoint {F : Type} : glyph_result F → Option Nat
  | .cached _ e => some e.codepoint
  | _ => none

/-- The atlas packing state `(atlas_x, atlas_y, atlas_row_height)` of a font. -/
def atlas_state {F : Type} (font : ocfx_font_t F) : Int × Int × Int :=
  (font.atlas_x, font.atlas_y, font.atlas_row_height)

section Code

variable {F : Type}

/-! ## `find_glyph` (text.c:134-141) -/

/-- Linear scan of the cache from the front; the first entry whose codepoint equals
the key is returned. -/
def find_in_cache : List (glyph_cache_entry_t F) → Nat → Option (glyph_cache_entry_t F)
  | [], _ => none
  | e :: rest, codepoint =>
    if e.codepoint = codepoint then some e else find_in_cache rest codepoint

/-- Find glyph in cache. -/
def find_glyph (font : ocfx_font_t F) (codepoint : Nat) : Option (glyph_cache_entry_t F) :=
  find_in_cache font.glyph_cache codepoint

/-! ## `cache_glyph` (text.c:144-206) -/

/-- Lines 152-157: start a new row when the bitmap does not fit the current one. -/
def atlas_new_row (font : ocfx_font_t F) (slot : FT_GlyphSlotRec) : ocfx_font_t F :=
  if uadd (to_unsigned font.atlas_x) slot.bitmap_width > to_unsigned font.atlas_width then
    { font with
      atlas_x := 0
      atlas_y := iadd font.atlas_y font.atlas_row_height
      atlas_row_height := 0 }
  else font

/-- Lines 173-184: grow the cache storage when it is full; `none` when `realloc`
fails (the old storage is left in place). -/
def grow_cache (env : Env) (font : ocfx_font_t F) : Option (ocfx_font_t F) :=
  if font.glyph_cache.length ≥ font.glyph_cache_capacity then
    let new_cap := if font.glyph_cache_capacity * 2 = 0 then 128
      else font.glyph_cache_capacity * 2
    if env.realloc_ok new_cap then some { font with glyph_cache_capacity := new_cap }
    else none
  else some font

/-- Lines 188-197: the fields of the new entry. -/
def new_entry [Div F] [NatCast F] [IntCast F]
    (font : ocfx_font_t F) (slot : FT_GlyphSlotRec) (codepoint : Nat) :
    glyph_cache_entry_t F :=
  { codepoint := codepoint
    atlas_x := (font.atlas_x : F) / (font.atlas_width : F)
    atlas_y := (font.atlas_y : F) / (font.atlas_height : F)
    atlas_width := (slot.bitmap_width : F) / (font.atlas_width : F)
    atlas_height := (slot.bitmap_rows : F) / (font.atlas_height : F)
    width := (slot.bitmap_width : F)
    height := (slot.bitmap_rows : F)
    bearing_x := (slot.bitmap_left : F)
    bearing_y := (slot.bitmap_top : F)
    advance := ((slot.advance_x >>> 6 : Int) : F) }

/-- Lines 199-203: update atlas position. -/
def atlas_advance (font : ocfx_font_t F) (slot : FT_GlyphSlotRec) : ocfx_font_t F :=
  let font1 := { font with
    atlas_x := to_int (uadd (to_unsigned font.atlas_x) slot.bitmap_width) }
  if slot.bitmap_rows % UINT_MOD > to_unsigned font1.atlas_row_height then
    { font1 with atlas_row_height := to_int slot.bitmap_rows }
  else font1

/-- Add glyph to cache and atlas. -/
def cache_glyph [Div F] [NatCast F] [IntCast F]
    (env : Env) (font : ocfx_font_t F) (codepoint : Nat) :
    ocfx_font_t F × glyph_result F :=
  match env.FT_Load_Char codepoint with
  | none => (font, .load_failed)
  | some slot =>
    let font1 := atlas_new_row font slot
    if uadd (to_unsigned font1.atlas_y) slot.bitmap_rows > to_unsigned font1.atlas_height then
      (font1, .atlas_full)
    else
      let up : tex_upload :=
        { xoffset := font1.atlas_x
          yoffset := font1.atlas_y
          width := to_int slot.bitmap_width
          height := to_int slot.bitmap_rows }
      match grow_cache env font1 with
      | none => (font1, .alloc_failed up)
      | some font2 =>
        let entry := new_entry font2 slot codepoint
        let font3 := { font2 with glyph_cache := font2.glyph_cache ++ [entry] }
        (atlas_advance font3 slot, .cached up entry)

/-! ## `get_glyph` (text.c:209-215) -/

/-- Get or cache glyph. -/
def get_glyph [Div F] [NatCast F] [IntCast F]
    (env : Env) (font : ocfx_font_t F) (codepoint : Nat) :
    ocfx_font_t F × glyph_result F :=
  match find_glyph font codepoint with
  | some entry => (font, .hit entry)
  | none => cache_glyph env font codepoint

/-! ## Sequences of requests -/

/-- A sequence of `cache_glyph` calls (reserve requests) issued one after the other
on the same font; the results are listed in call order. -/
def cache_glyphs [Div F] [NatCast F] [IntCast F] (env : Env) :
    ocfx_font_t F → List Nat → ocfx_font_t F × List (glyph_result F)
  | font, [] => (font, [])
  | font, c :: cs =>
    ((cache_glyphs env (cache_glyph env font c).1 cs).1,
      (cache_glyph env font c).2 :: (cache_glyphs env (cache_glyph env font c).1 cs).2)

/-- A sequence of `get_glyph` calls issued one after the other on the same font. -/
def get_glyphs [Div F] [NatCast F] [IntCast F] (env : Env) :
    ocfx_font_t F → List Nat → ocfx_font_t F × List (glyph_result F)
  | font, [] => (font, [])
  | font, c :: cs =>
    ((get_glyphs env (get_glyph env font c).1 cs).1,
      (get_glyph env font c).2 :: (get_glyphs env (get_glyph env font c).1 cs).2)

/-- The atlas rectangles reserved by the successful calls of a sequence, in call
order. -/
def placements (rs : List (glyph_result F)) : List tex_upload :=
  rs.filterMap glyph_result.placement

/-! ## Text measurement and drawing (text.c:339-450) -/

/-- The cache key of one byte of the text: `(uint32_t)*p`, where `*p` is a plain
`char`.  With a signed `char` a byte of 128 or more is a negative value and is
sign-extended by the conversion. -/
def char_codepoint (env : Env) (b : Nat) : Nat :=
  if env.char_is_signed ∧ 128 ≤ b then b + 4294967040 else b

/-- The loop of `ocfx_text_measure` (text.c:346-352) over the bytes at `text`; a zero
byte ends the loop, and so does the list's last element (the terminating NUL). -/
def measure_loop [Add F] [Div F] [NatCast F] [IntCast F] (env : Env) :
    List Nat → ocfx_font_t F → F → ocfx_font_t F × F
  | [], font, w => (font, w)
  | b :: rest, font, w =>
    if b = 0 then (font, w)
    else
      match (get_glyph env font (char_codepoint env b)).2.entry with
      | some glyph =>
        measure_loop env rest (get_glyph env font (char_codepoint env b)).1 (w + glyph.advance)
      | none => measure_loop env rest (get_glyph env font (char_codepoint env b)).1 w

/-- Outcome of a measurement: the font afterwards and the values stored through the
`width` and `height` pointers (when these are not `NULL`). -/
structure measure_result (F : Type) where
  font : Option (ocfx_font_t F)
  width : F
  height : F

/-- Text measurement (text.c:339-356).  `none` stands for a `NULL` argument. -/
def ocfx_text_measure [Add F] [Div F] [NatCast F] [IntCast F] (env : Env)
    (font : Option (ocfx_font_t F)) (text : Option (List Nat)) : measure_result F :=
  match font, text with
  | some f, some t =>
    { font := some (measure_loop env t f ((0 : Int) : F)).1
      width := (measure_loop env t f ((0 : Int) : F)).2
      height := (((measure_loop env t f ((0 : Int) : F)).1.height : Int) : F) }
  | _, _ => { font := font, width := ((0 : Int) : F), height := ((0 : Int) : F) }

/-- Color (`ocfx_color_t`, types.h). -/
structure ocfx_color_t (F : Type) where
  r : F
  g : F
  b : F
  a : F

/-- The part of the renderer that `ocfx_text_draw` reads (render.c:33-34). -/
structure ocfx_renderer_t where
  viewport_width : Int
  viewport_height : Int

/-- The array `vertices` built for one glyph (text.c:412-431): 48 floats. -/
def quad_vertices [Add F] [Sub F] (pen_x pen_y : F) (glyph : glyph_cache_entry_t F)
    (color : ocfx_color_t F) : List F :=
  let x0 := pen_x + glyph.bearing_x
  let y0 := pen_y - glyph.bearing_y
  let x1 := x0 + glyph.width
  let y1 := y0 + glyph.height
  let tx0 := glyph.atlas_x
  let ty0 := glyph.atlas_y
  let tx1 := tx0 + glyph.atlas_width
  let ty1 := ty0 + glyph.atlas_height
  [ x0, y0, tx0, ty0, color.r, color.g, color.b, color.a,
    x1, y0, tx1, ty0, color.r, color.g, color.b, color.a,
    x0, y1, tx0, ty1, color.r, color.g, color.b, color.a,
    x1, y0, tx1, ty0, color.r, color.g, color.b, color.a,
    x1, y1, tx1, ty1, color.r, color.g, color.b, color.a,
    x0, y1, tx0, ty1, color.r, color.g, color.b, color.a ]

/-- The loop of `ocfx_text_draw` (text.c:408-447).  Returns the font afterwards, the
vertex arrays submitted (one `glBufferData` and `glDrawArrays (GL_TRIANGLES, 0, 6)`
per resolved glyph, in submission order) and the final value of `pen_x`. -/
def draw_loop [Add F] [Sub F] [Div F] [NatCast F] [IntCast F] (env : Env)
    (color : ocfx_color_t F) (pen_y : F) :
    List Nat → ocfx_font_t F → F → ocfx_font_t F × List (List F) × F
  | [], font, pen_x => (font, [], pen_x)
  | b :: rest, font, pen_x =>
    if b = 0 then (font, [], pen_x)
    else
      match (get_glyph env font (char_codepoint env b)).2.entry with
      | none => draw_loop env color pen_y rest (get_glyph env font (char_codepoint env b)).1 pen_x
      | some glyph =>
        ((draw_loop env color pen_y rest (get_glyph env font (char_codepoint env b)).1
            (pen_x + glyph.advance)).1,
          quad_vertices pen_x pen_y glyph color ::
            (draw_loop env color pen_y rest (get_glyph env font (char_codepoint env b)).1
              (pen_x + glyph.advance)).2.1,
          (draw_loop env color pen_y rest (get_glyph env font (char_codepoint env b)).1
            (pen_x + glyph.advance)).2.2)

/-- Outcome of a draw call: the font afterwards, the value given to the
`u_resolution` uniform (if the call got that far), the vertex arrays drawn, and the
final value of the local `pen_x`. -/
structure draw_result (F : Type) where
  font : Option (ocfx_font_t F)
  u_resolution : Option (F × F)
  quads : List (List F)
  pen_x : F

/-- Text rendering (text.c:379-450).  `none` stands for a `NULL` argument. -/
def ocfx_text_draw [Add F] [Sub F] [Div F] [NatCast F] [IntCast F] (env : Env)
    (renderer : Option ocfx_renderer_t) (font : Option (ocfx_font_t F))
    (text : Option (List Nat)) (x y : F) (color : ocfx_color_t F) : draw_result F :=
  match renderer, font, text with
  | some rd, some f, some t =>
    { font := some (draw_loop env color (y + ((f.ascent : Int) : F)) t f x).1
      u_resolution := some (((rd.viewport_width : Int) : F), ((rd.viewport_height : Int) : F))
      quads := (draw_loop env color (y + ((f.ascent : Int) : F)) t f x).2.1
      pen_x := (draw_loop env color (y + ((f.ascent : Int) : F)) t f x).2.2 }
  | _, _, _ => { font := font, u_resolution := none, quads := [], pen_x := x }

/-! ## `ocfx_text_measure_n` (text.c:358-376) -/

/-- The loop of `ocfx_text_measure_n` (text.c:366-372): at most `len` bytes are
processed (`i < len`), and a zero byte ends the loop (`text[i]`). -/
def measure_n_loop [Add F] [Div F] [NatCast F] [IntCast F] (env : Env) :
    Nat → List Nat → ocfx_font_t F → F → ocfx_font_t F × F
  | 0, _, font, w => (font, w)
  | _ + 1, [], font, w => (font, w)
  | len + 1, b :: rest, font, w =>
    if b = 0 then (font, w)
    else
      match (get_glyph env font (char_codepoint env b)).2.entry with
      | some glyph =>
        measure_n_loop env len rest (get_glyph env font (char_codepoint env b)).1
          (w + glyph.advance)
      | none => measure_n_loop env len rest (get_glyph env font (char_codepoint env b)).1 w

/-- Text measurement of at most `len` bytes.  `none` stands for a `NULL` argument. -/
def ocfx_text_measure_n [Add F] [Div F] [NatCast F] [IntCast F] (env : Env)
    (font : Option (ocfx_font_t F)) (text : Option (List Nat)) (len : Nat) :
    measure_result F :=
  match font, text with
  | some f, some t =>
    { font := some (measure_n_loop env len t f ((0 : Int) : F)).1
      width := (measure_n_loop env len t f ((0 : Int) : F)).2
      height := (((measure_n_loop env len t f ((0 : Int) : F)).1.height : Int) : F) }
  | _, _ => { font := font, width := ((0 : Int) : F), height := ((0 : Int) : F) }

/-! ## Variants of `ocfx_text_draw` (text.c:452-487) -/

/-- Rectangle (`ocfx_rect_t`, types.h). -/
structure ocfx_rect_t (F : Type) where
  x : F
  y : F
  width : F
  height : F

/-- Horizontal alignment (`ocfx_text_align_t`, text.h). -/
inductive ocfx_text_align_t where
  | OCFX_TEXT_ALIGN_LEFT
  | OCFX_TEXT_ALIGN_CENTER
  | OCFX_TEXT_ALIGN_RIGHT

/-- Baseline mode (`ocfx_text_baseline_t`, text.h). -/
inductive ocfx_text_baseline_t where
  | OCFX_TEXT_BASELINE_TOP
  | OCFX_TEXT_BASELINE_MIDDLE
  | OCFX_TEXT_BASELINE_BOTTOM
  | OCFX_TEXT_BASELINE_ALPHABETIC

/-- Drawing of the first `len` bytes (text.c:452-466): the bytes are copied into a
fresh buffer, a NUL is stored behind them and the buffer is drawn.  `malloc_ok` tells
whether the buffer could be allocated. -/
def ocfx_text_draw_n [Add F] [Sub F] [Div F] [NatCast F] [IntCast F] (env : Env)
    (malloc_ok : Bool) (renderer : Option ocfx_renderer_t) (font : Option (ocfx_font_t F))
    (text : Option (List Nat)) (len : Nat) (x y : F) (color : ocfx_color_t F) :
    draw_result F :=
  match renderer, font, text with
  | some rd, some f, some t =>
    if malloc_ok then
      ocfx_text_draw env (some rd) (some f) (some (t.take len ++ [0])) x y color
    else { font := some f, u_resolution := none, quads := [], pen_x := x }
  | _, _, _ => { font := font, u_resolution := none, quads := [], pen_x := x }

/-- Aligned drawing (text.c:469-478): alignment is not implemented, the text is drawn
at the rectangle's origin. -/
def ocfx_text_draw_aligned [Add F] [Sub F] [Div F] [NatCast F] [IntCast F] (env : Env)
    (renderer : Option ocfx_renderer_t) (font : Option (ocfx_font_t F))
    (text : Option (List Nat)) (rect : ocfx_rect_t F) (_align : ocfx_text_align_t)
    (_baseline : ocfx_text_baseline_t) (color : ocfx_color_t F) : draw_result F :=
  ocfx_text_draw env renderer font text rect.x rect.y color

/-- Wrapped drawing (text.c:480-487): wrapping is not implemented, the text is drawn
at the rectangle's origin. -/
def ocfx_text_draw_wrapped [Add F] [Sub F] [Div F] [NatCast F] [IntCast F] (env : Env)
    (renderer : Option ocfx_renderer_t) (font : Option (ocfx_font_t F))
    (text : Option (List Nat)) (rect : ocfx_rect_t F) (_line_spacing : F)
    (color : ocfx_color_t F) : draw_result F :=
  ocfx_text_draw env renderer font text rect.x rect.y color

/-! ## `ocfx_font_load` (text.c:221-284) and the metric getters (text.c:322-336) -/

/-- The fields of `face->size->metrics` that `ocfx_font_load` reads (26.6 fixed
point, `FT_Pos`). -/
structure FT_Size_Metrics where
  height : Int
  max_advance : Int
  ascender : Int
  descender : Int

/-- A face opened by `FT_New_Face`.  `FT_Set_Pixel_Sizes size` gives the error code
that `FT_Set_Pixel_Sizes (face, 0, size)` returns (0 for success) and the contents of
`face->size->metrics` after the call. -/
structure FT_FaceRec where
  FT_Set_Pixel_Sizes : Int → Int × FT_Size_Metrics

/-- External collaborators of `ocfx_font_load`: whether `calloc` succeeds, the error
code of `FT_Init_FreeType` (0 for success), the face `FT_New_Face` opens for a path
(`none` when it reports an error) and the program name returned by
`create_text_shader_program` (0 when compiling or linking failed). -/
structure LoadEnv where
  calloc_ok : Bool
  FT_Init_FreeType : Int
  FT_New_Face : String → Option FT_FaceRec
  create_text_shader_program : Nat

/-- Conversion of an `FT_Pos` (`long`) value to `int`. -/
def long_to_int (v : Int) : Int := to_int (to_unsigned v)

/-- Font loading.  `none` stands for `NULL` (arguments and result).  The value
returned by `FT_Set_Pixel_Sizes` is not looked at (text.c:246). -/
def ocfx_font_load (lenv : LoadEnv) (renderer : Option ocfx_renderer_t)
    (font_path : Option String) (size : Int) : Option (ocfx_font_t F) :=
  match renderer, font_path with
  | some _, some path =>
    if size ≤ 0 then none
    else if lenv.calloc_ok = false then none
    else if lenv.FT_Init_FreeType ≠ 0 then none
    else
      match lenv.FT_New_Face path with
      | none => none
      | some face =>
        let metrics := (face.FT_Set_Pixel_Sizes size).2
        let font : ocfx_font_t F :=
          { size := size
            height := long_to_int (metrics.height >>> 6)
            advance := long_to_int (metrics.max_advance >>> 6)
            ascent := long_to_int (metrics.ascender >>> 6)
            descent := long_to_int (metrics.descender >>> 6)
            atlas_width := 2048
            atlas_height := 2048
            atlas_x := 0
            atlas_y := 0
            atlas_row_height := 0
            glyph_cache := []
            glyph_cache_capacity := 0 }
        if lenv.create_text_shader_program = 0 then none else some font
  | _, _ => none

/-- Line height getter; 0 for a `NULL` font. -/
def ocfx_font_get_height (font : Option (ocfx_font_t F)) : Int :=
  match font with
  | some f => f.height
  | none => 0

/-- Maximal advance getter; 0 for a `NULL` font. -/
def ocfx_font_get_advance (font : Option (ocfx_font_t F)) : Int :=
  match font with
  | some f => f.advance
  | none => 0

/-- Ascent getter; 0 for a `NULL` font. -/
def ocfx_font_get_ascent (font : Option (ocfx_font_t F)) : Int :=
  match font with
  | some f => f.ascent
  | none => 0

/-- Descent getter; 0 for a `NULL` font. -/
def ocfx_font_get_descent (font : Option (ocfx_font_t F)) : Int :=
  match font with
  | some f => f.descent
  | none => 0

/-! ## `ocfx_window_dispatch` (wayland.c:740-751) -/

/-- The Wayland display connection as `ocfx_window_dispatch` sees it: the value that
`wl_display_get_error` returns after `wl_display_flush` and
`wl_display_dispatch_pending` have run, which is 0 when no error has occurred and the
`errno` code of the last error otherwise. -/
structure wl_display where
  wl_display_get_error : Int

/-- The fields of the window that `ocfx_window_dispatch` and
`ocfx_window_should_close` read. -/
structure ocfx_window_t where
  display : Option wl_display
  should_close : Bool

/-- Event loop step.  `none` stands for a `NULL` window or display. -/
def ocfx_window_dispatch (window : Option ocfx_window_t) : Int :=
  match window with
  | none => -1
  | some w =>
    match w.display with
    | none => -1
    | some d => d.wl_display_get_error

/-! ## `ocfx_key_is_printable` (input.c:59-63) -/

/-- Check if keysym is in printable range (`keysym` is a `uint32_t`). -/
def ocfx_key_is_printable (keysym : Nat) : Bool :=
  (decide (keysym ≥ 0x20) && decide (keysym < 0x7F)) ||
  (decide (keysym ≥ 0xA0) && decide (keysym < 0x100))

end Code

/-! ## Specification-side definitions -/

/-- The shelf algorithm in the words of the specification (section 4.1), on
mathematical integers.  State `(x, y, row_height)`, atlas `W x H`, request `(w, h)`:
1. if `x + w > W`, wrap: `x = 0`, `y += row_height`, `row_height = 0`;
2. if `y + h > H`: FULL (no placement);
3. otherwise the placement is `(x, y)`, then `x += w` and
   `row_height = max (row_height, h)`.
Returns the state afterwards and the placement (`none` for FULL). -/
def spec_reserve (W H : Int) (st : Int × Int × Int) (w h : Int) :
    (Int × Int × Int) × Option (Int × Int) :=
  let st1 : Int × Int × Int :=
    if st.1 + w > W then (0, st.2.1 + st.2.2, 0) else st
  if st1.2.1 + h > H then (st1, none)
  else ((st1.1 + w, st1.2.1, max st1.2.2 h), some (st1.1, st1.2.1))

/-- The 32-bit arithmetic of one `cache_glyph` call does not overflow: the atlas
fields and the bitmap dimensions are non-negative values of type `int` (below 2^31),
and so is the sum `atlas_y + atlas_row_height` formed when a row is started. -/
def no_overflow {F : Type} (font : ocfx_font_t F) (slot : FT_GlyphSlotRec) : Prop :=
  0 ≤ font.atlas_x ∧ font.atlas_x < 2147483648 ∧
  0 ≤ font.atlas_y ∧ 0 ≤ font.atlas_row_height ∧
  font.atlas_y + font.atlas_row_height < 2147483648 ∧
  0 ≤ font.atlas_width ∧ font.atlas_width < 2147483648 ∧
  0 ≤ font.atlas_height ∧ font.atlas_height < 2147483648 ∧
  slot.bitmap_width < 2147483648 ∧ slot.bitmap_rows < 2147483648

/-- The cache storage has a free slot, or the `realloc` that `cache_glyph` would
issue succeeds. -/
def storage_available {F : Type} (env : Env) (font : ocfx_font_t F) : Prop :=
  font.glyph_cache.length < font.glyph_cache_capacity ∨
  env.realloc_ok
    (if font.glyph_cache_capacity * 2 = 0 then 128 else font.glyph_cache_capacity * 2) = true

/-- Two texel rectangles `[x, x+w) x [y, y+h)` share no texel. -/
def rect_disjoint (a b : tex_upload) : Prop :=
  a.xoffset + a.width ≤ b.xoffset ∨ b.xoffset + b.width ≤ a.xoffset ∨
  a.yoffset + a.height ≤ b.yoffset ∨ b.yoffset + b.height ≤ a.yoffset

/-- Invariant of the atlas packing state: the atlas dimensions and the cursor are
non-negative `int` values and the current row lies inside the atlas
(`atlas_y + atlas_row_height ≤ atlas_height`).  It holds for the state set up by
`ocfx_font_load` and is preserved by `cache_glyph`. -/
def atlas_ok {F : Type} (font : ocfx_font_t F) : Prop :=
  0 ≤ font.atlas_width ∧ font.atlas_width < 2147483648 ∧
  0 ≤ font.atlas_height ∧ font.atlas_height < 2147483648 ∧
  0 ≤ font.atlas_x ∧ font.atlas_x < 2147483648 ∧
  0 ≤ font.atlas_y ∧ 0 ≤ font.atlas_row_height ∧
  font.atlas_y + font.atlas_row_height ≤ font.atlas_height

/-- Font `g` has the metrics, pixel size and atlas dimensions of font `f`. -/
def same_metrics {F : Type} (f g : ocfx_font_t F) : Prop :=
  g.size = f.size ∧ g.height = f.height ∧ g.advance = f.advance ∧ g.ascent = f.ascent ∧
  g.descent = f.descent ∧ g.atlas_width = f.atlas_width ∧ g.atlas_height = f.atlas_height

/-- Every bitmap that the face delivers for a character of `cs` has dimensions that
fit an `int`. -/
def bitmaps_in_range (env : Env) (cs : List Nat) : Prop :=
  ∀ c ∈ cs, ∀ slot, env.FT_Load_Char c = some slot →
    slot.bitmap_width < 2147483648 ∧ slot.bitmap_rows < 2147483648

/-- Rectangle `a` lies on an earlier shelf than `b`, or on the same shelf to its
left. -/
def shelf_before (a b : tex_upload) : Prop :=
  a.yoffset + a.height ≤ b.yoffset ∨
  (a.yoffset = b.yoffset ∧ a.xoffset + a.width ≤ b.xoffset)

/-- Rectangle `p` lies above the current row of the packing state `st`, or in the
current row to the left of the cursor and within the row height. -/
def in_shelf (st : Int × Int × Int) (p : tex_upload) : Prop :=
  p.yoffset + p.height ≤ st.2.1 ∨
  (p.yoffset = st.2.1 ∧ p.xoffset + p.width ≤ st.1 ∧ p.height ≤ st.2.2)

/-- Placement `b` does not retreat with respect to the earlier placement `a`: it is
not higher up, and if it is in the same row it is not further left. -/
def not_retreating (a b : tex_upload) : Prop :=
  a.yoffset ≤ b.yoffset ∧ (a.yoffset = b.yoffset → a.xoffset ≤ b.xoffset)

/-- The bytes of a C string: those in front of the first NUL. -/
def c_string (text : List Nat) : List Nat :=
  text.takeWhile (fun b => b != 0)

/-- The cache keys of a text: one per byte in front of the first NUL, in order. -/
def text_keys (env : Env) (text : List Nat) : List Nat :=
  (c_string text).map (char_codepoint env)

/-- The glyphs that resolve when `get_glyph` is called once for every byte of the text,
in text order, each call in the font state left by the calls before it. -/
def resolved_glyphs {F : Type} [Div F] [NatCast F] [IntCast F] (env : Env)
    (text : List Nat) (font : ocfx_font_t F) : List (glyph_cache_entry_t F) :=
  (get_glyphs env font (text_keys env text)).2.filterMap glyph_result.entry

/-- The pen position in front of each glyph of a run that starts at `pen_x`: every
glyph moves the pen by its advance. -/
def pen_positions {F : Type} [Add F] : F → List (glyph_cache_entry_t F) → List F
  | _, [] => []
  | pen_x, g :: gs => pen_x :: pen_positions (pen_x + g.advance) gs

/-- One vertex of the text pipeline as the specification describes it:
`(position.xy, texcoord.uv, color.rgba)`. -/
structure text_vertex (F : Type) where
  position : F × F
  texcoord : F × F
  color : ocfx_color_t F

/-- The interleaved float layout of a list of vertices: eight floats per vertex. -/
def interleave {F : Type} : List (text_vertex F) → List F
  | [] => []
  | v :: vs =>
    v.position.1 :: v.position.2 :: v.texcoord.1 :: v.texcoord.2 ::
      v.color.r :: v.color.g :: v.color.b :: v.color.a :: interleave vs

/-- The quad of one glyph in the words of the specification: corners from bearing and
size relative to the pen position and the baseline, UV corners from the cached atlas
rectangle, six vertices in the order top-left, top-right, bottom-left, top-right,
bottom-right, bottom-left, all with the same color. -/
def spec_quad {F : Type} [Add F] [Sub F] (pen_x baseline : F) (g : glyph_cache_entry_t F)
    (color : ocfx_color_t F) : List (text_vertex F) :=
  let x0 := pen_x + g.bearing_x
  let y0 := baseline - g.bearing_y
  let x1 := x0 + g.width
  let y1 := y0 + g.height
  let u0 := g.atlas_x
  let v0 := g.atlas_y
  let u1 := u0 + g.atlas_width
  let v1 := v0 + g.atlas_height
  let top_left : text_vertex F := ⟨(x0, y0), (u0, v0), color⟩
  let top_right : text_vertex F := ⟨(x1, y0), (u1, v0), color⟩
  let bottom_left : text_vertex F := ⟨(x0, y1), (u0, v1), color⟩
  let bottom_right : text_vertex F := ⟨(x1, y1), (u1, v1), color⟩
  [top_left, top_right, bottom_left, top_right, bottom_right, bottom_left]

/-- Font state `f` is reached from `f0` by calling operations of the text interface
on it (measuring and drawing, in any environment and with any arguments). -/
inductive font_reachable {F : Type} [Add F] [Sub F] [Div F] [NatCast F] [IntCast F]
    (f0 : ocfx_font_t F) : ocfx_font_t F → Prop where
  | start : font_reachable f0 f0
  | measure (env : Env) (text : Option (List Nat)) {f f2 : ocfx_font_t F} :
      font_reachable f0 f → (ocfx_text_measure env (some f) text).font = some f2 →
      font_reachable f0 f2
  | measure_n (env : Env) (text : Option (List Nat)) (len : Nat) {f f2 : ocfx_font_t F} :
      font_reachable f0 f → (ocfx_text_measure_n env (some f) text len).font = some f2 →
      font_reachable f0 f2
  | draw (env : Env) (renderer : Option ocfx_renderer_t) (text : Option (List Nat))
      (x y : F) (color : ocfx_color_t F) {f f2 : ocfx_font_t F} :
      font_reachable f0 f →
      (ocfx_text_draw env renderer (some f) text x y color).font = some f2 →
      font_reachable f0 f2
  | draw_n (env : Env) (malloc_ok : Bool) (renderer : Option ocfx_renderer_t)
      (text : Option (List Nat)) (len : Nat) (x y : F) (color : ocfx_color_t F)
      {f f2 : ocfx_font_t F} :
      font_reachable f0 f →
      (ocfx_text_draw_n env malloc_ok renderer (some f) text len x y color).font = some f2 →
      font_reachable f0 f2
  | draw_aligned (env : Env) (renderer : Option ocfx_renderer_t)
      (text : Option (List Nat)) (rect : ocfx_rect_t F) (align : ocfx_text_align_t)
      (baseline : ocfx_text_baseline_t) (color : ocfx_color_t F) {f f2 : ocfx_font_t F} :
      font_reachable f0 f →
      (ocfx_text_draw_aligned env renderer (some f) text rect align baseline color).font
        = some f2 →
      font_reachable f0 f2
  | draw_wrapped (env : Env) (renderer : Option ocfx_renderer_t)
      (text : Option (List Nat)) (rect : ocfx_rect_t F) (line_spacing : F)
      (color : ocfx_color_t F) {f f2 : ocfx_font_t F} :
      font_reachable f0 f →
      (ocfx_text_draw_wrapped env renderer (some f) text rect line_spacing color).font
        = some f2 →
      font_reachable f0 f2

/-- The atlas rectangle of a cache entry lies in the normalized range: its origin is
not negative and origin plus size does not exceed 1 in either direction. -/
def uv_in_range {F : Type} [Zero F] [One F] [Add F] [LE F] (e : glyph_cache_entry_t F) :
    Prop :=
  0 ≤ e.atlas_x ∧ 0 ≤ e.atlas_y ∧
  e.atlas_x + e.atlas_width ≤ 1 ∧ e.atlas_y + e.atlas_height ≤ 1

/-- The texel rectangle lies inside an atlas of `W x H` texels. -/
def rect_in_atlas (W H : Int) (p : tex_upload) : Prop :=
  0 ≤ p.xoffset ∧ 0 ≤ p.yoffset ∧ p.xoffset + p.width ≤ W ∧ p.yoffset + p.height ≤ H

/-- Capacity `cap` is `128 * 2^k` for the least `k` with `128 * 2^k ≥ size`. -/
def least_capacity (size cap : Nat) : Prop :=
  ∃ k, cap = 128 * 2 ^ k ∧ size ≤ 128 * 2 ^ k ∧ ∀ j, size ≤ 128 * 2 ^ j → k ≤ j

/-- The relation between the number of cached glyphs and the capacity of the storage
that doubling maintains: both are 0, or the capacity is the least `128 * 2^k` that
holds the entries. -/
def capacity_ok (size cap : Nat) : Prop :=
  (size = 0 ∧ cap = 0) ∨ (0 < size ∧ least_capacity size cap)

/-- A lookup of codepoint `k` that misses the cache in font state `font` cannot
create an entry: the rasterization fails, or the bitmap no longer fits below the
packing cursor, or the cache storage is full and cannot be grown. -/
def stuck {F : Type} (env : Env) (font : ocfx_font_t F) (k : Nat) : Prop :=
  env.FT_Load_Char k = none ∨
  (∃ slot, env.FT_Load_Char k = some slot ∧
    font.atlas_y + slot.bitmap_rows > font.atlas_height) ∨
  ¬ storage_available env font

/-- The answer `r` to a lookup of `k` is settled in font state `font`: it is the entry
the cache holds for `k`, or `k` is not cached and cannot be. -/
def settled {F : Type} (env : Env) (font : ocfx_font_t F) (k : Nat)
    (r : Option (glyph_cache_entry_t F)) : Prop :=
  match r with
  | some e => find_glyph font k = some e
  | none => find_glyph font k = none ∧ stuck env font k

/-- A rectangle `[x, x+w) x [y, y+h)` of the atlas in texel coordinates. -/
structure pixel_rect (F : Type) where
  x : F
  y : F
  w : F
  h : F

/-- The pixel rectangle of a cache entry in an atlas of `W x H` texels: the normalized
origin scaled back to texels, and the pixel size. -/
def entry_rect {F : Type} [Mul F] [IntCast F] (W H : Int) (e : glyph_cache_entry_t F) :
    pixel_rect F :=
  { x := e.atlas_x * (W : F), y := e.atlas_y * (H : F), w := e.width, h := e.height }

/-- The pixel rectangle written by a texture upload. -/
def upload_rect {F : Type} [IntCast F] (p : tex_upload) : pixel_rect F :=
  { x := (p.xoffset : F), y := (p.yoffset : F), w := (p.width : F), h := (p.height : F) }

/-- Two pixel rectangles are separated along the x axis or along the y axis. -/
def pixel_disjoint {F : Type} [Add F] [LE F] (a b : pixel_rect F) : Prop :=
  a.x + a.w ≤ b.x ∨ b.x + b.w ≤ a.x ∨ a.y + a.h ≤ b.y ∨ b.y + b.h ≤ a.y

/-- The point `(px, py)` lies in the rectangle. -/
def pixel_rect.covers {F : Type} [Add F] [LE F] [LT F] (r : pixel_rect F) (px py : F) :
    Prop :=
  r.x ≤ px ∧ px < r.x + r.w ∧ r.y ≤ py ∧ py < r.y + r.h

/-! ## Concrete scenarios -/

/-- A font in the state in which `ocfx_font_load` returns it (text.c:249-259): a
2048 x 2048 atlas, cursor at the origin, empty cache; line height 18. -/
def scenario_font : ocfx_font_t ℚ :=
  { size := 16, height := 18, advance := 12, ascent := 14, descent := -4
    atlas_width := 2048, atlas_height := 2048
    atlas_x := 0, atlas_y := 0, atlas_row_height := 0
    glyph_cache := [], glyph_cache_capacity := 0 }

/-- Glyph slot for 'A': a 12 x 14 bitmap, advance 10 pixels (640 in 26.6). -/
def glyph_A : FT_GlyphSlotRec :=
  { bitmap_rows := 14, bitmap_width := 12, bitmap_left := 0, bitmap_top := 14, advance_x := 640 }

/-- Glyph slot for 'B': an 11 x 14 bitmap, advance 12 pixels (768 in 26.6). -/
def glyph_B : FT_GlyphSlotRec :=
  { bitmap_rows := 14, bitmap_width := 11, bitmap_left := 1, bitmap_top := 14, advance_x := 768 }

/-- A face that has glyphs for 'A' (65) and 'B' (66) only; `realloc` succeeds. -/
def scenario_env : Env :=
  { FT_Load_Char := fun c =>
      if c = 65 then some glyph_A else if c = 66 then some glyph_B else none
    realloc_ok := fun _ => true
    char_is_signed := true }

/-- A face with three large glyphs: 65 is 2000 x 1500, 66 is 100 x 1000 and 67 is
10 x 10 pixels; `realloc` succeeds. -/
def tall_env : Env :=
  { FT_Load_Char := fun c =>
      if c = 65 then
        some { bitmap_rows := 1500, bitmap_width := 2000, bitmap_left := 0,
               bitmap_top := 1500, advance_x := 128000 }
      else if c = 66 then
        some { bitmap_rows := 1000, bitmap_width := 100, bitmap_left := 0,
               bitmap_top := 1000, advance_x := 6400 }
      else if c = 67 then
        some { bitmap_rows := 10, bitmap_width := 10, bitmap_left := 0,
               bitmap_top := 10, advance_x := 640 }
      else none
    realloc_ok := fun _ => true
    char_is_signed := true }

/-- An empty 64 x 64 atlas (the packing scenario of the specification). -/
def atlas64_font : ocfx_font_t ℚ :=
  { size := 16, height := 18, advance := 12, ascent := 14, descent := -4
    atlas_width := 64, atlas_height := 64
    atlas_x := 0, atlas_y := 0, atlas_row_height := 0
    glyph_cache := [], glyph_cache_capacity := 0 }

/-- A face whose glyphs 1, 2 and 3 have bitmaps of 40 x 40, 30 x 30 and 40 x 30
pixels; `realloc` succeeds. -/
def atlas64_env : Env :=
  { FT_Load_Char := fun c =>
      if c = 1 then
        some { bitmap_rows := 40, bitmap_width := 40, bitmap_left := 0,
               bitmap_top := 40, advance_x := 2560 }
      else if c = 2 then
        some { bitmap_rows := 30, bitmap_width := 30, bitmap_left := 0,
               bitmap_top := 30, advance_x := 1920 }
      else if c = 3 then
        some { bitmap_rows := 30, bitmap_width := 40, bitmap_left := 0,
               bitmap_top := 30, advance_x := 2560 }
      else none
    realloc_ok := fun _ => true
    char_is_signed := true }

/-- A face with three large glyphs: 'A' (65) is 2000 x 1500 with advance 2000, 'B'
(66) is 100 x 1000 with advance 100 and 'C' (67) is 40 x 600 pixels with advance 40;
`realloc` succeeds. -/
def skip_env : Env :=
  { FT_Load_Char := fun c =>
      if c = 65 then
        some { bitmap_rows := 1500, bitmap_width := 2000, bitmap_left := 0,
               bitmap_top := 1500, advance_x := 128000 }
      else if c = 66 then
        some { bitmap_rows := 1000, bitmap_width := 100, bitmap_left := 0,
               bitmap_top := 1000, advance_x := 6400 }
      else if c = 67 then
        some { bitmap_rows := 600, bitmap_width := 40, bitmap_left := 0,
               bitmap_top := 600, advance_x := 2560 }
      else none
    realloc_ok := fun _ => true
    char_is_signed := true }

/-- A scalable face: every pixel size can be set; at size `s` the line height is
`s + 2`, the ascender `s - 2` and the descender `-4` pixels. -/
def scalable_face : FT_FaceRec :=
  { FT_Set_Pixel_Sizes := fun s =>
      (0, { height := (s + 2) * 64, max_advance := s * 64,
            ascender := (s - 2) * 64, descender := -256 }) }

/-- A face with fixed-size strikes only: `FT_Set_Pixel_Sizes` reports
`FT_Err_Invalid_Pixel_Size` (23) for every size and leaves the size metrics at
zero. -/
def fixed_size_face : FT_FaceRec :=
  { FT_Set_Pixel_Sizes := fun _ =>
      (23, { height := 0, max_advance := 0, ascender := 0, descender := 0 }) }

/-- A system on which everything succeeds; the file "mono.ttf" is a scalable font,
"fixed.pcf" a font with fixed-size strikes only, and no other file can be opened. -/
def scenario_load_env : LoadEnv :=
  { calloc_ok := true
    FT_Init_FreeType := 0
    FT_New_Face := fun path =>
      if path = "mono.ttf" then some scalable_face
      else if path = "fixed.pcf" then some fixed_size_face
      else none
    create_text_shader_program := 1 }

/-- A renderer with an 800 x 600 viewport. -/
def scenario_renderer : ocfx_renderer_t :=
  { viewport_width := 800, viewport_height := 600 }

/-- The font that `ocfx_font_load` returns for "mono.ttf" at 16 pixels on the scenario
system. -/
def loaded_font : ocfx_font_t ℚ :=
  { size := 16, height := 18, advance := 16, ascent := 14, descent := -4
    atlas_width := 2048, atlas_height := 2048
    atlas_x := 0, atlas_y := 0, atlas_row_height := 0
    glyph_cache := [], glyph_cache_capacity := 0 }

/-! ## Arithmetic helper lemmas -/

section Lemmas

variable {F : Type}

theorem to_unsigned_of_range {i : Int} (h0 : 0 ≤ i) (h1 : i < 4294967296) :
    (to_unsigned i : Int) = i := by
  unfold to_unsigned
  omega

theorem to_int_of_range {n : Nat} (h : n < 2147483648) : to_int n = (n : Int) := by
  unfold to_int
  have h1 : n % 4294967296 = n := by omega
  rw [h1, if_pos h]

theorem iadd_of_range {a b : Int} (h0 : 0 ≤ a + b) (h1 : a + b < 2147483648) :
    iadd a b = a + b := by
  unfold iadd to_int to_unsigned
  split <;> omega

theorem uadd_of_range {a b : Nat} (h : a + b < 4294967296) : uadd a b = a + b := by
  unfold uadd
  omega

theorem storage_available_new_row (env : Env) (font : ocfx_font_t F)
    (slot : FT_GlyphSlotRec) :
    storage_available env (atlas_new_row font slot) = storage_available env font := by
  unfold storage_available atlas_new_row
  split <;> rfl

theorem grow_cache_of_available (env : Env) (font : ocfx_font_t F)
    (h : storage_available env font) :
    ∃ f2, grow_cache env font = some f2 ∧ f2.atlas_x = font.atlas_x ∧
      f2.atlas_y = font.atlas_y ∧ f2.atlas_row_height = font.atlas_row_height ∧
      f2.atlas_width = font.atlas_width ∧ f2.atlas_height = font.atlas_height ∧
      f2.glyph_cache = font.glyph_cache := by
  unfold grow_cache
  rcases h with h | h
  · rw [if_neg (by omega)]
    exact ⟨font, rfl, rfl, rfl, rfl, rfl, rfl, rfl⟩
  · split
    · simp only [h, if_true]
      exact ⟨_, rfl, rfl, rfl, rfl, rfl, rfl, rfl⟩
    · exact ⟨font, rfl, rfl, rfl, rfl, rfl, rfl, rfl⟩

theorem grow_cache_some (env : Env) (font f2 : ocfx_font_t F)
    (h : grow_cache env font = some f2) :
    f2.atlas_x = font.atlas_x ∧ f2.atlas_y = font.atlas_y ∧
    f2.atlas_row_height = font.atlas_row_height ∧
    f2.atlas_width = font.atlas_width ∧ f2.atlas_height = font.atlas_height ∧
    f2.glyph_cache = font.glyph_cache ∧
    font.glyph_cache_capacity ≤ f2.glyph_cache_capacity := by
  unfold grow_cache at h
  by_cases h1 : font.glyph_cache.length ≥ font.glyph_cache_capacity
  · simp only [h1, if_true] at h
    by_cases h2 : env.realloc_ok
        (if font.glyph_cache_capacity * 2 = 0 then 128 else font.glyph_cache_capacity * 2) = true
    · simp only [h2, if_true, Option.some.injEq] at h
      subst h
      refine ⟨rfl, rfl, rfl, rfl, rfl, rfl, ?_⟩
      simp only
      split <;> omega
    · simp only [h2] at h
      cases h
  · simp only [h1, if_false, Option.some.injEq] at h
    subst h
    exact ⟨rfl, rfl, rfl, rfl, rfl, rfl, le_refl _⟩

theorem atlas_advance_width (font : ocfx_font_t F) (slot : FT_GlyphSlotRec) :
    (atlas_advance font slot).atlas_width = font.atlas_width := by
  unfold atlas_advance
  simp only
  split <;> rfl

theorem atlas_advance_height (font : ocfx_font_t F) (slot : FT_GlyphSlotRec) :
    (atlas_advance font slot).atlas_height = font.atlas_height := by
  unfold atlas_advance
  simp only
  split <;> rfl

theorem atlas_advance_cache (font : ocfx_font_t F) (slot : FT_GlyphSlotRec) :
    (atlas_advance font slot).glyph_cache = font.glyph_cache := by
  unfold atlas_advance
  simp only
  split <;> rfl

theorem atlas_advance_capacity (font : ocfx_font_t F) (slot : FT_GlyphSlotRec) :
    (atlas_advance font slot).glyph_cache_capacity = font.glyph_cache_capacity := by
  unfold atlas_advance
  simp only
  split <;> rfl

theorem atlas_state_advance (font : ocfx_font_t F) (slot : FT_GlyphSlotRec)
    (hx : 0 ≤ font.atlas_x) (hr : 0 ≤ font.atlas_row_height)
    (hr1 : font.atlas_row_height < 2147483648)
    (hxw : font.atlas_x + slot.bitmap_width < 2147483648)
    (hh : slot.bitmap_rows < 2147483648) :
    atlas_state (atlas_advance font slot) =
      (font.atlas_x + slot.bitmap_width, font.atlas_y,
        max font.atlas_row_height slot.bitmap_rows) := by
  have h1 : to_int (uadd (to_unsigned font.atlas_x) slot.bitmap_width)
      = font.atlas_x + slot.bitmap_width := by
    unfold to_int uadd to_unsigned
    split <;> omega
  have h2 : (slot.bitmap_rows % UINT_MOD > to_unsigned font.atlas_row_height)
      ↔ font.atlas_row_height < slot.bitmap_rows := by
    unfold UINT_MOD to_unsigned
    omega
  unfold atlas_advance
  simp only [h1, h2]
  split
  · rename_i hlt
    simp only [atlas_state, to_int_of_range hh]
    rw [max_eq_right (le_of_lt hlt)]
  · rename_i hge
    simp only [atlas_state]
    rw [max_eq_left (not_lt.mp hge)]

theorem atlas_new_row_height (font : ocfx_font_t F) (slot : FT_GlyphSlotRec) :
    (atlas_new_row font slot).atlas_height = font.atlas_height := by
  unfold atlas_new_row
  split <;> rfl

theorem atlas_new_row_width (font : ocfx_font_t F) (slot : FT_GlyphSlotRec) :
    (atlas_new_row font slot).atlas_width = font.atlas_width := by
  unfold atlas_new_row
  split <;> rfl

theorem atlas_new_row_cache (font : ocfx_font_t F) (slot : FT_GlyphSlotRec) :
    (atlas_new_row font slot).glyph_cache = font.glyph_cache := by
  unfold atlas_new_row
  split <;> rfl

theorem atlas_new_row_capacity (font : ocfx_font_t F) (slot : FT_GlyphSlotRec) :
    (atlas_new_row font slot).glyph_cache_capacity = font.glyph_cache_capacity := by
  unfold atlas_new_row
  split <;> rfl

theorem atlas_new_row_state (font : ocfx_font_t F) (slot : FT_GlyphSlotRec)
    (h : no_overflow font slot) :
    atlas_state (atlas_new_row font slot) =
      if font.atlas_x + slot.bitmap_width > font.atlas_width then
        (0, font.atlas_y + font.atlas_row_height, 0)
      else atlas_state font := by
  obtain ⟨hx, hx1, hy, hr, hyr, hW0, hW1, hH0, hH1, hw, hh⟩ := h
  have hcond : uadd (to_unsigned font.atlas_x) slot.bitmap_width > to_unsigned font.atlas_width
      ↔ font.atlas_x + slot.bitmap_width > font.atlas_width := by
    unfold uadd to_unsigned
    omega
  unfold atlas_new_row
  by_cases hwrap : font.atlas_x + slot.bitmap_width > font.atlas_width
  · rw [if_pos (hcond.mpr hwrap), if_pos hwrap]
    simp only [atlas_state]
    rw [iadd_of_range (by omega) (by omega)]
  · rw [if_neg (fun hc => hwrap (hcond.mp hc)), if_neg hwrap]

theorem grow_cache_of_unavailable (env : Env) (font : ocfx_font_t F)
    (h : ¬ storage_available env font) : grow_cache env font = none := by
  unfold storage_available at h
  unfold grow_cache
  have h1 : font.glyph_cache.length ≥ font.glyph_cache_capacity := by omega
  have h2 : ¬ env.realloc_ok
      (if font.glyph_cache_capacity * 2 = 0 then 128 else font.glyph_cache_capacity * 2)
        = true := fun hc => h (Or.inr hc)
  simp only [h1, if_true]
  rw [if_neg h2]

/-- Case analysis of one `cache_glyph` call whose rasterization succeeds, in terms of
the wrapped cursor `st1` of the shelf algorithm. -/
theorem cache_glyph_cases [Div F] [NatCast F] [IntCast F]
    (env : Env) (font : ocfx_font_t F) (c : Nat)
    (slot : FT_GlyphSlotRec) (hload : env.FT_Load_Char c = some slot)
    (hrange : no_overflow font slot) (st1 : Int × Int × Int)
    (hst1 : st1 = if font.atlas_x + slot.bitmap_width > font.atlas_width then
        (0, font.atlas_y + font.atlas_row_height, 0) else atlas_state font) :
    (cache_glyph env font c).1.atlas_width = font.atlas_width ∧
    (cache_glyph env font c).1.atlas_height = font.atlas_height ∧
    ((st1.2.1 + slot.bitmap_rows > font.atlas_height ∧
        (cache_glyph env font c).2 = glyph_result.atlas_full ∧
        atlas_state (cache_glyph env font c).1 = st1 ∧
        (cache_glyph env font c).1.glyph_cache = font.glyph_cache ∧
        (cache_glyph env font c).1.glyph_cache_capacity = font.glyph_cache_capacity) ∨
     (st1.2.1 + slot.bitmap_rows ≤ font.atlas_height ∧ ¬ storage_available env font ∧
        (cache_glyph env font c).2 = glyph_result.alloc_failed
          ⟨st1.1, st1.2.1, slot.bitmap_width, slot.bitmap_rows⟩ ∧
        atlas_state (cache_glyph env font c).1 = st1 ∧
        (cache_glyph env font c).1.glyph_cache = font.glyph_cache ∧
        (cache_glyph env font c).1.glyph_cache_capacity = font.glyph_cache_capacity) ∨
     (st1.2.1 + slot.bitmap_rows ≤ font.atlas_height ∧ storage_available env font ∧
        ∃ e, (cache_glyph env font c).2 = glyph_result.cached
          ⟨st1.1, st1.2.1, slot.bitmap_width, slot.bitmap_rows⟩ e ∧
        atlas_state (cache_glyph env font c).1 =
          (st1.1 + slot.bitmap_width, st1.2.1, max st1.2.2 slot.bitmap_rows) ∧
        (cache_glyph env font c).1.glyph_cache = font.glyph_cache ++ [e])) := by
  have hs1 := atlas_new_row_state font slot hrange
  rw [← hst1] at hs1
  obtain ⟨hx, hx1, hy, hr, hyr, hW0, hW1, hH0, hH1, hw, hh⟩ := hrange
  have hwi : to_int slot.bitmap_width = (slot.bitmap_width : Int) := to_int_of_range hw
  have hhi : to_int slot.bitmap_rows = (slot.bitmap_rows : Int) := to_int_of_range hh
  have hH := atlas_new_row_height font slot
  have hW := atlas_new_row_width font slot
  have hC := atlas_new_row_cache font slot
  have hK := atlas_new_row_capacity font slot
  have hS := storage_available_new_row env font slot
  have hbound : 0 ≤ st1.1 ∧ st1.1 + slot.bitmap_width < 2147483648 ∧ 0 ≤ st1.2.1 ∧
      st1.2.1 < 2147483648 ∧ 0 ≤ st1.2.2 ∧ st1.2.2 < 2147483648 := by
    rw [hst1]
    unfold atlas_state
    split <;> simp only <;> omega
  simp only [cache_glyph, hload]
  generalize atlas_new_row font slot = f1 at *
  simp only [atlas_state] at hs1
  rw [← hs1] at hbound ⊢
  simp only at hbound ⊢
  obtain ⟨b1, b2, b3, b4, b5, b6⟩ := hbound
  have hfull : uadd (to_unsigned f1.atlas_y) slot.bitmap_rows > to_unsigned f1.atlas_height
      ↔ f1.atlas_y + slot.bitmap_rows > font.atlas_height := by
    unfold uadd to_unsigned
    omega
  by_cases hf : f1.atlas_y + slot.bitmap_rows > font.atlas_height
  · rw [if_pos (hfull.mpr hf)]
    exact ⟨hW, hH, Or.inl ⟨hf, rfl, rfl, hC, hK⟩⟩
  · rw [if_neg (fun hc => hf (hfull.mp hc))]
    by_cases hav : storage_available env font
    · obtain ⟨f2, hf2, hf2x, hf2y, hf2r, hf2w, hf2h, hf2c⟩ :=
        grow_cache_of_available env f1 (by rw [hS]; exact hav)
      simp only [hf2]
      have hadv := atlas_state_advance
        { f2 with glyph_cache := f2.glyph_cache ++ [new_entry f2 slot c] } slot
        (by simp only; omega) (by simp only; omega) (by simp only; omega)
        (by simp only; omega) hh
      refine ⟨?_, ?_, Or.inr (Or.inr ⟨not_lt.mp hf, hav, new_entry f2 slot c, ?_, ?_, ?_⟩)⟩
      · rw [atlas_advance_width]; simp only; rw [hf2w, hW]
      · rw [atlas_advance_height]; simp only; rw [hf2h, hH]
      · rw [hwi, hhi]
      · rw [hadv]; simp only [hf2x, hf2y, hf2r]
      · rw [atlas_advance_cache]; simp only; rw [hf2c, hC]
    · rw [grow_cache_of_unavailable env f1 (by rw [hS]; exact hav)]
      simp only
      refine ⟨hW, hH, Or.inr (Or.inl ⟨not_lt.mp hf, hav, ?_, rfl, hC, hK⟩)⟩
      rw [hwi, hhi]

theorem no_overflow_of_ok (font : ocfx_font_t F) (slot : FT_GlyphSlotRec)
    (hok : atlas_ok font)
    (hs : slot.bitmap_width < 2147483648 ∧ slot.bitmap_rows < 2147483648) :
    no_overflow font slot := by
  obtain ⟨h1, h2, h3, h4, h5, h6, h7, h8, h9⟩ := hok
  refine ⟨h5, h6, h7, h8, ?_, h1, h2, h3, h4, hs.1, hs.2⟩
  omega

/-- One `cache_glyph` call preserves the atlas invariant, keeps every earlier
rectangle inside the shelves, and puts a new rectangle after all earlier ones. -/
theorem cache_glyph_step [Div F] [NatCast F] [IntCast F]
    (env : Env) (font : ocfx_font_t F) (c : Nat) (hok : atlas_ok font)
    (hb : bitmaps_in_range env [c]) :
    atlas_ok (cache_glyph env font c).1 ∧
    font.atlas_y ≤ (cache_glyph env font c).1.atlas_y ∧
    (∀ p, in_shelf (atlas_state font) p → in_shelf (atlas_state (cache_glyph env font c).1) p) ∧
    (∀ q, (cache_glyph env font c).2.placement = some q →
      in_shelf (atlas_state (cache_glyph env font c).1) q ∧
      (∀ p, in_shelf (atlas_state font) p → shelf_before p q) ∧
      ∃ slot, env.FT_Load_Char c = some slot ∧ q.width = slot.bitmap_width ∧
        q.height = slot.bitmap_rows) := by
  cases hload : env.FT_Load_Char c with
  | none =>
    have hr : cache_glyph env font c = (font, glyph_result.load_failed) := by
      simp only [cache_glyph, hload]
    rw [hr]
    exact ⟨hok, le_refl _, fun p hp => hp, fun q hq => by simp [glyph_result.placement] at hq⟩
  | some slot =>
    have hs := hb c (List.mem_singleton.mpr rfl) slot hload
    have hc := cache_glyph_cases env font c slot hload (no_overflow_of_ok font slot hok hs) _ rfl
    obtain ⟨h1, h2, h3, h4, h5, h6, h7, h8, h9⟩ := hok
    obtain ⟨hW, hH, hc⟩ := hc
    generalize cache_glyph env font c = r at hc hW hH ⊢
    obtain ⟨f1, res⟩ := r
    simp only [atlas_state, atlas_ok, in_shelf, shelf_before] at hc hW hH ⊢
    rw [hW, hH]
    by_cases hwrap : font.atlas_x + slot.bitmap_width > font.atlas_width
    · simp only [hwrap, if_true, Prod.mk.injEq] at hc
      rcases hc with ⟨hfull, hres, ⟨hx, hy, hr⟩, -, -⟩ | ⟨hfit, -, hres, ⟨hx, hy, hr⟩, -, -⟩ |
        ⟨hfit, -, e, hres, ⟨hx, hy, hr⟩, -⟩
      · subst hres
        refine ⟨by omega, by omega, fun p hp => by omega, fun q hq => ?_⟩
        simp [glyph_result.placement] at hq
      · subst hres
        refine ⟨by omega, by omega, fun p hp => by omega, fun q hq => ?_⟩
        simp [glyph_result.placement] at hq
      · subst hres
        refine ⟨by omega, by omega, fun p hp => by omega, fun q hq => ?_⟩
        simp only [glyph_result.placement, Option.some.injEq] at hq
        subst hq
        simp only
        exact ⟨by omega, fun p hp => by omega, slot, rfl, rfl, rfl⟩
    · simp only [hwrap, if_false, Prod.mk.injEq] at hc
      rcases hc with ⟨hfull, hres, ⟨hx, hy, hr⟩, -, -⟩ | ⟨hfit, -, hres, ⟨hx, hy, hr⟩, -, -⟩ |
        ⟨hfit, -, e, hres, ⟨hx, hy, hr⟩, -⟩
      · subst hres
        refine ⟨by omega, by omega, fun p hp => by omega, fun q hq => ?_⟩
        simp [glyph_result.placement] at hq
      · subst hres
        refine ⟨by omega, by omega, fun p hp => by omega, fun q hq => ?_⟩
        simp [glyph_result.placement] at hq
      · subst hres
        refine ⟨by omega, by omega, fun p hp => by omega, fun q hq => ?_⟩
        simp only [glyph_result.placement, Option.some.injEq] at hq
        subst hq
        simp only
        exact ⟨by omega, fun p hp => by omega, slot, rfl, rfl, rfl⟩

theorem bitmaps_in_range_cons {env : Env} {c : Nat} {cs : List Nat}
    (h : bitmaps_in_range env (c :: cs)) :
    bitmaps_in_range env [c] ∧ bitmaps_in_range env cs :=
  ⟨fun d hd => h d (by rw [List.mem_singleton.mp hd]; exact List.mem_cons_self _ _),
    fun d hd => h d (List.mem_cons_of_mem _ hd)⟩

theorem placements_cons (r : glyph_result F) (rs : List (glyph_result F)) :
    placements (r :: rs) =
      match r.placement with
      | some q => q :: placements rs
      | none => placements rs := by
  unfold placements
  rw [List.filterMap_cons]
  cases r.placement <;> rfl

/-- Along a sequence of `cache_glyph` calls every new rectangle is placed after all
rectangles placed before it (in particular after the given earlier ones). -/
theorem cache_glyphs_shelf [Div F] [NatCast F] [IntCast F] (env : Env) :
    ∀ (cs : List Nat) (font : ocfx_font_t F) (placed : List tex_upload),
      atlas_ok font → bitmaps_in_range env cs →
      (∀ p ∈ placed, in_shelf (atlas_state font) p) →
      placed.Pairwise shelf_before →
      (placed ++ placements (cache_glyphs env font cs).2).Pairwise shelf_before := by
  intro cs
  induction cs with
  | nil =>
    intro font placed _ _ _ hp
    simpa [cache_glyphs, placements] using hp
  | cons c cs ih =>
    intro font placed hok hb hin hp
    obtain ⟨hb1, hb2⟩ := bitmaps_in_range_cons hb
    obtain ⟨hok1, -, hkeep, hnew⟩ := cache_glyph_step env font c hok hb1
    simp only [cache_glyphs]
    rw [placements_cons]
    cases hq : (cache_glyph env font c).2.placement with
    | none =>
      simp only
      exact ih _ placed hok1 hb2 (fun p hpm => hkeep p (hin p hpm)) hp
    | some q =>
      simp only
      obtain ⟨hqin, hqafter, -⟩ := hnew q hq
      have h := ih (cache_glyph env font c).1 (placed ++ [q]) hok1 hb2
        (fun p hpm => by
          rcases List.mem_append.mp hpm with h1 | h1
          · exact hkeep p (hin p h1)
          · rw [List.mem_singleton.mp h1]; exact hqin)
        (List.pairwise_append.mpr ⟨hp, List.pairwise_singleton _ _, fun a ha b hb => by
          rw [List.mem_singleton.mp hb]; exact hqafter a (hin a ha)⟩)
      simpa using h

/-- Every rectangle reserved along a sequence of `cache_glyph` calls has the
dimensions of the bitmap of one of the requested characters. -/
theorem placements_dims [Div F] [NatCast F] [IntCast F] (env : Env) :
    ∀ (cs : List Nat) (font : ocfx_font_t F),
      atlas_ok font → bitmaps_in_range env cs →
      ∀ q ∈ placements (cache_glyphs env font cs).2,
        ∃ c ∈ cs, ∃ slot, env.FT_Load_Char c = some slot ∧
          q.width = slot.bitmap_width ∧ q.height = slot.bitmap_rows := by
  intro cs
  induction cs with
  | nil =>
    intro font _ _ q hq
    simp [cache_glyphs, placements] at hq
  | cons c cs ih =>
    intro font hok hb q hq
    obtain ⟨hb1, hb2⟩ := bitmaps_in_range_cons hb
    obtain ⟨hok1, -, -, hnew⟩ := cache_glyph_step env font c hok hb1
    simp only [cache_glyphs] at hq
    rw [placements_cons] at hq
    cases hp : (cache_glyph env font c).2.placement with
    | none =>
      rw [hp] at hq
      obtain ⟨d, hd, hrest⟩ := ih _ hok1 hb2 q hq
      exact ⟨d, List.mem_cons_of_mem _ hd, hrest⟩
    | some p =>
      rw [hp] at hq
      rcases List.mem_cons.mp hq with h1 | h1
      · obtain ⟨-, -, slot, hs⟩ := hnew p hp
        rw [h1]
        exact ⟨c, List.mem_cons_self _ _, slot, hs⟩
      · obtain ⟨d, hd, hrest⟩ := ih _ hok1 hb2 q h1
        exact ⟨d, List.mem_cons_of_mem _ hd, hrest⟩

theorem cache_glyph_dims [Div F] [NatCast F] [IntCast F]
    (env : Env) (font : ocfx_font_t F) (c : Nat) :
    (cache_glyph env font c).1.atlas_width = font.atlas_width ∧
    (cache_glyph env font c).1.atlas_height = font.atlas_height := by
  unfold cache_glyph
  cases env.FT_Load_Char c with
  | none => exact ⟨rfl, rfl⟩
  | some slot =>
    simp only
    split
    · exact ⟨atlas_new_row_width font slot, atlas_new_row_height font slot⟩
    · cases hg : grow_cache env (atlas_new_row font slot) with
      | none => exact ⟨atlas_new_row_width font slot, atlas_new_row_height font slot⟩
      | some f2 =>
        simp only
        rw [atlas_advance_width, atlas_advance_height]
        simp only
        obtain ⟨-, -, -, hw, hh, -, -⟩ := grow_cache_some env _ f2 hg
        exact ⟨hw.trans (atlas_new_row_width font slot), hh.trans (atlas_new_row_height font slot)⟩

/-- A sequence of `cache_glyph` calls preserves the atlas invariant and the atlas
dimensions and never moves `atlas_y` up. -/
theorem cache_glyphs_run [Div F] [NatCast F] [IntCast F] (env : Env) :
    ∀ (cs : List Nat) (font : ocfx_font_t F), atlas_ok font → bitmaps_in_range env cs →
      atlas_ok (cache_glyphs env font cs).1 ∧
      font.atlas_y ≤ (cache_glyphs env font cs).1.atlas_y ∧
      (cache_glyphs env font cs).1.atlas_width = font.atlas_width ∧
      (cache_glyphs env font cs).1.atlas_height = font.atlas_height := by
  intro cs
  induction cs with
  | nil =>
    intro font hok _
    exact ⟨hok, le_refl _, rfl, rfl⟩
  | cons c cs ih =>
    intro font hok hb
    obtain ⟨hb1, hb2⟩ := bitmaps_in_range_cons hb
    obtain ⟨hok1, hy1, -, -⟩ := cache_glyph_step env font c hok hb1
    obtain ⟨hW, hH⟩ := cache_glyph_dims env font c
    obtain ⟨hok2, hy2, hW2, hH2⟩ := ih _ hok1 hb2
    simp only [cache_glyphs]
    exact ⟨hok2, le_trans hy1 hy2, hW2.trans hW, hH2.trans hH⟩

/-- Once a request of height `h` has hit the "atlas full" return, a later request of
height at least `h` hits it too, whatever was requested in between. -/
theorem full_persists [Div F] [NatCast F] [IntCast F]
    (env : Env) (font : ocfx_font_t F) (c : Nat) (cs : List Nat) (d : Nat)
    (slot slot2 : FT_GlyphSlotRec) (hok : atlas_ok font)
    (hb : bitmaps_in_range env (c :: d :: cs))
    (hc : env.FT_Load_Char c = some slot) (hd : env.FT_Load_Char d = some slot2)
    (hfull : (cache_glyph env font c).2 = glyph_result.atlas_full)
    (hh : slot.bitmap_rows ≤ slot2.bitmap_rows) :
    (cache_glyph env (cache_glyphs env (cache_glyph env font c).1 cs).1 d).2 =
      glyph_result.atlas_full := by
  obtain ⟨hb1, hb2⟩ := bitmaps_in_range_cons hb
  obtain ⟨hb3, hb4⟩ := bitmaps_in_range_cons hb2
  obtain ⟨hok1, -, -, -⟩ := cache_glyph_step env font c hok hb1
  obtain ⟨hW1, hH1⟩ := cache_glyph_dims env font c
  have hs := hb1 c (List.mem_singleton.mpr rfl) slot hc
  have hc1 := cache_glyph_cases env font c slot hc (no_overflow_of_ok font slot hok hs) _ rfl
  obtain ⟨-, -, hc1⟩ := hc1
  have hy1 : (cache_glyph env font c).1.atlas_y + slot.bitmap_rows > font.atlas_height := by
    rcases hc1 with ⟨hgt, -, hst, -, -⟩ | ⟨-, -, hres, -⟩ | ⟨-, -, e, hres, -⟩
    · rw [← hst] at hgt
      exact hgt
    · rw [hfull] at hres
      cases hres
    · rw [hfull] at hres
      cases hres
  obtain ⟨hok2, hy2, -, hH2⟩ := cache_glyphs_run env cs _ hok1 hb4
  generalize (cache_glyphs env (cache_glyph env font c).1 cs).1 = f2 at hok2 hy2 hH2 ⊢
  have hs2 := hb3 d (List.mem_singleton.mpr rfl) slot2 hd
  have hc2 := cache_glyph_cases env f2 d slot2 hd (no_overflow_of_ok f2 slot2 hok2 hs2) _ rfl
  obtain ⟨-, -, hc2⟩ := hc2
  have hge : f2.atlas_y ≤ (if f2.atlas_x + (slot2.bitmap_width : Int) > f2.atlas_width then
      ((0 : Int), f2.atlas_y + f2.atlas_row_height, (0 : Int)) else atlas_state f2).2.1 := by
    have h8 : 0 ≤ f2.atlas_row_height := hok2.2.2.2.2.2.2.2.1
    unfold atlas_state
    split <;> simp only <;> omega
  rcases hc2 with ⟨-, hres, -⟩ | ⟨hfit, -⟩ | ⟨hfit, -⟩
  · exact hres
  · omega
  · omega

theorem to_int_idem (n : Nat) : to_int (to_unsigned (to_int n + 0)) = to_int n := by
  unfold to_int to_unsigned
  split <;> split <;> omega

theorem atlas_new_row_idem (font : ocfx_font_t F) (slot : FT_GlyphSlotRec) :
    atlas_new_row (atlas_new_row font slot) slot = atlas_new_row font slot := by
  by_cases h1 : uadd (to_unsigned font.atlas_x) slot.bitmap_width > to_unsigned font.atlas_width
  · have e1 : atlas_new_row font slot = { font with
        atlas_x := 0
        atlas_y := iadd font.atlas_y font.atlas_row_height
        atlas_row_height := 0 } := by
      unfold atlas_new_row
      rw [if_pos h1]
    rw [e1]
    unfold atlas_new_row
    simp only
    split
    · have h2 : iadd (iadd font.atlas_y font.atlas_row_height) 0
          = iadd font.atlas_y font.atlas_row_height := by
        unfold iadd
        exact to_int_idem _
      rw [h2]
    · rfl
  · have e1 : atlas_new_row font slot = font := by
      unfold atlas_new_row
      rw [if_neg h1]
    rw [e1, e1]

theorem find_in_cache_append (l : List (glyph_cache_entry_t F)) (e : glyph_cache_entry_t F)
    (c : Nat) :
    find_in_cache (l ++ [e]) c =
      match find_in_cache l c with
      | some x => some x
      | none => if e.codepoint = c then some e else none := by
  induction l with
  | nil => simp [find_in_cache]
  | cons a l ih =>
    simp only [List.cons_append, find_in_cache]
    split
    · rfl
    · exact ih

theorem find_in_cache_none (l : List (glyph_cache_entry_t F)) (c : Nat) :
    find_in_cache l c = none ↔ ∀ e ∈ l, e.codepoint ≠ c := by
  induction l with
  | nil => simp [find_in_cache]
  | cons a l ih =>
    simp only [find_in_cache, List.mem_cons, forall_eq_or_imp]
    split
    · rename_i h
      simp [h]
    · rename_i h
      simp [h, ih]

theorem find_in_cache_some (l : List (glyph_cache_entry_t F)) (c : Nat)
    (e : glyph_cache_entry_t F) (h : find_in_cache l c = some e) :
    e ∈ l ∧ e.codepoint = c := by
  induction l with
  | nil => simp [find_in_cache] at h
  | cons a l ih =>
    simp only [find_in_cache] at h
    split at h
    · rename_i hc
      cases h
      exact ⟨List.mem_cons_self _ _, hc⟩
    · exact ⟨List.mem_cons_of_mem _ (ih h).1, (ih h).2⟩

/-- The two ways a `cache_glyph` call can end, as seen by the cache: either nothing
is returned, the cache is untouched and an immediate retry behaves identically, or
one entry for the requested codepoint is appended and returned. -/
theorem cache_glyph_outcome [Div F] [NatCast F] [IntCast F]
    (env : Env) (font : ocfx_font_t F) (c : Nat) :
    ((cache_glyph env font c).2.entry = none ∧
      (cache_glyph env font c).2.placement = none ∧
      (cache_glyph env font c).1.glyph_cache = font.glyph_cache ∧
      (cache_glyph env font c).1.glyph_cache_capacity = font.glyph_cache_capacity ∧
      cache_glyph env (cache_glyph env font c).1 c = cache_glyph env font c) ∨
    (∃ up e, (cache_glyph env font c).2 = glyph_result.cached up e ∧ e.codepoint = c ∧
      (cache_glyph env font c).1.glyph_cache = font.glyph_cache ++ [e] ∧
      font.glyph_cache_capacity ≤ (cache_glyph env font c).1.glyph_cache_capacity) := by
  cases hload : env.FT_Load_Char c with
  | none =>
    have hr : cache_glyph env font c = (font, glyph_result.load_failed) := by
      simp only [cache_glyph, hload]
    rw [hr]
    exact Or.inl ⟨rfl, rfl, rfl, rfl, hr⟩
  | some slot =>
    have hidem := atlas_new_row_idem font slot
    have hC := atlas_new_row_cache font slot
    have hK := atlas_new_row_capacity font slot
    by_cases hfull : uadd (to_unsigned (atlas_new_row font slot).atlas_y) slot.bitmap_rows
        > to_unsigned (atlas_new_row font slot).atlas_height
    · have hr : cache_glyph env font c = (atlas_new_row font slot, glyph_result.atlas_full) := by
        simp only [cache_glyph, hload, hfull, if_true]
      have hr2 : cache_glyph env (atlas_new_row font slot) c
          = (atlas_new_row font slot, glyph_result.atlas_full) := by
        simp only [cache_glyph, hload, hidem, hfull, if_true]
      rw [hr]
      exact Or.inl ⟨rfl, rfl, hC, hK, hr2⟩
    · cases hg : grow_cache env (atlas_new_row font slot) with
      | none =>
        have hr : cache_glyph env font c = (atlas_new_row font slot,
            glyph_result.alloc_failed
              { xoffset := (atlas_new_row font slot).atlas_x
                yoffset := (atlas_new_row font slot).atlas_y
                width := to_int slot.bitmap_width
                height := to_int slot.bitmap_rows }) := by
          simp only [cache_glyph, hload, hfull, if_false, hg]
        have hr2 : cache_glyph env (atlas_new_row font slot) c = (atlas_new_row font slot,
            glyph_result.alloc_failed
              { xoffset := (atlas_new_row font slot).atlas_x
                yoffset := (atlas_new_row font slot).atlas_y
                width := to_int slot.bitmap_width
                height := to_int slot.bitmap_rows }) := by
          simp only [cache_glyph, hload, hidem, hfull, if_false, hg]
        rw [hr]
        exact Or.inl ⟨rfl, rfl, hC, hK, hr2⟩
      | some f2 =>
        obtain ⟨-, -, -, -, -, hf2c, hf2k⟩ := grow_cache_some env _ f2 hg
        refine Or.inr ⟨{ xoffset := (atlas_new_row font slot).atlas_x
                         yoffset := (atlas_new_row font slot).atlas_y
                         width := to_int slot.bitmap_width
                         height := to_int slot.bitmap_rows },
          new_entry f2 slot c, ?_, rfl, ?_, ?_⟩
        · simp only [cache_glyph, hload, hfull, if_false, hg]
        · simp only [cache_glyph, hload, hfull, if_false, hg]
          rw [atlas_advance_cache]
          simp only
          rw [hf2c, hC]
        · simp only [cache_glyph, hload, hfull, if_false, hg]
          rw [atlas_advance_capacity]
          simp only
          omega

theorem tall_env_sizes (cs : List Nat) : bitmaps_in_range tall_env cs := by
  intro c _ slot hs
  simp only [tall_env] at hs
  split at hs
  · cases hs
    simp
  · split at hs
    · cases hs
      simp
    · split at hs
      · cases hs
        simp
      · cases hs

theorem get_glyph_of_miss [Div F] [NatCast F] [IntCast F]
    (env : Env) (font : ocfx_font_t F) (c : Nat) (h : find_glyph font c = none) :
    get_glyph env font c = cache_glyph env font c := by
  simp only [get_glyph, h]

theorem get_glyph_of_hit [Div F] [NatCast F] [IntCast F]
    (env : Env) (font : ocfx_font_t F) (c : Nat) (e : glyph_cache_entry_t F)
    (h : find_glyph font c = some e) :
    get_glyph env font c = (font, glyph_result.hit e) := by
  simp only [get_glyph, h]

/-- What one `get_glyph` call does to the cache: a hit or a failure leaves it as it
is, a successful miss appends one entry for a codepoint that was not cached. -/
theorem get_glyph_outcome [Div F] [NatCast F] [IntCast F]
    (env : Env) (font : ocfx_font_t F) (c : Nat) :
    (∃ e, find_glyph font c = some e ∧ get_glyph env font c = (font, glyph_result.hit e)) ∨
    (find_glyph font c = none ∧ get_glyph env font c = cache_glyph env font c ∧
      (cache_glyph env font c).2.entry = none ∧
      (cache_glyph env font c).2.cached_codepoint = none ∧
      (cache_glyph env font c).1.glyph_cache = font.glyph_cache ∧
      (cache_glyph env font c).1.glyph_cache_capacity = font.glyph_cache_capacity ∧
      cache_glyph env (cache_glyph env font c).1 c = cache_glyph env font c) ∨
    (find_glyph font c = none ∧ get_glyph env font c = cache_glyph env font c ∧
      ∃ up e, (cache_glyph env font c).2 = glyph_result.cached up e ∧ e.codepoint = c ∧
        (cache_glyph env font c).1.glyph_cache = font.glyph_cache ++ [e] ∧
        font.glyph_cache_capacity ≤ (cache_glyph env font c).1.glyph_cache_capacity) := by
  cases hf : find_glyph font c with
  | some e =>
    refine Or.inl ⟨e, rfl, ?_⟩
    simp only [get_glyph, hf]
  | none =>
    have hg : get_glyph env font c = cache_glyph env font c := by
      simp only [get_glyph, hf]
    rcases cache_glyph_outcome env font c with ⟨h1, h2, h3, h4, h5⟩ | ⟨up, e, h1, h2, h3, h4⟩
    · refine Or.inr (Or.inl ⟨rfl, hg, h1, ?_, h3, h4, h5⟩)
      revert h1
      cases (cache_glyph env font c).2 <;> simp [glyph_result.entry, glyph_result.cached_codepoint]
    · exact Or.inr (Or.inr ⟨rfl, hg, up, e, h1, h2, h3, h4⟩)

/-- The codepoints in the cache after a sequence of `get_glyph` calls are those
before it followed by the codepoints of the entries created, in call order. -/
theorem get_glyphs_codepoints [Div F] [NatCast F] [IntCast F] (env : Env) :
    ∀ (cs : List Nat) (font : ocfx_font_t F),
      (get_glyphs env font cs).1.glyph_cache.map (fun e => e.codepoint) =
        font.glyph_cache.map (fun e => e.codepoint) ++
          (get_glyphs env font cs).2.filterMap glyph_result.cached_codepoint := by
  intro cs
  induction cs with
  | nil =>
    intro font
    simp [get_glyphs]
  | cons c cs ih =>
    intro font
    simp only [get_glyphs]
    rw [ih, List.filterMap_cons]
    rcases get_glyph_outcome env font c with ⟨e, -, hg⟩ | ⟨-, hg, -, h2, h3, -⟩ |
      ⟨-, hg, up, e, h1, h2, h3, -⟩
    · rw [hg]
      simp [glyph_result.cached_codepoint]
    · rw [hg, h2, h3]
    · rw [hg, h1, h3]
      simp [glyph_result.cached_codepoint]

/-- A sequence of `get_glyph` calls keeps the codepoints of the cache pairwise
distinct. -/
theorem get_glyphs_nodup [Div F] [NatCast F] [IntCast F] (env : Env) :
    ∀ (cs : List Nat) (font : ocfx_font_t F),
      (font.glyph_cache.map (fun e => e.codepoint)).Nodup →
      ((get_glyphs env font cs).1.glyph_cache.map (fun e => e.codepoint)).Nodup := by
  intro cs
  induction cs with
  | nil =>
    intro font h
    exact h
  | cons c cs ih =>
    intro font h
    simp only [get_glyphs]
    apply ih
    rcases get_glyph_outcome env font c with ⟨e, -, hg⟩ | ⟨-, hg, -, -, h3, -⟩ |
      ⟨hf, hg, up, e, -, h2, h3, -⟩
    · rw [hg]
      exact h
    · rw [hg, h3]
      exact h
    · rw [hg, h3, List.map_append, List.map_singleton]
      have hnot := (find_in_cache_none font.glyph_cache c).mp hf
      refine List.Nodup.append h (List.nodup_singleton _) ?_
      intro a ha hb
      rw [List.mem_singleton] at hb
      obtain ⟨x, hx, hxa⟩ := List.mem_map.mp ha
      exact hnot x hx (by rw [hxa, hb, h2])

theorem same_metrics_trans {f g h : ocfx_font_t F} (h1 : same_metrics f g)
    (h2 : same_metrics g h) : same_metrics f h := by
  obtain ⟨a1, a2, a3, a4, a5, a6, a7⟩ := h1
  obtain ⟨b1, b2, b3, b4, b5, b6, b7⟩ := h2
  exact ⟨b1.trans a1, b2.trans a2, b3.trans a3, b4.trans a4, b5.trans a5, b6.trans a6,
    b7.trans a7⟩

theorem atlas_new_row_metrics (font : ocfx_font_t F) (slot : FT_GlyphSlotRec) :
    same_metrics font (atlas_new_row font slot) := by
  unfold atlas_new_row
  split
  · exact ⟨rfl, rfl, rfl, rfl, rfl, rfl, rfl⟩
  · exact ⟨rfl, rfl, rfl, rfl, rfl, rfl, rfl⟩

theorem atlas_advance_metrics (font : ocfx_font_t F) (slot : FT_GlyphSlotRec) :
    same_metrics font (atlas_advance font slot) := by
  unfold atlas_advance
  simp only
  split
  · exact ⟨rfl, rfl, rfl, rfl, rfl, rfl, rfl⟩
  · exact ⟨rfl, rfl, rfl, rfl, rfl, rfl, rfl⟩

theorem grow_cache_metrics (env : Env) (font f2 : ocfx_font_t F)
    (h : grow_cache env font = some f2) : same_metrics font f2 := by
  unfold grow_cache at h
  by_cases h1 : font.glyph_cache.length ≥ font.glyph_cache_capacity
  · simp only [h1, if_true] at h
    by_cases h2 : env.realloc_ok
        (if font.glyph_cache_capacity * 2 = 0 then 128 else font.glyph_cache_capacity * 2) = true
    · simp only [h2, if_true, Option.some.injEq] at h
      subst h
      exact ⟨rfl, rfl, rfl, rfl, rfl, rfl, rfl⟩
    · simp only [h2] at h
      cases h
  · simp only [h1, if_false, Option.some.injEq] at h
    subst h
    exact ⟨rfl, rfl, rfl, rfl, rfl, rfl, rfl⟩

/-- Frame of `cache_glyph`: the font metrics and the atlas dimensions do not change. -/
theorem cache_glyph_metrics [Div F] [NatCast F] [IntCast F]
    (env : Env) (font : ocfx_font_t F) (c : Nat) :
    same_metrics font (cache_glyph env font c).1 := by
  unfold cache_glyph
  cases env.FT_Load_Char c with
  | none => exact ⟨rfl, rfl, rfl, rfl, rfl, rfl, rfl⟩
  | some slot =>
    simp only
    split
    · exact atlas_new_row_metrics font slot
    · cases hg : grow_cache env (atlas_new_row font slot) with
      | none => exact atlas_new_row_metrics font slot
      | some f2 =>
        simp only
        refine same_metrics_trans (atlas_new_row_metrics font slot)
          (same_metrics_trans (grow_cache_metrics env _ f2 hg)
            (same_metrics_trans ?_ (atlas_advance_metrics _ slot)))
        exact ⟨rfl, rfl, rfl, rfl, rfl, rfl, rfl⟩

/-- Frame of `get_glyph`: the font metrics and the atlas dimensions do not change. -/
theorem get_glyph_metrics [Div F] [NatCast F] [IntCast F]
    (env : Env) (font : ocfx_font_t F) (c : Nat) :
    same_metrics font (get_glyph env font c).1 := by
  unfold get_glyph
  cases find_glyph font c with
  | some e => exact ⟨rfl, rfl, rfl, rfl, rfl, rfl, rfl⟩
  | none => exact cache_glyph_metrics env font c

theorem get_glyph_height [Div F] [NatCast F] [IntCast F]
    (env : Env) (font : ocfx_font_t F) (c : Nat) :
    (get_glyph env font c).1.height = font.height :=
  (get_glyph_metrics env font c).2.1

theorem resolved_glyphs_nil [Div F] [NatCast F] [IntCast F] (env : Env)
    (font : ocfx_font_t F) : resolved_glyphs env [] font = [] := rfl

theorem resolved_glyphs_zero [Div F] [NatCast F] [IntCast F] (env : Env)
    (rest : List Nat) (font : ocfx_font_t F) : resolved_glyphs env (0 :: rest) font = [] := rfl

theorem resolved_glyphs_cons [Div F] [NatCast F] [IntCast F] (env : Env)
    (b : Nat) (rest : List Nat) (font : ocfx_font_t F) (hb : b ≠ 0) :
    resolved_glyphs env (b :: rest) font =
      match (get_glyph env font (char_codepoint env b)).2.entry with
      | some glyph =>
        glyph :: resolved_glyphs env rest (get_glyph env font (char_codepoint env b)).1
      | none => resolved_glyphs env rest (get_glyph env font (char_codepoint env b)).1 := by
  have h1 : c_string (b :: rest) = b :: c_string rest := by
    unfold c_string
    rw [List.takeWhile_cons_of_pos (by simpa using hb)]
  unfold resolved_glyphs text_keys
  rw [h1, List.map_cons]
  simp only [get_glyphs, List.filterMap_cons]
  cases (get_glyph env font (char_codepoint env b)).2.entry <;> rfl

/-- The loop of `ocfx_text_measure` adds the advances of the resolved glyphs to the
running width, in text order, and does not touch the line height. -/
theorem measure_loop_trace [Add F] [Div F] [NatCast F] [IntCast F] (env : Env) :
    ∀ (text : List Nat) (font : ocfx_font_t F) (w : F),
      (measure_loop env text font w).2 =
        ((resolved_glyphs env text font).map (fun g => g.advance)).foldl (· + ·) w ∧
      (measure_loop env text font w).1.height = font.height := by
  intro text
  induction text with
  | nil =>
    intro font w
    exact ⟨rfl, rfl⟩
  | cons b rest ih =>
    intro font w
    by_cases hb : b = 0
    · subst hb
      simp [measure_loop, resolved_glyphs_zero]
    · rw [resolved_glyphs_cons env b rest font hb]
      simp only [measure_loop, hb, if_false]
      have hh := get_glyph_height env font (char_codepoint env b)
      cases (get_glyph env font (char_codepoint env b)).2.entry with
      | none =>
        simp only
        exact ⟨(ih _ w).1, (ih _ w).2.trans hh⟩
      | some g =>
        simp only [List.map_cons, List.foldl_cons]
        exact ⟨(ih _ _).1, (ih _ _).2.trans hh⟩

/-- The loop of `ocfx_text_draw` submits one vertex array per resolved glyph, in text
order, each built at the pen position reached so far, and ends with the pen moved by
all the advances. -/
theorem draw_loop_trace [Add F] [Sub F] [Div F] [NatCast F] [IntCast F] (env : Env)
    (color : ocfx_color_t F) (pen_y : F) :
    ∀ (text : List Nat) (font : ocfx_font_t F) (pen_x : F),
      (draw_loop env color pen_y text font pen_x).2.1 =
        List.zipWith (fun p g => quad_vertices p pen_y g color)
          (pen_positions pen_x (resolved_glyphs env text font))
          (resolved_glyphs env text font) ∧
      (draw_loop env color pen_y text font pen_x).2.2 =
        ((resolved_glyphs env text font).map (fun g => g.advance)).foldl (· + ·) pen_x := by
  intro text
  induction text with
  | nil =>
    intro font pen_x
    exact ⟨rfl, rfl⟩
  | cons b rest ih =>
    intro font pen_x
    by_cases hb : b = 0
    · subst hb
      simp [draw_loop, resolved_glyphs_zero, pen_positions]
    · rw [resolved_glyphs_cons env b rest font hb]
      simp only [draw_loop, hb, if_false]
      cases (get_glyph env font (char_codepoint env b)).2.entry with
      | none =>
        simp only
        exact ih _ pen_x
      | some g =>
        simp only [List.map_cons, List.foldl_cons, pen_positions, List.zipWith_cons_cons]
        exact ⟨by rw [(ih _ _).1], (ih _ _).2⟩

theorem text_keys_cons (env : Env) (b : Nat) (rest : List Nat) (hb : b ≠ 0) :
    text_keys env (b :: rest) = char_codepoint env b :: text_keys env rest := by
  unfold text_keys c_string
  rw [List.takeWhile_cons_of_pos (by simpa using hb), List.map_cons]

/-- The font state after `ocfx_text_measure`'s loop is the state after one `get_glyph`
call per byte of the text. -/
theorem measure_loop_font [Add F] [Div F] [NatCast F] [IntCast F] (env : Env) :
    ∀ (text : List Nat) (font : ocfx_font_t F) (w : F),
      (measure_loop env text font w).1 = (get_glyphs env font (text_keys env text)).1 := by
  intro text
  induction text with
  | nil =>
    intro font w
    rfl
  | cons b rest ih =>
    intro font w
    by_cases hb : b = 0
    · subst hb
      rfl
    · rw [text_keys_cons env b rest hb]
      simp only [measure_loop, hb, if_false, get_glyphs]
      cases (get_glyph env font (char_codepoint env b)).2.entry with
      | none => exact ih _ _
      | some g => exact ih _ _

/-- The font state after `ocfx_text_draw`'s loop is the state after one `get_glyph`
call per byte of the text. -/
theorem draw_loop_font [Add F] [Sub F] [Div F] [NatCast F] [IntCast F] (env : Env)
    (color : ocfx_color_t F) (pen_y : F) :
    ∀ (text : List Nat) (font : ocfx_font_t F) (pen_x : F),
      (draw_loop env color pen_y text font pen_x).1 =
        (get_glyphs env font (text_keys env text)).1 := by
  intro text
  induction text with
  | nil =>
    intro font pen_x
    rfl
  | cons b rest ih =>
    intro font pen_x
    by_cases hb : b = 0
    · subst hb
      rfl
    · rw [text_keys_cons env b rest hb]
      simp only [draw_loop, hb, if_false, get_glyphs]
      cases (get_glyph env font (char_codepoint env b)).2.entry with
      | none => exact ih _ _
      | some g => exact ih _ _

theorem same_metrics_refl (f : ocfx_font_t F) : same_metrics f f :=
  ⟨rfl, rfl, rfl, rfl, rfl, rfl, rfl⟩

/-- A sequence of `get_glyph` calls leaves the metrics and the atlas dimensions as
they are. -/
theorem get_glyphs_metrics [Div F] [NatCast F] [IntCast F] (env : Env) :
    ∀ (cs : List Nat) (font : ocfx_font_t F), same_metrics font (get_glyphs env font cs).1 := by
  intro cs
  induction cs with
  | nil =>
    intro font
    exact same_metrics_refl font
  | cons c cs ih =>
    intro font
    simp only [get_glyphs]
    exact same_metrics_trans (get_glyph_metrics env font c) (ih _)

theorem measure_n_loop_metrics [Add F] [Div F] [NatCast F] [IntCast F] (env : Env) :
    ∀ (len : Nat) (text : List Nat) (font : ocfx_font_t F) (w : F),
      same_metrics font (measure_n_loop env len text font w).1 := by
  intro len
  induction len with
  | zero =>
    intro text font w
    simp only [measure_n_loop]
    exact same_metrics_refl font
  | succ n ih =>
    intro text font w
    cases text with
    | nil =>
      simp only [measure_n_loop]
      exact same_metrics_refl font
    | cons b rest =>
      by_cases hb : b = 0
      · simp only [measure_n_loop, hb, if_true]
        exact same_metrics_refl font
      · simp only [measure_n_loop, hb, if_false]
        have hg := get_glyph_metrics env font (char_codepoint env b)
        cases (get_glyph env font (char_codepoint env b)).2.entry with
        | none => exact same_metrics_trans hg (ih _ _ _)
        | some g => exact same_metrics_trans hg (ih _ _ _)

theorem measure_metrics [Add F] [Div F] [NatCast F] [IntCast F] (env : Env)
    (f f2 : ocfx_font_t F) (text : Option (List Nat))
    (h : (ocfx_text_measure env (some f) text).font = some f2) : same_metrics f f2 := by
  cases text with
  | none =>
    simp only [ocfx_text_measure, Option.some.injEq] at h
    rw [← h]
    exact same_metrics_refl f
  | some t =>
    simp only [ocfx_text_measure, Option.some.injEq] at h
    rw [← h, measure_loop_font]
    exact get_glyphs_metrics env _ f

theorem measure_n_metrics [Add F] [Div F] [NatCast F] [IntCast F] (env : Env)
    (f f2 : ocfx_font_t F) (text : Option (List Nat)) (len : Nat)
    (h : (ocfx_text_measure_n env (some f) text len).font = some f2) : same_metrics f f2 := by
  cases text with
  | none =>
    simp only [ocfx_text_measure_n, Option.some.injEq] at h
    rw [← h]
    exact same_metrics_refl f
  | some t =>
    simp only [ocfx_text_measure_n, Option.some.injEq] at h
    rw [← h]
    exact measure_n_loop_metrics env len t f _

theorem draw_metrics [Add F] [Sub F] [Div F] [NatCast F] [IntCast F] (env : Env)
    (renderer : Option ocfx_renderer_t) (f f2 : ocfx_font_t F) (text : Option (List Nat))
    (x y : F) (color : ocfx_color_t F)
    (h : (ocfx_text_draw env renderer (some f) text x y color).font = some f2) :
    same_metrics f f2 := by
  cases renderer with
  | none =>
    simp only [ocfx_text_draw, Option.some.injEq] at h
    rw [← h]
    exact same_metrics_refl f
  | some rd =>
    cases text with
    | none =>
      simp only [ocfx_text_draw, Option.some.injEq] at h
      rw [← h]
      exact same_metrics_refl f
    | some t =>
      simp only [ocfx_text_draw, Option.some.injEq] at h
      rw [← h, draw_loop_font]
      exact get_glyphs_metrics env _ f

theorem draw_n_metrics [Add F] [Sub F] [Div F] [NatCast F] [IntCast F] (env : Env)
    (malloc_ok : Bool) (renderer : Option ocfx_renderer_t) (f f2 : ocfx_font_t F)
    (text : Option (List Nat)) (len : Nat) (x y : F) (color : ocfx_color_t F)
    (h : (ocfx_text_draw_n env malloc_ok renderer (some f) text len x y color).font = some f2) :
    same_metrics f f2 := by
  cases renderer with
  | none =>
    simp only [ocfx_text_draw_n, Option.some.injEq] at h
    rw [← h]
    exact same_metrics_refl f
  | some rd =>
    cases text with
    | none =>
      simp only [ocfx_text_draw_n, Option.some.injEq] at h
      rw [← h]
      exact same_metrics_refl f
    | some t =>
      cases malloc_ok with
      | false =>
        simp only [ocfx_text_draw_n, Option.some.injEq] at h
        simp only [Bool.false_eq_true, if_false, Option.some.injEq] at h
        rw [← h]
        exact same_metrics_refl f
      | true =>
        simp only [ocfx_text_draw_n, if_true] at h
        exact draw_metrics env (some rd) f f2 _ x y color h

/-- Every font state reached through the text interface has the metrics and the atlas
dimensions of the state it started from. -/
theorem font_reachable_metrics [Add F] [Sub F] [Div F] [NatCast F] [IntCast F]
    (f0 f : ocfx_font_t F) (h : font_reachable f0 f) : same_metrics f0 f := by
  induction h with
  | start => exact same_metrics_refl f0
  | measure env text _ hstep ih => exact same_metrics_trans ih (measure_metrics env _ _ text hstep)
  | measure_n env text len _ hstep ih =>
    exact same_metrics_trans ih (measure_n_metrics env _ _ text len hstep)
  | draw env renderer text x y color _ hstep ih =>
    exact same_metrics_trans ih (draw_metrics env renderer _ _ text x y color hstep)
  | draw_n env malloc_ok renderer text len x y color _ hstep ih =>
    exact same_metrics_trans ih (draw_n_metrics env malloc_ok renderer _ _ text len x y color hstep)
  | draw_aligned env renderer text rect align baseline color _ hstep ih =>
    exact same_metrics_trans ih (draw_metrics env renderer _ _ text rect.x rect.y color hstep)
  | draw_wrapped env renderer text rect line_spacing color _ hstep ih =>
    exact same_metrics_trans ih (draw_metrics env renderer _ _ text rect.x rect.y color hstep)

/-- The state in which a successful `ocfx_font_load` returns the font. -/
theorem font_load_some (lenv : LoadEnv) (renderer : Option ocfx_renderer_t)
    (font_path : Option String) (size : Int) (font : ocfx_font_t F)
    (h : ocfx_font_load lenv renderer font_path size = some font) :
    font.size = size ∧ 0 < size ∧ font.atlas_width = 2048 ∧ font.atlas_height = 2048 ∧
    font.atlas_x = 0 ∧ font.atlas_y = 0 ∧ font.atlas_row_height = 0 ∧
    font.glyph_cache = [] ∧ font.glyph_cache_capacity = 0 := by
  unfold ocfx_font_load at h
  cases renderer with
  | none => simp at h
  | some rd =>
    cases font_path with
    | none => simp at h
    | some path =>
      simp only at h
      split at h
      · cases h
      · rename_i hs
        split at h
        · cases h
        · split at h
          · cases h
          · cases hf : lenv.FT_New_Face path with
            | none =>
              rw [hf] at h
              cases h
            | some face =>
              rw [hf] at h
              simp only at h
              split at h
              · cases h
              · simp only [Option.some.injEq] at h
                subst h
                exact ⟨rfl, by omega, rfl, rfl, rfl, rfl, rfl, rfl, rfl⟩

theorem loaded_font_eq :
    ocfx_font_load scenario_load_env (some scenario_renderer) (some "mono.ttf") 16
      = some loaded_font := by
  rfl

/-- The shift `>> 6` is division by 64 rounded towards minus infinity. -/
theorem shift_right_6 (a : Int) : a >>> (6 : Int) = a / 64 := by
  cases a with
  | ofNat m =>
    have h := Int.shiftRight_coe_nat m 6
    rw [Nat.shiftRight_eq_div_pow] at h
    simp only [Int.ofNat_eq_coe]
    rw [show ((6 : Int)) = ((6 : Nat) : Int) from rfl, h]
    norm_num
  | negSucc m =>
    have h := Int.shiftRight_negSucc m 6
    rw [Nat.shiftRight_eq_div_pow] at h
    rw [show ((6 : Int)) = ((6 : Nat) : Int) from rfl, h]
    simp only [Int.negSucc_eq]
    have h64 : (2 : Nat) ^ 6 = 64 := by norm_num
    rw [h64]
    omega

/-- The entry and the upload of a successful `cache_glyph` call, read off the code:
the upload is at the cursor left by `atlas_new_row`, and the entry is built from that
cursor, the atlas dimensions and the glyph slot. -/
theorem cache_glyph_cached [Div F] [NatCast F] [IntCast F]
    (env : Env) (font : ocfx_font_t F) (c : Nat) (up : tex_upload)
    (e : glyph_cache_entry_t F) (h : (cache_glyph env font c).2 = glyph_result.cached up e) :
    ∃ slot, env.FT_Load_Char c = some slot ∧
      up = { xoffset := (atlas_new_row font slot).atlas_x
             yoffset := (atlas_new_row font slot).atlas_y
             width := to_int slot.bitmap_width
             height := to_int slot.bitmap_rows } ∧
      e = { codepoint := c
            atlas_x := (up.xoffset : F) / (font.atlas_width : F)
            atlas_y := (up.yoffset : F) / (font.atlas_height : F)
            atlas_width := (slot.bitmap_width : F) / (font.atlas_width : F)
            atlas_height := (slot.bitmap_rows : F) / (font.atlas_height : F)
            width := (slot.bitmap_width : F)
            height := (slot.bitmap_rows : F)
            bearing_x := (slot.bitmap_left : F)
            bearing_y := (slot.bitmap_top : F)
            advance := ((slot.advance_x >>> 6 : Int) : F) } := by
  cases hload : env.FT_Load_Char c with
  | none =>
    simp only [cache_glyph, hload] at h
    cases h
  | some slot =>
    refine ⟨slot, rfl, ?_⟩
    simp only [cache_glyph, hload] at h
    split at h
    · cases h
    · cases hg : grow_cache env (atlas_new_row font slot) with
      | none =>
        rw [hg] at h
        cases h
      | some f2 =>
        rw [hg] at h
        simp only [glyph_result.cached.injEq] at h
        obtain ⟨h1, h2⟩ := h
        obtain ⟨gx, gy, -, gw, gh, -, -⟩ := grow_cache_some env _ f2 hg
        refine ⟨h1.symm, ?_⟩
        rw [← h2, ← h1]
        simp only [new_entry, gx, gy, gw, gh, atlas_new_row_width, atlas_new_row_height]

/-- A normalized rectangle computed from a texel rectangle inside the atlas lies in
the range from 0 to 1. -/
theorem uv_of_rect [LinearOrderedField F] (W H x y : Int) (w h : Nat)
    (hW : 0 < W) (hH : 0 < H) (hx : 0 ≤ x) (hy : 0 ≤ y)
    (hxw : x + w ≤ W) (hyh : y + h ≤ H) :
    0 ≤ (x : F) / (W : F) ∧ 0 ≤ (y : F) / (H : F) ∧
    (x : F) / (W : F) + (w : F) / (W : F) ≤ 1 ∧
    (y : F) / (H : F) + (h : F) / (H : F) ≤ 1 := by
  have hWF : (0 : F) < (W : F) := by exact_mod_cast hW
  have hHF : (0 : F) < (H : F) := by exact_mod_cast hH
  have hxF : (0 : F) ≤ (x : F) := by exact_mod_cast hx
  have hyF : (0 : F) ≤ (y : F) := by exact_mod_cast hy
  have hxwF : (x : F) + (w : F) ≤ (W : F) := by exact_mod_cast hxw
  have hyhF : (y : F) + (h : F) ≤ (H : F) := by exact_mod_cast hyh
  refine ⟨div_nonneg hxF hWF.le, div_nonneg hyF hHF.le, ?_, ?_⟩
  · rw [← add_div, div_le_one hWF]
    exact hxwF
  · rw [← add_div, div_le_one hHF]
    exact hyhF

/-- One `get_glyph` call keeps the atlas invariant, keeps every cached atlas
rectangle in the normalized range, and reserves only rectangles inside the atlas,
provided the bitmap requested is not wider than the atlas. -/
theorem get_glyph_uv [LinearOrderedField F] (env : Env) (font : ocfx_font_t F) (c : Nat)
    (hok : atlas_ok font) (hW : 0 < font.atlas_width) (hH : 0 < font.atlas_height)
    (hb : ∀ slot, env.FT_Load_Char c = some slot →
      (slot.bitmap_width : Int) ≤ font.atlas_width ∧ slot.bitmap_rows < 2147483648)
    (hinv : ∀ e ∈ font.glyph_cache, uv_in_range e) :
    atlas_ok (get_glyph env font c).1 ∧
    (∀ e ∈ (get_glyph env font c).1.glyph_cache, uv_in_range e) ∧
    (∀ p, (get_glyph env font c).2.placement = some p →
      rect_in_atlas font.atlas_width font.atlas_height p) := by
  have hW1 : font.atlas_width < 2147483648 := hok.2.1
  have hbr : bitmaps_in_range env [c] := by
    intro d hd slot hs
    rw [List.mem_singleton.mp hd] at hs
    obtain ⟨h1, h2⟩ := hb slot hs
    exact ⟨by omega, h2⟩
  rcases get_glyph_outcome env font c with ⟨e, -, hg⟩ | ⟨-, hg, hnone, -, h3, -⟩ |
    ⟨-, hg, up, e, h1, -, h3, -⟩
  · rw [hg]
    exact ⟨hok, hinv, fun p hp => by simp [glyph_result.placement] at hp⟩
  · rw [hg]
    obtain ⟨hok1, -, -, -⟩ := cache_glyph_step env font c hok hbr
    have hpn : (cache_glyph env font c).2.placement = none := by
      revert hnone
      cases (cache_glyph env font c).2 <;> simp [glyph_result.entry, glyph_result.placement]
    refine ⟨hok1, by rw [h3]; exact hinv, fun p hpp => ?_⟩
    rw [hpn] at hpp
    cases hpp
  · rw [hg]
    obtain ⟨hok1, -, -, -⟩ := cache_glyph_step env font c hok hbr
    obtain ⟨slot, hload, hup, he⟩ := cache_glyph_cached env font c up e h1
    obtain ⟨hwW, hh31⟩ := hb slot hload
    have hrange := no_overflow_of_ok font slot hok ⟨by omega, hh31⟩
    have hc := cache_glyph_cases env font c slot hload hrange _ rfl
    obtain ⟨-, -, hc⟩ := hc
    obtain ⟨a1, a2, a3, a4, a5, a6, a7, a8, a9⟩ := hok
    rcases hc with ⟨-, hres, -⟩ | ⟨-, -, hres, -⟩ | ⟨hfit, -, e3, hres, -, -⟩
    · rw [h1] at hres
      cases hres
    · rw [h1] at hres
      cases hres
    · rw [h1] at hres
      simp only [glyph_result.cached.injEq] at hres
      obtain ⟨hupeq, -⟩ := hres
      have hux : 0 ≤ up.xoffset ∧ up.xoffset + slot.bitmap_width ≤ font.atlas_width ∧
          0 ≤ up.yoffset ∧ up.yoffset + slot.bitmap_rows ≤ font.atlas_height ∧
          up.width = slot.bitmap_width ∧ up.height = slot.bitmap_rows := by
        rw [hupeq]
        refine ⟨?_, ?_, ?_, hfit, rfl, rfl⟩
        · unfold atlas_state
          split <;> simp only <;> omega
        · unfold atlas_state
          split <;> simp only <;> omega
        · unfold atlas_state
          split <;> simp only <;> omega
      obtain ⟨u1, u2, u3, u4, u5, u6⟩ := hux
      refine ⟨hok1, ?_, ?_⟩
      · intro x hx
        rw [h3] at hx
        rcases List.mem_append.mp hx with hx1 | hx1
        · exact hinv x hx1
        · rw [List.mem_singleton.mp hx1, he]
          exact uv_of_rect font.atlas_width font.atlas_height up.xoffset up.yoffset
            slot.bitmap_width slot.bitmap_rows hW hH u1 u3 u2 u4
      · intro p hp
        rw [h1] at hp
        simp only [glyph_result.placement, Option.some.injEq] at hp
        subst hp
        unfold rect_in_atlas
        omega

/-- A sequence of `get_glyph` calls keeps every cached atlas rectangle in the
normalized range and reserves only rectangles inside the atlas, provided no bitmap
requested is wider than the atlas. -/
theorem get_glyphs_uv [LinearOrderedField F] (env : Env) :
    ∀ (cs : List Nat) (font : ocfx_font_t F),
      atlas_ok font → 0 < font.atlas_width → 0 < font.atlas_height →
      (∀ c ∈ cs, ∀ slot, env.FT_Load_Char c = some slot →
        (slot.bitmap_width : Int) ≤ font.atlas_width ∧ slot.bitmap_rows < 2147483648) →
      (∀ e ∈ font.glyph_cache, uv_in_range e) →
      (∀ e ∈ (get_glyphs env font cs).1.glyph_cache, uv_in_range e) ∧
      (∀ p ∈ placements (get_glyphs env font cs).2,
        rect_in_atlas font.atlas_width font.atlas_height p) := by
  intro cs
  induction cs with
  | nil =>
    intro font _ _ _ _ hinv
    exact ⟨hinv, fun p hp => by simp [get_glyphs, placements] at hp⟩
  | cons c cs ih =>
    intro font hok hW hH hb hinv
    obtain ⟨hok1, hinv1, hpl⟩ := get_glyph_uv env font c hok hW hH
      (fun slot hs => hb c (List.mem_cons_self _ _) slot hs) hinv
    obtain ⟨-, -, -, -, -, m6, m7⟩ := get_glyph_metrics env font c
    have hrest := ih (get_glyph env font c).1 hok1 (by rw [m6]; exact hW) (by rw [m7]; exact hH)
      (fun d hd slot hs => by
        rw [m6]
        exact hb d (List.mem_cons_of_mem _ hd) slot hs) hinv1
    rw [m6, m7] at hrest
    simp only [get_glyphs]
    refine ⟨hrest.1, fun p hp => ?_⟩
    rw [placements_cons] at hp
    cases hq : (get_glyph env font c).2.placement with
    | none =>
      rw [hq] at hp
      exact hrest.2 p hp
    | some q =>
      rw [hq] at hp
      rcases List.mem_cons.mp hp with h1 | h1
      · rw [h1]
        exact hpl q hq
      · exact hrest.2 p h1

/-- Adding up a list starting from `x` is `x` plus adding it up starting from 0. -/
theorem foldl_add_start [AddCommGroup F] (l : List F) :
    ∀ x : F, l.foldl (· + ·) x = x + l.foldl (· + ·) 0 := by
  induction l with
  | nil =>
    intro x
    simp
  | cons a l ih =>
    intro x
    simp only [List.foldl_cons]
    rw [ih (x + a), ih (0 + a)]
    abel

/-- The quad at position `k` of a run of glyphs is built at the start position moved
by the advances of the `k` glyphs before it. -/
theorem zipWith_pen_positions {G : Type} [Add F] (Q : F → glyph_cache_entry_t F → G) :
    ∀ (gs : List (glyph_cache_entry_t F)) (x : F) (k : Nat),
      (List.zipWith Q (pen_positions x gs) gs)[k]? =
        (gs[k]?).map (fun g => Q (((gs.take k).map (fun g => g.advance)).foldl (· + ·) x) g) := by
  intro gs
  induction gs with
  | nil =>
    intro x k
    simp [pen_positions]
  | cons g gs ih =>
    intro x k
    cases k with
    | zero => simp [pen_positions]
    | succ k =>
      simp only [pen_positions, List.zipWith_cons_cons, List.getElem?_cons_succ,
        List.take_succ_cons, List.map_cons, List.foldl_cons]
      exact ih (x + g.advance) k

theorem font_eq_of (f g : ocfx_font_t F) (hm : same_metrics f g)
    (hs : atlas_state g = atlas_state f) (hc : g.glyph_cache = f.glyph_cache)
    (hk : g.glyph_cache_capacity = f.glyph_cache_capacity) : g = f := by
  obtain ⟨m1, m2, m3, m4, m5, m6, m7⟩ := hm
  simp only [atlas_state, Prod.mk.injEq] at hs
  obtain ⟨s1, s2, s3⟩ := hs
  cases f
  cases g
  simp only at m1 m2 m3 m4 m5 m6 m7 s1 s2 s3 hc hk
  simp only [ocfx_font_t.mk.injEq]
  exact ⟨m1, m2, m3, m4, m5, m6, m7, s1, s2, s3, hc, hk⟩

/-- A `get_glyph` call that ends at the `FT_Load_Char` error return leaves the font
as it is. -/
theorem get_glyph_load_failed [Div F] [NatCast F] [IntCast F]
    (env : Env) (font : ocfx_font_t F) (c : Nat)
    (h : (get_glyph env font c).2 = glyph_result.load_failed) :
    (get_glyph env font c).1 = font := by
  rcases get_glyph_outcome env font c with ⟨e, -, hg⟩ | ⟨-, hg, -⟩ | ⟨-, hg, up, e, h1, -⟩
  · rw [hg]
  · rw [hg] at h ⊢
    cases hload : env.FT_Load_Char c with
    | none => simp only [cache_glyph, hload]
    | some slot =>
      simp only [cache_glyph, hload] at h
      split at h
      · cases h
      · cases hgrow : grow_cache env (atlas_new_row font slot) with
        | none =>
          rw [hgrow] at h
          cases h
        | some f2 =>
          rw [hgrow] at h
          cases h
  · rw [hg, h1] at h
    cases h

/-- A failed `get_glyph` call that does not move the packing cursor leaves the font as
it is. -/
theorem get_glyph_failed_same [Div F] [NatCast F] [IntCast F]
    (env : Env) (font : ocfx_font_t F) (c : Nat)
    (h : (get_glyph env font c).2 = glyph_result.load_failed ∨
      ((get_glyph env font c).2.entry = none ∧
        atlas_state (get_glyph env font c).1 = atlas_state font)) :
    (get_glyph env font c).2.entry = none ∧ (get_glyph env font c).1 = font := by
  rcases h with h | ⟨h1, h2⟩
  · exact ⟨by rw [h]; rfl, get_glyph_load_failed env font c h⟩
  · refine ⟨h1, font_eq_of font _ (get_glyph_metrics env font c) h2 ?_ ?_⟩
    · rcases get_glyph_outcome env font c with ⟨e, -, hg⟩ | ⟨-, hg, -, -, h3, -⟩ |
        ⟨-, hg, up, e, hc, -⟩
      · rw [hg]
      · rw [hg]
        exact h3
      · rw [hg, hc] at h1
        cases h1
    · rcases get_glyph_outcome env font c with ⟨e, -, hg⟩ | ⟨-, hg, -, -, -, h4, -⟩ |
        ⟨-, hg, up, e, hc, -⟩
      · rw [hg]
      · rw [hg]
        exact h4
      · rw [hg, hc] at h1
        cases h1

/-- Inserting a byte whose lookup fails and leaves the font as it is does not change
what the lookups of the other bytes do. -/
theorem get_glyphs_skip [Div F] [NatCast F] [IntCast F] (env : Env) (u : Nat)
    (s2 : List Nat) (hu : u ≠ 0) :
    ∀ (s1 : List Nat) (font : ocfx_font_t F),
      (get_glyph env (get_glyphs env font (text_keys env s1)).1
        (char_codepoint env u)).2.entry = none →
      (get_glyph env (get_glyphs env font (text_keys env s1)).1
        (char_codepoint env u)).1 = (get_glyphs env font (text_keys env s1)).1 →
      (get_glyphs env font (text_keys env (s1 ++ u :: s2))).1 =
        (get_glyphs env font (text_keys env (s1 ++ s2))).1 ∧
      (get_glyphs env font (text_keys env (s1 ++ u :: s2))).2.filterMap glyph_result.entry =
        (get_glyphs env font (text_keys env (s1 ++ s2))).2.filterMap glyph_result.entry := by
  intro s1
  induction s1 with
  | nil =>
    intro font hnone hsame
    have hk : text_keys env ([] : List Nat) = [] := rfl
    rw [hk] at hnone hsame
    simp only [get_glyphs] at hnone hsame
    simp only [List.nil_append]
    rw [text_keys_cons env u s2 hu]
    simp only [get_glyphs, List.filterMap_cons, hnone, hsame]
    trivial
  | cons b rest ih =>
    intro font hnone hsame
    by_cases hb : b = 0
    · subst hb
      exact ⟨rfl, rfl⟩
    · rw [text_keys_cons env b rest hb] at hnone hsame
      simp only [get_glyphs] at hnone hsame
      obtain ⟨h1, h2⟩ := ih (get_glyph env font (char_codepoint env b)).1 hnone hsame
      simp only [List.cons_append]
      rw [text_keys_cons env b _ hb, text_keys_cons env b _ hb]
      simp only [get_glyphs, List.filterMap_cons]
      refine ⟨h1, ?_⟩
      rw [h2]

theorem c_string_no_zero (text : List Nat) : ∀ b ∈ c_string text, b ≠ 0 := by
  intro b hb
  have h := List.mem_takeWhile_imp hb
  simpa using h

/-- The loop of `ocfx_text_measure` only looks at the bytes in front of the first
NUL. -/
theorem measure_loop_c_string [Add F] [Div F] [NatCast F] [IntCast F] (env : Env) :
    ∀ (text : List Nat) (font : ocfx_font_t F) (w : F),
      measure_loop env (c_string text) font w = measure_loop env text font w := by
  intro text
  induction text with
  | nil =>
    intro font w
    rfl
  | cons b rest ih =>
    intro font w
    by_cases hb : b = 0
    · subst hb
      simp [c_string, measure_loop]
    · have h1 : c_string (b :: rest) = b :: c_string rest := by
        unfold c_string
        rw [List.takeWhile_cons_of_pos (by simpa using hb)]
      rw [h1]
      simp only [measure_loop, hb, if_false]
      cases (get_glyph env font (char_codepoint env b)).2.entry with
      | none => exact ih _ _
      | some g => exact ih _ _

/-- The loop of `ocfx_text_measure_n` is the loop of `ocfx_text_measure` on the first
`len` bytes in front of the first NUL. -/
theorem measure_n_loop_eq [Add F] [Div F] [NatCast F] [IntCast F] (env : Env) :
    ∀ (len : Nat) (text : List Nat) (font : ocfx_font_t F) (w : F),
      measure_n_loop env len text font w =
        measure_loop env ((c_string text).take len) font w := by
  intro len
  induction len with
  | zero =>
    intro text font w
    simp [measure_n_loop, measure_loop]
  | succ n ih =>
    intro text font w
    cases text with
    | nil => simp [measure_n_loop, measure_loop, c_string]
    | cons b rest =>
      by_cases hb : b = 0
      · subst hb
        simp [measure_n_loop, measure_loop, c_string]
      · have h1 : c_string (b :: rest) = b :: c_string rest := by
          unfold c_string
          rw [List.takeWhile_cons_of_pos (by simpa using hb)]
        rw [h1, List.take_succ_cons]
        simp only [measure_n_loop, measure_loop, hb, if_false]
        cases (get_glyph env font (char_codepoint env b)).2.entry with
        | none => exact ih _ _ _
        | some g => exact ih _ _ _

/-- The capacity after a successful `cache_glyph` call: doubled (128 at first) when
the storage was full, unchanged otherwise. -/
theorem cache_glyph_cached_capacity [Div F] [NatCast F] [IntCast F]
    (env : Env) (font : ocfx_font_t F) (c : Nat) (up : tex_upload)
    (e : glyph_cache_entry_t F) (h : (cache_glyph env font c).2 = glyph_result.cached up e) :
    (cache_glyph env font c).1.glyph_cache_capacity =
      if font.glyph_cache.length ≥ font.glyph_cache_capacity then
        (if font.glyph_cache_capacity * 2 = 0 then 128 else font.glyph_cache_capacity * 2)
      else font.glyph_cache_capacity := by
  cases hload : env.FT_Load_Char c with
  | none =>
    simp only [cache_glyph, hload] at h
    cases h
  | some slot =>
    simp only [cache_glyph, hload] at h ⊢
    split at h
    · cases h
    · rename_i hnf
      rw [if_neg hnf]
      cases hg : grow_cache env (atlas_new_row font slot) with
      | none =>
        rw [hg] at h
        cases h
      | some f2 =>
        simp only
        rw [atlas_advance_capacity]
        simp only
        unfold grow_cache at hg
        rw [atlas_new_row_cache, atlas_new_row_capacity] at hg
        by_cases h1 : font.glyph_cache.length ≥ font.glyph_cache_capacity
        · simp only [h1, if_true] at hg ⊢
          by_cases h2 : env.realloc_ok
              (if font.glyph_cache_capacity * 2 = 0 then 128
                else font.glyph_cache_capacity * 2) = true
          · simp only [h2, if_true, Option.some.injEq] at hg
            rw [← hg]
          · simp only [h2] at hg
            cases hg
        · simp only [h1, if_false, Option.some.injEq] at hg ⊢
          rw [← hg]
          exact atlas_new_row_capacity font slot

/-- Adding one entry with the doubling rule keeps the capacity the least
`128 * 2^k` that holds the entries. -/
theorem capacity_ok_add (size cap : Nat) (h : capacity_ok size cap) :
    capacity_ok (size + 1)
      (if size ≥ cap then (if cap * 2 = 0 then 128 else cap * 2) else cap) := by
  rcases h with ⟨h1, h2⟩ | ⟨h1, k, hk, hle, hmin⟩
  · subst h1
    subst h2
    refine Or.inr ⟨by omega, 0, by simp, by simp, fun j _ => Nat.zero_le j⟩
  · refine Or.inr ⟨by omega, ?_⟩
    have hpos : 0 < 2 ^ k := Nat.pow_pos (by decide)
    by_cases hfull : size ≥ cap
    · have hsc : size = cap := by omega
      rw [if_pos hfull, if_neg (by omega)]
      refine ⟨k + 1, by rw [hk, pow_succ]; ring, by rw [pow_succ]; omega, fun j hj => ?_⟩
      by_contra hlt
      have hjk : j ≤ k := by omega
      have hpow : 2 ^ j ≤ 2 ^ k := Nat.pow_le_pow_right (by decide) hjk
      omega
    · rw [if_neg hfull]
      exact ⟨k, hk, by omega, fun j hj => hmin j (by omega)⟩

/-- One `get_glyph` call keeps the relation between size and capacity and never
makes the capacity smaller. -/
theorem get_glyph_capacity [Div F] [NatCast F] [IntCast F]
    (env : Env) (font : ocfx_font_t F) (c : Nat) :
    font.glyph_cache_capacity ≤ (get_glyph env font c).1.glyph_cache_capacity ∧
    (capacity_ok font.glyph_cache.length font.glyph_cache_capacity →
      capacity_ok (get_glyph env font c).1.glyph_cache.length
        (get_glyph env font c).1.glyph_cache_capacity) := by
  rcases get_glyph_outcome env font c with ⟨e, -, hg⟩ | ⟨-, hg, -, -, h3, h4, -⟩ |
    ⟨-, hg, up, e, h1, -, h3, h5⟩
  · rw [hg]
    exact ⟨le_refl _, fun h => h⟩
  · rw [hg, h3, h4]
    exact ⟨le_refl _, fun h => h⟩
  · rw [hg]
    refine ⟨h5, fun h => ?_⟩
    rw [h3, cache_glyph_cached_capacity env font c up e h1, List.length_append,
      List.length_singleton]
    exact capacity_ok_add _ _ h

/-- A sequence of `get_glyph` calls keeps the relation between size and capacity and
never makes the capacity smaller. -/
theorem get_glyphs_capacity [Div F] [NatCast F] [IntCast F] (env : Env) :
    ∀ (cs : List Nat) (font : ocfx_font_t F),
      font.glyph_cache_capacity ≤ (get_glyphs env font cs).1.glyph_cache_capacity ∧
      (capacity_ok font.glyph_cache.length font.glyph_cache_capacity →
        capacity_ok (get_glyphs env font cs).1.glyph_cache.length
          (get_glyphs env font cs).1.glyph_cache_capacity) := by
  intro cs
  induction cs with
  | nil =>
    intro font
    exact ⟨le_refl _, fun h => h⟩
  | cons c cs ih =>
    intro font
    obtain ⟨h1, h2⟩ := get_glyph_capacity env font c
    obtain ⟨h3, h4⟩ := ih (get_glyph env font c).1
    simp only [get_glyphs]
    exact ⟨le_trans h1 h3, fun h => h4 (h2 h)⟩

theorem capacity_ok_le (size cap : Nat) (h : capacity_ok size cap) : size ≤ cap := by
  rcases h with ⟨h1, h2⟩ | ⟨-, k, hk, hle, -⟩
  · omega
  · omega

theorem capacity_ok_zero (size cap : Nat) (h : capacity_ok size cap) :
    cap = 0 ↔ size = 0 := by
  rcases h with ⟨h1, h2⟩ | ⟨h0, k, hk, hle, -⟩
  · simp [h1, h2]
  · have hpos : 0 < 2 ^ k := Nat.pow_pos (by decide)
    constructor
    · intro hc
      omega
    · intro hs
      omega

/-- One `get_glyph` call is a hit, which leaves the font as it is, or the
`cache_glyph` call. -/
theorem get_glyph_cases [Div F] [NatCast F] [IntCast F]
    (env : Env) (font : ocfx_font_t F) (c : Nat) :
    (∃ e, find_glyph font c = some e ∧ get_glyph env font c = (font, glyph_result.hit e)) ∨
    (find_glyph font c = none ∧ get_glyph env font c = cache_glyph env font c) := by
  cases hf : find_glyph font c with
  | some e => exact Or.inl ⟨e, rfl, get_glyph_of_hit env font c e hf⟩
  | none => exact Or.inr ⟨rfl, get_glyph_of_miss env font c hf⟩

/-- One `get_glyph` call preserves the atlas invariant and the atlas dimensions, never
moves `atlas_y` up, keeps earlier rectangles in the shelf and places a new rectangle
after all of them. -/
theorem get_glyph_step [Div F] [NatCast F] [IntCast F]
    (env : Env) (font : ocfx_font_t F) (c : Nat) (hok : atlas_ok font)
    (hb : bitmaps_in_range env [c]) :
    atlas_ok (get_glyph env font c).1 ∧
    font.atlas_y ≤ (get_glyph env font c).1.atlas_y ∧
    (get_glyph env font c).1.atlas_width = font.atlas_width ∧
    (get_glyph env font c).1.atlas_height = font.atlas_height ∧
    (∀ p, in_shelf (atlas_state font) p → in_shelf (atlas_state (get_glyph env font c).1) p) ∧
    (∀ q, (get_glyph env font c).2.placement = some q →
      in_shelf (atlas_state (get_glyph env font c).1) q ∧
      (∀ p, in_shelf (atlas_state font) p → shelf_before p q)) := by
  rcases get_glyph_cases env font c with ⟨e, -, hg⟩ | ⟨-, hg⟩
  · rw [hg]
    exact ⟨hok, le_refl _, rfl, rfl, fun p hp => hp,
      fun q hq => by simp [glyph_result.placement] at hq⟩
  · rw [hg]
    obtain ⟨h1, h2, h3, h4⟩ := cache_glyph_step env font c hok hb
    obtain ⟨hW, hH⟩ := cache_glyph_dims env font c
    exact ⟨h1, h2, hW, hH, h3, fun q hq => ⟨(h4 q hq).1, (h4 q hq).2.1⟩⟩

/-- A sequence of `get_glyph` calls preserves the atlas invariant and the atlas
dimensions and never moves `atlas_y` up. -/
theorem get_glyphs_run [Div F] [NatCast F] [IntCast F] (env : Env) :
    ∀ (cs : List Nat) (font : ocfx_font_t F), atlas_ok font → bitmaps_in_range env cs →
      atlas_ok (get_glyphs env font cs).1 ∧
      font.atlas_y ≤ (get_glyphs env font cs).1.atlas_y ∧
      (get_glyphs env font cs).1.atlas_width = font.atlas_width ∧
      (get_glyphs env font cs).1.atlas_height = font.atlas_height := by
  intro cs
  induction cs with
  | nil =>
    intro font hok _
    exact ⟨hok, le_refl _, rfl, rfl⟩
  | cons c cs ih =>
    intro font hok hb
    obtain ⟨hb1, hb2⟩ := bitmaps_in_range_cons hb
    obtain ⟨hok1, hy1, hW1, hH1, -, -⟩ := get_glyph_step env font c hok hb1
    obtain ⟨hok2, hy2, hW2, hH2⟩ := ih (get_glyph env font c).1 hok1 hb2
    simp only [get_glyphs]
    exact ⟨hok2, le_trans hy1 hy2, hW2.trans hW1, hH2.trans hH1⟩

/-- The three ways a `cache_glyph` call ends when the rasterization succeeds, in terms
of the cursor before the call: FULL (afterwards the bitmap does not fit below the
cursor), storage exhausted, or cached (then the bitmap fitted below the cursor and
storage was available). -/
theorem cache_glyph_verdict [Div F] [NatCast F] [IntCast F]
    (env : Env) (font : ocfx_font_t F) (c : Nat) (slot : FT_GlyphSlotRec)
    (hload : env.FT_Load_Char c = some slot) (hok : atlas_ok font)
    (hs : slot.bitmap_width < 2147483648 ∧ slot.bitmap_rows < 2147483648) :
    ((cache_glyph env font c).2 = glyph_result.atlas_full ∧
      (cache_glyph env font c).1.atlas_y + slot.bitmap_rows >
        (cache_glyph env font c).1.atlas_height ∧
      (cache_glyph env font c).1.glyph_cache = font.glyph_cache ∧
      (cache_glyph env font c).1.glyph_cache_capacity = font.glyph_cache_capacity) ∨
    (font.atlas_y + slot.bitmap_rows ≤ font.atlas_height ∧ ¬ storage_available env font ∧
      (∃ up, (cache_glyph env font c).2 = glyph_result.alloc_failed up) ∧
      (cache_glyph env font c).1.glyph_cache = font.glyph_cache ∧
      (cache_glyph env font c).1.glyph_cache_capacity = font.glyph_cache_capacity) ∨
    (font.atlas_y + slot.bitmap_rows ≤ font.atlas_height ∧ storage_available env font ∧
      ∃ up e, (cache_glyph env font c).2 = glyph_result.cached up e) := by
  have hc := cache_glyph_cases env font c slot hload (no_overflow_of_ok font slot hok hs) _ rfl
  obtain ⟨-, hH, hc⟩ := hc
  have hge : font.atlas_y ≤ (if font.atlas_x + (slot.bitmap_width : Int) > font.atlas_width then
      ((0 : Int), font.atlas_y + font.atlas_row_height, (0 : Int))
      else atlas_state font).2.1 := by
    have h8 : 0 ≤ font.atlas_row_height := hok.2.2.2.2.2.2.2.1
    unfold atlas_state
    split <;> simp only <;> omega
  rcases hc with ⟨hgt, hres, hst, hcache, hcap⟩ | ⟨hfit, hna, hres, -, hcache, hcap⟩ |
    ⟨hfit, hav, e, hres, -⟩
  · refine Or.inl ⟨hres, ?_, hcache, hcap⟩
    have hy : (cache_glyph env font c).1.atlas_y = (atlas_state (cache_glyph env font c).1).2.1 :=
      rfl
    rw [hH, hy, hst]
    exact hgt
  · exact Or.inr (Or.inl ⟨by omega, hna, ⟨_, hres⟩, hcache, hcap⟩)
  · exact Or.inr (Or.inr ⟨by omega, hav, _, e, hres⟩)

/-- A bitmap that does not fit below the packing cursor is answered FULL. -/
theorem cache_glyph_blocked [Div F] [NatCast F] [IntCast F]
    (env : Env) (font : ocfx_font_t F) (c : Nat) (slot : FT_GlyphSlotRec)
    (hload : env.FT_Load_Char c = some slot) (hok : atlas_ok font)
    (hs : slot.bitmap_width < 2147483648 ∧ slot.bitmap_rows < 2147483648)
    (hblocked : font.atlas_y + slot.bitmap_rows > font.atlas_height) :
    (cache_glyph env font c).2 = glyph_result.atlas_full := by
  rcases cache_glyph_verdict env font c slot hload hok hs with ⟨h, -⟩ | ⟨h, -⟩ | ⟨h, -⟩
  · exact h
  · omega
  · omega

/-- A stuck miss ends without an entry. -/
theorem stuck_entry_none [Div F] [NatCast F] [IntCast F]
    (env : Env) (font : ocfx_font_t F) (k : Nat) (hok : atlas_ok font)
    (hb : bitmaps_in_range env [k]) (hstuck : stuck env font k) :
    (cache_glyph env font k).2.entry = none := by
  cases hload : env.FT_Load_Char k with
  | none => simp only [cache_glyph, hload, glyph_result.entry]
  | some slot =>
    have hs := hb k (List.mem_singleton.mpr rfl) slot hload
    rcases cache_glyph_verdict env font k slot hload hok hs with ⟨h, -⟩ | ⟨-, -, ⟨up, h⟩, -⟩ |
      ⟨hfit, hav, -⟩
    · rw [h]
      rfl
    · rw [h]
      rfl
    · rcases hstuck with h1 | ⟨slot2, h1, h2⟩ | h1
      · rw [hload] at h1
        cases h1
      · rw [hload] at h1
        cases h1
        omega
      · exact absurd hav h1

/-- After a miss that ended without an entry the codepoint is stuck. -/
theorem stuck_after_failure [Div F] [NatCast F] [IntCast F]
    (env : Env) (font : ocfx_font_t F) (k : Nat) (hok : atlas_ok font)
    (hb : bitmaps_in_range env [k]) (hnone : (cache_glyph env font k).2.entry = none) :
    stuck env (cache_glyph env font k).1 k := by
  cases hload : env.FT_Load_Char k with
  | none => exact Or.inl hload
  | some slot =>
    have hs := hb k (List.mem_singleton.mpr rfl) slot hload
    rcases cache_glyph_verdict env font k slot hload hok hs with ⟨-, h, -⟩ |
      ⟨-, hna, -, hcache, hcap⟩ | ⟨-, -, up, e, h⟩
    · exact Or.inr (Or.inl ⟨slot, hload, h⟩)
    · refine Or.inr (Or.inr ?_)
      unfold storage_available at hna ⊢
      rw [hcache, hcap]
      exact hna
    · rw [h] at hnone
      cases hnone

/-- A settled answer stays settled across a `get_glyph` call for any codepoint. -/
theorem settled_step [Div F] [NatCast F] [IntCast F]
    (env : Env) (font : ocfx_font_t F) (k d : Nat) (r : Option (glyph_cache_entry_t F))
    (hok : atlas_ok font) (hb : bitmaps_in_range env [d]) (hset : settled env font k r) :
    settled env (get_glyph env font d).1 k r := by
  rcases get_glyph_outcome env font d with ⟨e, -, hg⟩ | ⟨-, hg, -, -, hcache, hcap, -⟩ |
    ⟨-, hg, up, e, hres, hcode, hcache, -⟩
  · rw [hg]
    exact hset
  · rw [hg]
    obtain ⟨-, hy, -, -⟩ := cache_glyph_step env font d hok hb
    obtain ⟨-, hH⟩ := cache_glyph_dims env font d
    cases r with
    | some e =>
      simp only [settled, find_glyph] at hset ⊢
      rw [hcache]
      exact hset
    | none =>
      simp only [settled, find_glyph] at hset ⊢
      rw [hcache]
      refine ⟨hset.1, ?_⟩
      rcases hset.2 with h1 | ⟨slot, h1, h2⟩ | h1
      · exact Or.inl h1
      · exact Or.inr (Or.inl ⟨slot, h1, by rw [hH]; omega⟩)
      · refine Or.inr (Or.inr ?_)
        unfold storage_available at h1 ⊢
        rw [hcache, hcap]
        exact h1
  · rw [hg]
    obtain ⟨-, hy, -, -⟩ := cache_glyph_step env font d hok hb
    obtain ⟨-, hH⟩ := cache_glyph_dims env font d
    cases r with
    | some e2 =>
      simp only [settled, find_glyph] at hset ⊢
      rw [hcache, find_in_cache_append, hset]
    | none =>
      simp only [settled, find_glyph] at hset ⊢
      obtain ⟨slot, hload, -⟩ := cache_glyph_cached env font d up e hres
      have hs := hb d (List.mem_singleton.mpr rfl) slot hload
      have hav : storage_available env font ∧
          font.atlas_y + slot.bitmap_rows ≤ font.atlas_height := by
        rcases cache_glyph_verdict env font d slot hload hok hs with ⟨h, -⟩ |
          ⟨-, -, ⟨up2, h⟩, -⟩ | ⟨hfit, hav, -⟩
        · rw [hres] at h
          cases h
        · rw [hres] at h
          cases h
        · exact ⟨hav, hfit⟩
      have hne : e.codepoint ≠ k := by
        intro hek
        rw [hcode] at hek
        subst hek
        rcases hset.2 with h1 | ⟨slot2, h1, h2⟩ | h1
        · rw [hload] at h1
          cases h1
        · rw [hload] at h1
          cases h1
          omega
        · exact h1 hav.1
      rw [hcache, find_in_cache_append, hset.1]
      simp only [hne, if_false, true_and]
      rcases hset.2 with h1 | ⟨slot2, h1, h2⟩ | h1
      · exact Or.inl h1
      · exact Or.inr (Or.inl ⟨slot2, h1, by rw [hH]; omega⟩)
      · exact absurd hav.1 h1

/-- A settled answer stays settled across a sequence of `get_glyph` calls. -/
theorem settled_run [Div F] [NatCast F] [IntCast F] (env : Env) (k : Nat)
    (r : Option (glyph_cache_entry_t F)) :
    ∀ (cs : List Nat) (font : ocfx_font_t F), atlas_ok font → bitmaps_in_range env cs →
      settled env font k r → settled env (get_glyphs env font cs).1 k r := by
  intro cs
  induction cs with
  | nil =>
    intro font _ _ h
    exact h
  | cons c cs ih =>
    intro font hok hb h
    obtain ⟨hb1, hb2⟩ := bitmaps_in_range_cons hb
    obtain ⟨hok1, -⟩ := get_glyph_step env font c hok hb1
    simp only [get_glyphs]
    exact ih _ hok1 hb2 (settled_step env font k c r hok hb1 h)

/-- A settled answer is the answer of `get_glyph`. -/
theorem settled_result [Div F] [NatCast F] [IntCast F]
    (env : Env) (font : ocfx_font_t F) (k : Nat) (r : Option (glyph_cache_entry_t F))
    (hok : atlas_ok font) (hb : bitmaps_in_range env [k]) (hset : settled env font k r) :
    (get_glyph env font k).2.entry = r := by
  cases r with
  | some e =>
    simp only [settled] at hset
    rw [get_glyph_of_hit env font k e hset]
    rfl
  | none =>
    simp only [settled] at hset
    rw [get_glyph_of_miss env font k hset.1]
    exact stuck_entry_none env font k hok hb hset.2

/-- The answer of `get_glyph` is settled in the state the call leaves. -/
theorem settled_after [Div F] [NatCast F] [IntCast F]
    (env : Env) (font : ocfx_font_t F) (k : Nat)
    (hok : atlas_ok font) (hb : bitmaps_in_range env [k]) :
    settled env (get_glyph env font k).1 k (get_glyph env font k).2.entry := by
  rcases get_glyph_outcome env font k with ⟨e, hf, hg⟩ | ⟨hf, hg, hnone, -, hcache, -, -⟩ |
    ⟨hf, hg, up, e, hres, hcode, hcache, -⟩
  · rw [hg]
    exact hf
  · rw [hg, hnone]
    simp only [settled, find_glyph]
    rw [hcache]
    exact ⟨hf, stuck_after_failure env font k hok hb hnone⟩
  · rw [hg, hres]
    simp only [settled, find_glyph, glyph_result.entry]
    unfold find_glyph at hf
    rw [hcache, find_in_cache_append, hf]
    simp only [hcode, if_true]

/-- Lookups whose answers are settled return these answers. -/
theorem get_glyphs_settled [Div F] [NatCast F] [IntCast F] (env : Env) :
    ∀ (keys : List Nat) (font : ocfx_font_t F) (rs : List (Option (glyph_cache_entry_t F))),
      atlas_ok font → bitmaps_in_range env keys →
      List.Forall₂ (settled env font) keys rs →
      (get_glyphs env font keys).2.map glyph_result.entry = rs := by
  intro keys
  induction keys with
  | nil =>
    intro font rs _ _ h
    cases h
    rfl
  | cons k ks ih =>
    intro font rs hok hb h
    obtain ⟨hb1, hb2⟩ := bitmaps_in_range_cons hb
    obtain ⟨hok1, -⟩ := get_glyph_step env font k hok hb1
    cases h with
    | cons h1 h2 =>
      simp only [get_glyphs, List.map_cons]
      rw [settled_result env font k _ hok hb1 h1,
        ih _ _ hok1 hb2 (h2.imp (fun a b hab => settled_step env font a k b hok hb1 hab))]

/-- The answers of a sequence of lookups are settled in the state the sequence
leaves. -/
theorem get_glyphs_settles [Div F] [NatCast F] [IntCast F] (env : Env) :
    ∀ (keys : List Nat) (font : ocfx_font_t F),
      atlas_ok font → bitmaps_in_range env keys →
      List.Forall₂ (settled env (get_glyphs env font keys).1) keys
        ((get_glyphs env font keys).2.map glyph_result.entry) := by
  intro keys
  induction keys with
  | nil =>
    intro font _ _
    exact List.Forall₂.nil
  | cons k ks ih =>
    intro font hok hb
    obtain ⟨hb1, hb2⟩ := bitmaps_in_range_cons hb
    obtain ⟨hok1, -⟩ := get_glyph_step env font k hok hb1
    simp only [get_glyphs, List.map_cons]
    exact List.Forall₂.cons
      (settled_run env k _ ks _ hok1 hb2 (settled_after env font k hok hb1))
      (ih _ hok1 hb2)

/-- Repeating a sequence of lookups gives the same answers. -/
theorem get_glyphs_repeat [Div F] [NatCast F] [IntCast F] (env : Env)
    (keys : List Nat) (font : ocfx_font_t F) (hok : atlas_ok font)
    (hb : bitmaps_in_range env keys) :
    (get_glyphs env (get_glyphs env font keys).1 keys).2.map glyph_result.entry =
      (get_glyphs env font keys).2.map glyph_result.entry :=
  get_glyphs_settled env keys _ _ (get_glyphs_run env keys font hok hb).1 hb
    (get_glyphs_settles env keys font hok hb)

/-- Measuring a text twice in succession gives the same width and height. -/
theorem measure_twice [Add F] [Div F] [NatCast F] [IntCast F] (env : Env)
    (font : ocfx_font_t F) (text : List Nat) (hok : atlas_ok font)
    (hb : bitmaps_in_range env (text_keys env text)) :
    (ocfx_text_measure env (ocfx_text_measure env (some font) (some text)).font
        (some text)).width = (ocfx_text_measure env (some font) (some text)).width ∧
    (ocfx_text_measure env (ocfx_text_measure env (some font) (some text)).font
        (some text)).height = (ocfx_text_measure env (some font) (some text)).height := by
  simp only [ocfx_text_measure]
  rw [(measure_loop_trace env text _ _).1, (measure_loop_trace env text font _).1,
    (measure_loop_trace env text _ _).2, measure_loop_font]
  refine ⟨?_, rfl⟩
  have h := congrArg (List.filterMap id) (get_glyphs_repeat env (text_keys env text) font hok hb)
  rw [List.filterMap_map, List.filterMap_map] at h
  simp only [Function.id_comp] at h
  unfold resolved_glyphs
  rw [h]

/-- The font returned by `ocfx_font_load` satisfies the packing invariant. -/
theorem font_load_ok (lenv : LoadEnv) (renderer : Option ocfx_renderer_t)
    (font_path : Option String) (size : Int) (font : ocfx_font_t F)
    (h : ocfx_font_load lenv renderer font_path size = some font) : atlas_ok font := by
  obtain ⟨-, -, hw, hh, hx, hy, hr, -, -⟩ := font_load_some lenv renderer font_path size font h
  unfold atlas_ok
  omega

/-- Rectangles in shelf order are disjoint as pixel rectangles. -/
theorem shelf_before_disjoint [LinearOrderedField F] (p q : tex_upload)
    (h : shelf_before p q) :
    pixel_disjoint (upload_rect p : pixel_rect F) (upload_rect q) := by
  unfold pixel_disjoint upload_rect
  simp only
  rcases h with h | ⟨-, h⟩
  · refine Or.inr (Or.inr (Or.inl ?_))
    exact_mod_cast h
  · refine Or.inl ?_
    exact_mod_cast h

/-- One `get_glyph` call keeps the agreement between the cache entries and the
rectangles reserved in the atlas: the pixel rectangles of the entries are the
reserved rectangles, which lie in the shelf in shelf order. -/
theorem get_glyph_rects [LinearOrderedField F] (env : Env) (font : ocfx_font_t F) (c : Nat)
    (W H : Int) (rects : List tex_upload) (hok : atlas_ok font)
    (hW : font.atlas_width = W) (hH : font.atlas_height = H) (hW0 : 0 < W) (hH0 : 0 < H)
    (hb : bitmaps_in_range env [c])
    (hmap : font.glyph_cache.map (entry_rect W H) = rects.map upload_rect)
    (hin : ∀ p ∈ rects, in_shelf (atlas_state font) p)
    (hp : rects.Pairwise shelf_before) :
    ∃ rects2 : List tex_upload,
      (get_glyph env font c).1.glyph_cache.map (entry_rect W H) = rects2.map upload_rect ∧
      (∀ p ∈ rects2, in_shelf (atlas_state (get_glyph env font c).1) p) ∧
      rects2.Pairwise shelf_before := by
  obtain ⟨-, -, hkeep, hnew⟩ := cache_glyph_step env font c hok hb
  rcases get_glyph_outcome env font c with ⟨e, -, hg⟩ | ⟨-, hg, -, -, hcache, -, -⟩ |
    ⟨-, hg, up, e, hres, -, hcache, -⟩
  · rw [hg]
    exact ⟨rects, hmap, hin, hp⟩
  · rw [hg]
    exact ⟨rects, by rw [hcache]; exact hmap, fun p hpm => hkeep p (hin p hpm), hp⟩
  · rw [hg]
    have hpl : (cache_glyph env font c).2.placement = some up := by
      rw [hres]
      rfl
    obtain ⟨hqin, hqafter, -⟩ := hnew up hpl
    obtain ⟨slot, hload, hup, he⟩ := cache_glyph_cached env font c up e hres
    have hs := hb c (List.mem_singleton.mpr rfl) slot hload
    have hWF : ((W : Int) : F) ≠ 0 := by
      have h : (0 : F) < ((W : Int) : F) := by exact_mod_cast hW0
      exact ne_of_gt h
    have hHF : ((H : Int) : F) ≠ 0 := by
      have h : (0 : F) < ((H : Int) : F) := by exact_mod_cast hH0
      exact ne_of_gt h
    have hrect : entry_rect W H e = (upload_rect up : pixel_rect F) := by
      have hw : up.width = (slot.bitmap_width : Int) := by
        rw [hup]
        exact to_int_of_range hs.1
      have hh : up.height = (slot.bitmap_rows : Int) := by
        rw [hup]
        exact to_int_of_range hs.2
      rw [he]
      unfold entry_rect upload_rect
      simp only [hW, hH, hw, hh, Int.cast_natCast]
      rw [div_mul_cancel₀ _ hWF, div_mul_cancel₀ _ hHF]
    refine ⟨rects ++ [up], ?_, ?_, ?_⟩
    · rw [hcache, List.map_append, List.map_append, hmap, List.map_singleton,
        List.map_singleton, hrect]
    · intro p hpm
      rcases List.mem_append.mp hpm with h1 | h1
      · exact hkeep p (hin p h1)
      · rw [List.mem_singleton.mp h1]
        exact hqin
    · exact List.pairwise_append.mpr ⟨hp, List.pairwise_singleton _ _, fun a ha b hb2 => by
        rw [List.mem_singleton.mp hb2]
        exact hqafter a (hin a ha)⟩

/-- A sequence of `get_glyph` calls keeps the agreement between the cache entries and
the rectangles reserved in the atlas. -/
theorem get_glyphs_rects [LinearOrderedField F] (env : Env) (W H : Int) (hW0 : 0 < W)
    (hH0 : 0 < H) :
    ∀ (cs : List Nat) (font : ocfx_font_t F) (rects : List tex_upload),
      atlas_ok font → font.atlas_width = W → font.atlas_height = H →
      bitmaps_in_range env cs →
      font.glyph_cache.map (entry_rect W H) = rects.map upload_rect →
      (∀ p ∈ rects, in_shelf (atlas_state font) p) →
      rects.Pairwise shelf_before →
      ∃ rects2 : List tex_upload,
        (get_glyphs env font cs).1.glyph_cache.map (entry_rect W H) =
          rects2.map upload_rect ∧
        rects2.Pairwise shelf_before := by
  intro cs
  induction cs with
  | nil =>
    intro font rects _ _ _ _ hmap _ hp
    exact ⟨rects, hmap, hp⟩
  | cons c cs ih =>
    intro font rects hok hW hH hb hmap hin hp
    obtain ⟨hb1, hb2⟩ := bitmaps_in_range_cons hb
    obtain ⟨hok1, -, hW1, hH1, -, -⟩ := get_glyph_step env font c hok hb1
    obtain ⟨rects1, hmap1, hin1, hp1⟩ :=
      get_glyph_rects env font c W H rects hok hW hH hW0 hH0 hb1 hmap hin hp
    simp only [get_glyphs]
    exact ih _ rects1 hok1 (hW1.trans hW) (hH1.trans hH) hb2 hmap1 hin1 hp1

/-- Disjoint pixel rectangles have no point in common. -/
theorem pixel_disjoint_no_common [LinearOrderedField F] (a b : pixel_rect F)
    (h : pixel_disjoint a b) (px py : F) : ¬ (a.covers px py ∧ b.covers px py) := by
  rintro ⟨⟨h1, h2, h3, h4⟩, ⟨g1, g2, g3, g4⟩⟩
  rcases h with h | h | h | h
  · exact absurd (lt_of_lt_of_le h2 (le_trans h g1)) (lt_irrefl _)
  · exact absurd (lt_of_lt_of_le g2 (le_trans h h1)) (lt_irrefl _)
  · exact absurd (lt_of_lt_of_le h4 (le_trans h g3)) (lt_irrefl _)
  · exact absurd (lt_of_lt_of_le g4 (le_trans h h3)) (lt_irrefl _)

theorem scenario_env_sizes (c : Nat) (slot : FT_GlyphSlotRec)
    (hs : scenario_env.FT_Load_Char c = some slot) :
    0 < slot.bitmap_width ∧ (slot.bitmap_width : Int) ≤ scenario_font.atlas_width ∧
    0 < slot.bitmap_rows ∧ (slot.bitmap_rows : Int) ≤ scenario_font.atlas_height := by
  simp only [scenario_env] at hs
  split at hs
  · cases hs
    simp [glyph_A, scenario_font]
  · split at hs
    · cases hs
      simp [glyph_B, scenario_font]
    · cases hs

theorem scenario_env_range (cs : List Nat) : bitmaps_in_range scenario_env cs := by
  intro c _ slot hs
  obtain ⟨-, h2, -, h4⟩ := scenario_env_sizes c slot hs
  simp only [scenario_font] at h2 h4
  omega

end Lemmas

/-! ## Theorems -/

section Theorems

variable {F : Type} [Div F] [NatCast F] [IntCast F]

/-- C1: whenever FreeType delivers a bitmap `(w, h)` for the requested character, the
32-bit arithmetic does not overflow and the cache storage can take one more entry,
`cache_glyph` performs exactly the three-step shelf algorithm of the specification
(`spec_reserve`): the atlas state afterwards and the reserved position agree with it,
a FULL outcome of the algorithm is the "atlas full" return of the code, and a
placement `(x, y)` of the algorithm is the rectangle `(x, y, w, h)` uploaded and
cached by the code. -/
theorem cache_glyph_is_shelf_algorithm (env : Env) (font : ocfx_font_t F) (c : Nat)
    (slot : FT_GlyphSlotRec) (hload : env.FT_Load_Char c = some slot)
    (hrange : no_overflow font slot) (hstore : storage_available env font) :
    atlas_state (cache_glyph env font c).1 =
      (spec_reserve font.atlas_width font.atlas_height (atlas_state font)
        slot.bitmap_width slot.bitmap_rows).1 ∧
    ((spec_reserve font.atlas_width font.atlas_height (atlas_state font)
        slot.bitmap_width slot.bitmap_rows).2 = none →
      (cache_glyph env font c).2 = glyph_result.atlas_full) ∧
    (∀ p, (spec_reserve font.atlas_width font.atlas_height (atlas_state font)
        slot.bitmap_width slot.bitmap_rows).2 = some p →
      ∃ e, (cache_glyph env font c).2 =
        glyph_result.cached ⟨p.1, p.2, slot.bitmap_width, slot.bitmap_rows⟩ e) := by
  have hc := cache_glyph_cases env font c slot hload hrange _ rfl
  obtain ⟨-, -, hc⟩ := hc
  simp only [spec_reserve, show (atlas_state font).1 = font.atlas_x from rfl,
    show (atlas_state font).2.1 = font.atlas_y from rfl,
    show (atlas_state font).2.2 = font.atlas_row_height from rfl]
  generalize (if font.atlas_x + (slot.bitmap_width : Int) > font.atlas_width then
    (0, font.atlas_y + font.atlas_row_height, 0) else atlas_state font) = st1 at hc ⊢
  rcases hc with ⟨hfull, hres, hst, -, -⟩ | ⟨-, hav, -⟩ | ⟨hfit, -, e, hres, hst, -⟩
  · rw [if_pos hfull]
    exact ⟨hst, fun _ => hres, fun p hp => by simp at hp⟩
  · exact absurd hstore hav
  · rw [if_neg (not_lt.mpr hfit)]
    refine ⟨hst, fun hn => by simp at hn, fun p hp => ?_⟩
    simp only [Option.some.injEq] at hp
    subst hp
    exact ⟨e, hres⟩

/-- Witness for C1: the first glyph cached by a freshly loaded font. -/
theorem cache_glyph_is_shelf_algorithm_witness :
    no_overflow scenario_font glyph_A ∧ storage_available scenario_env scenario_font ∧
    atlas_state (cache_glyph scenario_env scenario_font 65).1 = (12, 0, 14) ∧
    (∀ p, some ((0 : Int), (0 : Int)) = some p →
      ∃ e, (cache_glyph scenario_env scenario_font 65).2 =
        glyph_result.cached ⟨p.1, p.2, 12, 14⟩ e) :=
  ⟨by unfold no_overflow; decide, Or.inr rfl,
    (cache_glyph_is_shelf_algorithm scenario_env scenario_font 65 glyph_A rfl
      (by unfold no_overflow; decide) (Or.inr rfl)).1,
    (cache_glyph_is_shelf_algorithm scenario_env scenario_font 65 glyph_A rfl
      (by unfold no_overflow; decide) (Or.inr rfl)).2.2⟩

/-- C2: starting from an empty atlas of size `W x H` (cursor `(0, 0)`, row height 0),
for any sequence of `cache_glyph` requests whose bitmaps have positive width and
height not exceeding the atlas dimensions, the rectangles `[x, x+w) x [y, y+h)` of
any two successful placements are disjoint. -/
theorem placements_never_overlap (env : Env) (font : ocfx_font_t F) (cs : List Nat)
    (hdim : 0 ≤ font.atlas_width ∧ font.atlas_width < 2147483648 ∧
      0 ≤ font.atlas_height ∧ font.atlas_height < 2147483648)
    (hempty : font.atlas_x = 0 ∧ font.atlas_y = 0 ∧ font.atlas_row_height = 0)
    (hreq : ∀ c ∈ cs, ∀ slot, env.FT_Load_Char c = some slot →
      0 < slot.bitmap_width ∧ (slot.bitmap_width : Int) ≤ font.atlas_width ∧
      0 < slot.bitmap_rows ∧ (slot.bitmap_rows : Int) ≤ font.atlas_height) :
    (placements (cache_glyphs env font cs).2).Pairwise rect_disjoint := by
  obtain ⟨hW0, hW1, hH0, hH1⟩ := hdim
  obtain ⟨hx, hy, hr⟩ := hempty
  have hok : atlas_ok font := by
    unfold atlas_ok
    omega
  have hb : bitmaps_in_range env cs := fun c hc slot hs => by
    obtain ⟨-, h2, -, h4⟩ := hreq c hc slot hs
    omega
  have h := cache_glyphs_shelf env cs font [] hok hb (fun p hp => by simp at hp)
    List.Pairwise.nil
  rw [List.nil_append] at h
  refine h.imp ?_
  intro a b hab
  unfold shelf_before at hab
  unfold rect_disjoint
  omega

/-- Witness for C2: 'A', 'B', 'A' requested on a freshly loaded font. -/
theorem placements_never_overlap_witness :
    placements (cache_glyphs scenario_env scenario_font [65, 66, 65]).2 =
      [⟨0, 0, 12, 14⟩, ⟨12, 0, 11, 14⟩, ⟨23, 0, 12, 14⟩] ∧
    (placements (cache_glyphs scenario_env scenario_font [65, 66, 65]).2).Pairwise
      rect_disjoint :=
  ⟨by decide,
    placements_never_overlap scenario_env scenario_font [65, 66, 65]
      (by simp [scenario_font]) (by simp [scenario_font])
      (fun c _ slot hs => scenario_env_sizes c slot hs)⟩

/-- C3: from any atlas state satisfying the packing invariant (in particular the empty
atlas), for any sequence of `cache_glyph` requests whose bitmaps have positive width
and height not exceeding the atlas dimensions, placements never retreat: for any
earlier placement `a` and later placement `b` (so in particular for successive
ones), `a.y ≤ b.y`, and if both are in the same row (`a.y = b.y`) then `a.x ≤ b.x`. -/
theorem placements_never_retreat (env : Env) (font : ocfx_font_t F) (cs : List Nat)
    (hok : atlas_ok font)
    (hreq : ∀ c ∈ cs, ∀ slot, env.FT_Load_Char c = some slot →
      0 < slot.bitmap_width ∧ (slot.bitmap_width : Int) ≤ font.atlas_width ∧
      0 < slot.bitmap_rows ∧ (slot.bitmap_rows : Int) ≤ font.atlas_height) :
    (placements (cache_glyphs env font cs).2).Pairwise not_retreating := by
  have hW1 : font.atlas_width < 2147483648 := hok.2.1
  have hH1 : font.atlas_height < 2147483648 := hok.2.2.2.1
  have hb : bitmaps_in_range env cs := fun c hc slot hs => by
    obtain ⟨-, h2, -, h4⟩ := hreq c hc slot hs
    omega
  have h := cache_glyphs_shelf env cs font [] hok hb (fun p hp => by simp at hp)
    List.Pairwise.nil
  rw [List.nil_append] at h
  refine h.imp_of_mem ?_
  intro a b ha _ hab
  obtain ⟨c, hc, slot, hs, hw, hh⟩ := placements_dims env cs font hok hb a ha
  obtain ⟨h1, -, h3, -⟩ := hreq c hc slot hs
  unfold shelf_before at hab
  unfold not_retreating
  omega

/-- Witness for C3: 'A', 'B', 'A' requested on a freshly loaded font. -/
theorem placements_never_retreat_witness :
    atlas_ok scenario_font ∧
    placements (cache_glyphs scenario_env scenario_font [65, 66, 65]).2 =
      [⟨0, 0, 12, 14⟩, ⟨12, 0, 11, 14⟩, ⟨23, 0, 12, 14⟩] ∧
    (placements (cache_glyphs scenario_env scenario_font [65, 66, 65]).2).Pairwise
      not_retreating :=
  ⟨by simp [atlas_ok, scenario_font], by decide,
    placements_never_retreat scenario_env scenario_font [65, 66, 65]
      (by simp [atlas_ok, scenario_font])
      (fun c _ slot hs => scenario_env_sizes c slot hs)⟩

/-- C4 (counterexample): on a freshly loaded font (2048 x 2048 atlas) the requests
2000 x 1500, 100 x 1000, 10 x 10 give: placed at (0, 0); FULL (the cursor wraps to
row 1500 and 1500 + 1000 > 2048); placed at (0, 1500).  The third request has positive
width and height and comes after a FULL result, yet it is not FULL. -/
theorem atlas_recovers_after_full :
    (cache_glyph tall_env (cache_glyph tall_env scenario_font 65).1 66).2.is_full = true ∧
    (tall_env.FT_Load_Char 67).map (fun s => (s.bitmap_width, s.bitmap_rows)) = some (10, 10) ∧
    (cache_glyph tall_env
      (cache_glyph tall_env (cache_glyph tall_env scenario_font 65).1 66).1 67).2.is_full
        = false ∧
    (cache_glyph tall_env
      (cache_glyph tall_env (cache_glyph tall_env scenario_font 65).1 66).1 67).2.placement
        = some ⟨0, 1500, 10, 10⟩ := by
  decide

/-- C4 (amended): from any atlas state satisfying the packing invariant, once a
`cache_glyph` request with bitmap height `h` has returned FULL, every subsequent
request to the same atlas whose bitmap height is at least `h` also returns FULL,
whatever requests were made in between. -/
theorem full_is_permanent_for_taller (env : Env) (font : ocfx_font_t F) (c : Nat)
    (cs : List Nat) (d : Nat) (slot slot2 : FT_GlyphSlotRec) (hok : atlas_ok font)
    (hb : bitmaps_in_range env (c :: d :: cs))
    (hc : env.FT_Load_Char c = some slot) (hd : env.FT_Load_Char d = some slot2)
    (hfull : (cache_glyph env font c).2 = glyph_result.atlas_full)
    (hh : slot.bitmap_rows ≤ slot2.bitmap_rows) :
    (cache_glyph env (cache_glyphs env (cache_glyph env font c).1 cs).1 d).2 =
      glyph_result.atlas_full :=
  full_persists env font c cs d slot slot2 hok hb hc hd hfull hh

/-- Witness for C4 (amended): after the 2000 x 1500 glyph, the 100 x 1000 request is
FULL, then a 10 x 10 glyph is placed, and the 100 x 1000 request is FULL again. -/
theorem full_is_permanent_for_taller_witness :
    atlas_ok (cache_glyph tall_env scenario_font 65).1 ∧
    (cache_glyph tall_env (cache_glyph tall_env scenario_font 65).1 66).2 =
      glyph_result.atlas_full ∧
    (cache_glyph tall_env (cache_glyphs tall_env
      (cache_glyph tall_env (cache_glyph tall_env scenario_font 65).1 66).1 [67]).1 66).2 =
      glyph_result.atlas_full :=
  ⟨by unfold atlas_ok; decide, rfl,
    full_is_permanent_for_taller tall_env (cache_glyph tall_env scenario_font 65).1 66 [67] 66
      { bitmap_rows := 1000, bitmap_width := 100, bitmap_left := 0,
        bitmap_top := 1000, advance_x := 6400 }
      { bitmap_rows := 1000, bitmap_width := 100, bitmap_left := 0,
        bitmap_top := 1000, advance_x := 6400 }
      (by unfold atlas_ok; decide) (tall_env_sizes _) rfl rfl rfl (le_refl _)⟩

/-- C5: for every font state and codepoint `c`, two `get_glyph (c)` calls in
succession (same rasterizer and allocator behaviour) return the same entry (UV rect,
pixel size, bearing and advance), and the second call leaves the whole font state
(atlas cursor, row height, glyph cache and its capacity) as it found it.  When the
first call resolves, the second is a pure cache hit: its result is `hit`, which
carries no upload and no atlas reservation. -/
theorem get_glyph_twice (env : Env) (font : ocfx_font_t F) (c : Nat) :
    (get_glyph env (get_glyph env font c).1 c).2.entry = (get_glyph env font c).2.entry ∧
    (get_glyph env (get_glyph env font c).1 c).1 = (get_glyph env font c).1 ∧
    (∀ e, (get_glyph env font c).2.entry = some e →
      (get_glyph env (get_glyph env font c).1 c).2 = glyph_result.hit e ∧
      (get_glyph env (get_glyph env font c).1 c).2.upload = none ∧
      (get_glyph env (get_glyph env font c).1 c).2.placement = none) := by
  rcases get_glyph_outcome env font c with ⟨e, hf, hg⟩ | ⟨hf, hg, h1, -, h3, -, h5⟩ |
    ⟨hf, hg, up, e, h1, h2, h3, -⟩
  · rw [hg]
    simp only
    rw [hg]
    refine ⟨rfl, rfl, fun e2 he2 => ?_⟩
    simp only [glyph_result.entry, Option.some.injEq] at he2
    subst he2
    exact ⟨rfl, rfl, rfl⟩
  · rw [hg]
    have hf2 : find_glyph (cache_glyph env font c).1 c = none := by
      unfold find_glyph at hf ⊢
      rw [h3]
      exact hf
    rw [get_glyph_of_miss env _ c hf2, h5]
    refine ⟨rfl, rfl, fun e2 he2 => ?_⟩
    rw [h1] at he2
    cases he2
  · rw [hg]
    have hf2 : find_glyph (cache_glyph env font c).1 c = some e := by
      unfold find_glyph at hf ⊢
      rw [h3, find_in_cache_append, hf]
      simp only [h2, if_true]
    rw [get_glyph_of_hit env _ c e hf2, h1]
    refine ⟨rfl, rfl, fun e2 he2 => ?_⟩
    simp only [glyph_result.entry, Option.some.injEq] at he2
    subst he2
    exact ⟨rfl, rfl, rfl⟩

/-- Witness for C5: 'A' requested twice on a freshly loaded font; the first call
caches it, the second is a hit and changes nothing. -/
theorem get_glyph_twice_witness :
    (get_glyph scenario_env scenario_font 65).2.placement = some ⟨0, 0, 12, 14⟩ ∧
    (get_glyph scenario_env (get_glyph scenario_env scenario_font 65).1 65).2.upload = none ∧
    (get_glyph scenario_env (get_glyph scenario_env scenario_font 65).1 65).2.entry =
      (get_glyph scenario_env scenario_font 65).2.entry ∧
    (get_glyph scenario_env (get_glyph scenario_env scenario_font 65).1 65).1 =
      (get_glyph scenario_env scenario_font 65).1 :=
  ⟨by decide, by decide, (get_glyph_twice scenario_env scenario_font 65).1,
    (get_glyph_twice scenario_env scenario_font 65).2.1⟩

/-- C6: starting from a font with an empty glyph cache (as after loading), after any
sequence of `get_glyph` calls no two cache entries have the same codepoint, and no
codepoint was given a new atlas placement more than once. -/
theorem cache_codepoints_unique (env : Env) (font : ocfx_font_t F) (cs : List Nat)
    (hempty : font.glyph_cache = []) :
    (get_glyphs env font cs).1.glyph_cache.Pairwise
      (fun a b => a.codepoint ≠ b.codepoint) ∧
    ((get_glyphs env font cs).2.filterMap glyph_result.cached_codepoint).Nodup := by
  have h := get_glyphs_nodup env cs font (by rw [hempty]; exact List.nodup_nil)
  have h2 := get_glyphs_codepoints env cs font
  rw [hempty, List.map_nil, List.nil_append] at h2
  refine ⟨?_, by rw [← h2]; exact h⟩
  unfold List.Nodup at h
  exact (List.pairwise_map.mp h)

/-- Witness for C6: "ABAC" style request sequence on a freshly loaded font. -/
theorem cache_codepoints_unique_witness :
    scenario_font.glyph_cache = [] ∧
    (get_glyphs scenario_env scenario_font [65, 66, 65, 67]).1.glyph_cache.map
      (fun e => e.codepoint) = [65, 66] ∧
    ((get_glyphs scenario_env scenario_font [65, 66, 65, 67]).1.glyph_cache.Pairwise
      (fun a b => a.codepoint ≠ b.codepoint) ∧
    ((get_glyphs scenario_env scenario_font [65, 66, 65, 67]).2.filterMap
      glyph_result.cached_codepoint).Nodup) :=
  ⟨rfl, by decide, cache_codepoints_unique scenario_env scenario_font [65, 66, 65, 67] rfl⟩

/-- C7: for every font state and every `get_glyph` call (hit, successful miss or
failure, with or without growth of the storage), the cache before the call is a
prefix of the cache after it: every entry is still present at the same index with all
its fields unchanged, and the number of entries does not decrease. -/
theorem cache_entries_stable (env : Env) (font : ocfx_font_t F) (c : Nat) :
    font.glyph_cache <+: (get_glyph env font c).1.glyph_cache ∧
    (∀ (i : Nat) (e : glyph_cache_entry_t F), font.glyph_cache[i]? = some e →
      (get_glyph env font c).1.glyph_cache[i]? = some e) ∧
    font.glyph_cache.length ≤ (get_glyph env font c).1.glyph_cache.length := by
  have hp : font.glyph_cache <+: (get_glyph env font c).1.glyph_cache := by
    rcases get_glyph_outcome env font c with ⟨e, -, hg⟩ | ⟨-, hg, -, -, h3, -⟩ |
      ⟨-, hg, up, e, -, -, h3, -⟩
    · rw [hg]
    · rw [hg, h3]
    · rw [hg, h3]
      exact List.prefix_append _ _
  refine ⟨hp, fun i e hi => ?_, hp.length_le⟩
  obtain ⟨t, ht⟩ := hp
  rw [← ht]
  have hlt : i < font.glyph_cache.length := by
    by_contra hge
    rw [List.getElem?_eq_none (not_lt.mp hge)] at hi
    cases hi
  rw [List.getElem?_append_left hlt]
  exact hi

/-- C8: whenever `get_glyph (c)` fails (FreeType has no glyph, the atlas is full, or
the storage cannot grow) it returns `NULL` and leaves the glyph cache unchanged (same
entries, same size, same capacity); `c` is still not cached, so a later
`get_glyph (c)` misses again and goes through `cache_glyph`, which calls the
rasterizer again. -/
theorem no_negative_caching (env : Env) (font : ocfx_font_t F) (c : Nat)
    (hfail : (get_glyph env font c).2 = glyph_result.load_failed ∨
      (get_glyph env font c).2 = glyph_result.atlas_full ∨
      ∃ up, (get_glyph env font c).2 = glyph_result.alloc_failed up) :
    (get_glyph env font c).2.entry = none ∧
    (get_glyph env font c).1.glyph_cache = font.glyph_cache ∧
    (get_glyph env font c).1.glyph_cache_capacity = font.glyph_cache_capacity ∧
    find_glyph (get_glyph env font c).1 c = none ∧
    (∀ env2 : Env, get_glyph env2 (get_glyph env font c).1 c =
      cache_glyph env2 (get_glyph env font c).1 c) := by
  have hnone : (get_glyph env font c).2.entry = none := by
    rcases hfail with h | h | ⟨up, h⟩ <;> rw [h] <;> rfl
  rcases get_glyph_outcome env font c with ⟨e, -, hg⟩ | ⟨hf, hg, -, -, h3, h4, -⟩ |
    ⟨-, hg, up, e, h1, -⟩
  · rw [hg] at hnone
    cases hnone
  · have hf2 : find_glyph (get_glyph env font c).1 c = none := by
      unfold find_glyph at hf ⊢
      rw [hg, h3]
      exact hf
    exact ⟨hnone, by rw [hg]; exact h3, by rw [hg]; exact h4, hf2,
      fun env2 => get_glyph_of_miss env2 _ c hf2⟩
  · rw [hg, h1] at hnone
    cases hnone

/-- Witness for C8: 'C' (67) has no glyph in the scenario face. -/
theorem no_negative_caching_witness :
    (get_glyph scenario_env scenario_font 67).2.entry = none ∧
    (get_glyph scenario_env scenario_font 67).1.glyph_cache = scenario_font.glyph_cache ∧
    (get_glyph scenario_env scenario_font 67).1.glyph_cache_capacity
      = scenario_font.glyph_cache_capacity ∧
    find_glyph (get_glyph scenario_env scenario_font 67).1 67 = none ∧
    (∀ env2 : Env, get_glyph env2 (get_glyph scenario_env scenario_font 67).1 67 =
      cache_glyph env2 (get_glyph scenario_env scenario_font 67).1 67) :=
  no_negative_caching scenario_env scenario_font 67 (Or.inl rfl)

/-- C9: for every text and every (non-null) font, `ocfx_text_measure` stores as width
the advances of exactly the glyphs that resolve, added up in text order starting from
0 (so 0 for the empty text), and as height the font's line height whatever the text.
Scenario: for "AB" with advance 10 for 'A', 12 for 'B' and line height 18 the result
is (22, 18). -/
theorem measure_is_sum_of_advances [Add F] (env : Env) (font : ocfx_font_t F)
    (text : List Nat) :
    (ocfx_text_measure env (some font) (some text)).width =
      ((resolved_glyphs env text font).map (fun g => g.advance)).foldl (· + ·)
        ((0 : Int) : F) ∧
    (ocfx_text_measure env (some font) (some text)).height = ((font.height : Int) : F) ∧
    (ocfx_text_measure env (some font) (some [])).width = ((0 : Int) : F) ∧
    ((resolved_glyphs scenario_env [65, 66] scenario_font).map (fun g => g.advance)
      = [10, 12] ∧
     (ocfx_text_measure scenario_env (some scenario_font) (some [65, 66])).width = 22 ∧
     (ocfx_text_measure scenario_env (some scenario_font) (some [65, 66])).height = 18) := by
  refine ⟨?_, ?_, rfl, ?_, ?_, ?_⟩
  · exact (measure_loop_trace env text font _).1
  · simp only [ocfx_text_measure]
    rw [(measure_loop_trace env text font _).2]
  · decide
  · have h := (measure_loop_trace scenario_env [65, 66] scenario_font ((0 : Int) : ℚ)).1
    have ha : (resolved_glyphs scenario_env [65, 66] scenario_font).map (fun g => g.advance)
        = [10, 12] := by decide
    simp only [ocfx_text_measure]
    rw [h, ha]
    norm_num
  · decide

/-- C10: `ocfx_text_draw` (non-null arguments) submits, for the glyphs that resolve and
in their order, one vertex array each; the array of a glyph is the interleaved layout
`(position.xy, texcoord.uv, color.rgba)` of the six vertices top-left, top-right,
bottom-left, top-right, bottom-right, bottom-left of `spec_quad`, computed from the
pen position in front of the glyph and the baseline `y + font.ascent`:
`x0 = pen_x + bearing_x`, `y0 = baseline - bearing_y`, `x1 = x0 + width`,
`y1 = y0 + height`, `(u0, v0)` the cached atlas origin, `(u1, v1)` origin plus cached
atlas size, every vertex with the caller's color. -/
theorem draw_emits_spec_quads [Add F] [Sub F] (env : Env) (rd : ocfx_renderer_t)
    (font : ocfx_font_t F) (text : List Nat) (x y : F) (color : ocfx_color_t F) :
    (ocfx_text_draw env (some rd) (some font) (some text) x y color).quads =
      List.zipWith
        (fun pen_x g => interleave (spec_quad pen_x (y + ((font.ascent : Int) : F)) g color))
        (pen_positions x (resolved_glyphs env text font))
        (resolved_glyphs env text font) ∧
    (∀ (pen_x baseline : F) (g : glyph_cache_entry_t F),
      (spec_quad pen_x baseline g color).length = 6 ∧
      (spec_quad pen_x baseline g color).map (fun v => v.color)
        = [color, color, color, color, color, color] ∧
      (spec_quad pen_x baseline g color).map (fun v => v.position) =
        [ (pen_x + g.bearing_x, baseline - g.bearing_y),
          (pen_x + g.bearing_x + g.width, baseline - g.bearing_y),
          (pen_x + g.bearing_x, baseline - g.bearing_y + g.height),
          (pen_x + g.bearing_x + g.width, baseline - g.bearing_y),
          (pen_x + g.bearing_x + g.width, baseline - g.bearing_y + g.height),
          (pen_x + g.bearing_x, baseline - g.bearing_y + g.height) ] ∧
      (spec_quad pen_x baseline g color).map (fun v => v.texcoord) =
        [ (g.atlas_x, g.atlas_y),
          (g.atlas_x + g.atlas_width, g.atlas_y),
          (g.atlas_x, g.atlas_y + g.atlas_height),
          (g.atlas_x + g.atlas_width, g.atlas_y),
          (g.atlas_x + g.atlas_width, g.atlas_y + g.atlas_height),
          (g.atlas_x, g.atlas_y + g.atlas_height) ]) := by
  refine ⟨?_, fun pen_x baseline g => ⟨rfl, rfl, rfl, rfl⟩⟩
  simp only [ocfx_text_draw]
  exact (draw_loop_trace env color _ text font x).1

/-- C16 (counterexample): on an empty 64 x 64 atlas, after the request 40 x 40 the
request 30 x 30 is not placed at (0, 40): it gets no placement at all, and the row
height afterwards is 0, not 30. -/
theorem packing_scenario_second_not_placed :
    (cache_glyph atlas64_env (cache_glyph atlas64_env atlas64_font 1).1 2).2.placement
      ≠ some ⟨0, 40, 30, 30⟩ ∧
    (cache_glyph atlas64_env (cache_glyph atlas64_env atlas64_font 1).1 2).2.placement
      = none ∧
    (cache_glyph atlas64_env (cache_glyph atlas64_env atlas64_font 1).1 2).1.atlas_row_height
      ≠ 30 := by
  decide

/-- C16 (amended): on an empty 64 x 64 atlas the request 40 x 40 is placed at (0, 0) and
leaves the cursor at x = 40 with row height 40; the following request 30 x 30 wraps
the cursor to (0, 40) with row height 0 (40 + 30 > 64) and then returns FULL, because
40 + 30 = 70 exceeds the atlas height 64; only the first glyph is placed. -/
theorem packing_scenario_first_two :
    (cache_glyph atlas64_env atlas64_font 1).2.placement = some ⟨0, 0, 40, 40⟩ ∧
    atlas_state (cache_glyph atlas64_env atlas64_font 1).1 = (40, 0, 40) ∧
    (cache_glyph atlas64_env (cache_glyph atlas64_env atlas64_font 1).1 2).2.is_full
      = true ∧
    atlas_state (cache_glyph atlas64_env (cache_glyph atlas64_env atlas64_font 1).1 2).1
      = (0, 40, 0) ∧
    placements (cache_glyphs atlas64_env atlas64_font [1, 2]).2 = [⟨0, 0, 40, 40⟩] := by
  decide

/-- C17: on an empty 64 x 64 atlas, after the requests 40 x 40 and 30 x 30, a third
request of 40 x 30 returns FULL. -/
theorem packing_scenario_third_full :
    (cache_glyph atlas64_env (cache_glyphs atlas64_env atlas64_font [1, 2]).1 3).2.is_full
      = true ∧
    (cache_glyph atlas64_env (cache_glyphs atlas64_env atlas64_font [1, 2]).1 3).2
      = glyph_result.atlas_full ∧
    (cache_glyphs atlas64_env atlas64_font [1, 2, 3]).2.map glyph_result.is_full
      = [false, true, true] := by
  refine ⟨by decide, rfl, by decide⟩

/-- C14 (evaluation at the failing input): the file "fixed.pcf" can be opened, but
`FT_Set_Pixel_Sizes` reports an error for the requested size 24; `ocfx_font_load`
nevertheless returns a font (with the zero metrics the face was left with).  When the
font source cannot be opened, `ocfx_font_load` does return `NULL`. -/
theorem font_load_ignores_size_error :
    (scenario_load_env.FT_New_Face "fixed.pcf").map (fun face => (face.FT_Set_Pixel_Sizes 24).1)
      = some 23 ∧
    (ocfx_font_load scenario_load_env (some scenario_renderer) (some "fixed.pcf") 24 :
      Option (ocfx_font_t ℚ)).map (fun f => (f.size, f.height, f.ascent))
      = some (24, 0, 0) ∧
    (∀ (lenv : LoadEnv) (renderer : Option ocfx_renderer_t) (path : String) (size : Int),
      lenv.FT_New_Face path = none →
      (ocfx_font_load lenv renderer (some path) size : Option (ocfx_font_t ℚ)) = none) := by
  refine ⟨by rfl, by rfl, ?_⟩
  intro lenv renderer path size hnone
  unfold ocfx_font_load
  cases renderer with
  | none => rfl
  | some rd =>
    simp only [hnone]
    split
    · rfl
    · split
      · rfl
      · split <;> rfl

/-- C15: invalid arguments are no-ops with zeroed outputs.  `ocfx_text_measure` and
`ocfx_text_measure_n` with a null font or a null text store width 0 and height 0 and
leave the font as it is; `ocfx_text_draw` with a null renderer, font or text draws
nothing and leaves the font as it is; `ocfx_font_load` with a non-positive size, a
null renderer or a null path returns no font; the metric getters return 0 for a null
font. -/
theorem invalid_arguments_are_noops [Add F] [Sub F] (env : Env) (lenv : LoadEnv)
    (font : Option (ocfx_font_t F)) (text : Option (List Nat)) (len : Nat)
    (renderer : Option ocfx_renderer_t) (path : Option String) (size : Int)
    (x y : F) (color : ocfx_color_t F) :
    ((font = none ∨ text = none) →
      (ocfx_text_measure env font text).width = ((0 : Int) : F) ∧
      (ocfx_text_measure env font text).height = ((0 : Int) : F) ∧
      (ocfx_text_measure env font text).font = font ∧
      (ocfx_text_measure_n env font text len).width = ((0 : Int) : F) ∧
      (ocfx_text_measure_n env font text len).height = ((0 : Int) : F) ∧
      (ocfx_text_measure_n env font text len).font = font) ∧
    ((renderer = none ∨ font = none ∨ text = none) →
      (ocfx_text_draw env renderer font text x y color).quads = [] ∧
      (ocfx_text_draw env renderer font text x y color).u_resolution = none ∧
      (ocfx_text_draw env renderer font text x y color).font = font) ∧
    ((size ≤ 0 ∨ renderer = none ∨ path = none) →
      (ocfx_font_load lenv renderer path size : Option (ocfx_font_t F)) = none) ∧
    ocfx_font_get_height (none : Option (ocfx_font_t F)) = 0 ∧
    ocfx_font_get_advance (none : Option (ocfx_font_t F)) = 0 ∧
    ocfx_font_get_ascent (none : Option (ocfx_font_t F)) = 0 ∧
    ocfx_font_get_descent (none : Option (ocfx_font_t F)) = 0 := by
  refine ⟨?_, ?_, ?_, rfl, rfl, rfl, rfl⟩
  · intro h
    cases font with
    | none => exact ⟨rfl, rfl, rfl, rfl, rfl, rfl⟩
    | some f =>
      cases text with
      | none => exact ⟨rfl, rfl, rfl, rfl, rfl, rfl⟩
      | some t => simp at h
  · intro h
    cases renderer with
    | none => exact ⟨rfl, rfl, rfl⟩
    | some rd =>
      cases font with
      | none => exact ⟨rfl, rfl, rfl⟩
      | some f =>
        cases text with
        | none => exact ⟨rfl, rfl, rfl⟩
        | some t => simp at h
  · intro h
    unfold ocfx_font_load
    cases renderer with
    | none => rfl
    | some rd =>
      cases path with
      | none => rfl
      | some p =>
        simp only [reduceCtorEq, or_false] at h
        simp only [h, if_true]

/-- C20: a font returned by `ocfx_font_load` has, whatever the font file and the pixel
size, atlas dimensions 2048 x 2048, the packing cursor at (0, 0), row height 0 and an
empty glyph cache (size 0, capacity 0); and every font state reached from it through
the text interface (measuring, drawing and the glyph lookups these perform) still has
atlas dimensions 2048 x 2048. -/
theorem loaded_font_atlas_is_fixed [Add F] [Sub F] (lenv : LoadEnv)
    (renderer : Option ocfx_renderer_t) (font_path : Option String) (size : Int)
    (font : ocfx_font_t F)
    (hload : ocfx_font_load lenv renderer font_path size = some font) :
    font.atlas_width = 2048 ∧ font.atlas_height = 2048 ∧
    atlas_state font = (0, 0, 0) ∧
    font.glyph_cache = [] ∧ font.glyph_cache.length = 0 ∧ font.glyph_cache_capacity = 0 ∧
    (∀ f, font_reachable font f →
      f.atlas_width = 2048 ∧ f.atlas_height = 2048 ∧
      ∀ (env : Env) (c : Nat),
        (get_glyph env f c).1.atlas_width = 2048 ∧ (get_glyph env f c).1.atlas_height = 2048 ∧
        (cache_glyph env f c).1.atlas_width = 2048 ∧
        (cache_glyph env f c).1.atlas_height = 2048) := by
  obtain ⟨-, -, hw, hh, hx, hy, hr, hc, hk⟩ := font_load_some lenv renderer font_path size font hload
  refine ⟨hw, hh, ?_, hc, by rw [hc]; rfl, hk, ?_⟩
  · simp only [atlas_state, hx, hy, hr]
  · intro f hf
    obtain ⟨-, -, -, -, -, h6, h7⟩ := font_reachable_metrics font f hf
    refine ⟨h6.trans hw, h7.trans hh, fun env c => ?_⟩
    obtain ⟨-, -, -, -, -, g6, g7⟩ := get_glyph_metrics env f c
    obtain ⟨-, -, -, -, -, c6, c7⟩ := cache_glyph_metrics env f c
    exact ⟨g6.trans (h6.trans hw), g7.trans (h7.trans hh), c6.trans (h6.trans hw),
      c7.trans (h7.trans hh)⟩

/-- Witness for C20: "mono.ttf" loaded at 16 pixels, then "AB" measured. -/
theorem loaded_font_atlas_is_fixed_witness :
    (ocfx_font_load scenario_load_env (some scenario_renderer) (some "mono.ttf") 16
      = some loaded_font) ∧
    font_reachable loaded_font
      (measure_loop scenario_env [65, 66] loaded_font ((0 : Int) : ℚ)).1 ∧
    (measure_loop scenario_env [65, 66] loaded_font ((0 : Int) : ℚ)).1.atlas_width = 2048 ∧
    (measure_loop scenario_env [65, 66] loaded_font ((0 : Int) : ℚ)).1.atlas_x = 23 :=
  ⟨loaded_font_eq,
    font_reachable.measure scenario_env (some [65, 66]) font_reachable.start rfl,
    ((loaded_font_atlas_is_fixed scenario_load_env (some scenario_renderer) (some "mono.ttf")
      16 loaded_font loaded_font_eq).2.2.2.2.2.2 _
      (font_reachable.measure scenario_env (some [65, 66]) font_reachable.start rfl)).1,
    by decide⟩

/-- C18: on a successful miss (`get_glyph (c)` returns a newly cached entry `e` whose
bitmap was uploaded at the rectangle `up`), FreeType delivered a glyph slot for `c` and
`e` has codepoint `c`, UV origin `(up.x / atlas_width, up.y / atlas_height)`, UV size
`(bitmap.width / atlas_width, bitmap.rows / atlas_height)`, pixel size
`(bitmap.width, bitmap.rows)`, bearing `(bitmap_left, bitmap_top)` and advance
`advance.x >> 6` (the 26.6 value divided by 64, rounded down); `up` is the cursor at
which the packer placed the glyph (the cursor after the row check, which is the
placement of the shelf algorithm when the arithmetic does not overflow); `e` is the
value returned and the last entry of the cache. -/
theorem cached_entry_fields (env : Env) (font : ocfx_font_t F) (c : Nat) (up : tex_upload)
    (e : glyph_cache_entry_t F)
    (hmiss : (get_glyph env font c).2 = glyph_result.cached up e) :
    ∃ slot, env.FT_Load_Char c = some slot ∧
      e = { codepoint := c
            atlas_x := (up.xoffset : F) / (font.atlas_width : F)
            atlas_y := (up.yoffset : F) / (font.atlas_height : F)
            atlas_width := (slot.bitmap_width : F) / (font.atlas_width : F)
            atlas_height := (slot.bitmap_rows : F) / (font.atlas_height : F)
            width := (slot.bitmap_width : F)
            height := (slot.bitmap_rows : F)
            bearing_x := (slot.bitmap_left : F)
            bearing_y := (slot.bitmap_top : F)
            advance := ((slot.advance_x >>> 6 : Int) : F) } ∧
      slot.advance_x >>> 6 = slot.advance_x / 64 ∧
      (up.xoffset, up.yoffset) =
        ((atlas_new_row font slot).atlas_x, (atlas_new_row font slot).atlas_y) ∧
      (no_overflow font slot →
        (spec_reserve font.atlas_width font.atlas_height (atlas_state font)
          slot.bitmap_width slot.bitmap_rows).2 = some (up.xoffset, up.yoffset)) ∧
      (get_glyph env font c).2.entry = some e ∧
      (get_glyph env font c).1.glyph_cache = font.glyph_cache ++ [e] := by
  rcases get_glyph_outcome env font c with ⟨e2, -, hg⟩ | ⟨-, hg, h1, -⟩ |
    ⟨-, hg, up2, e2, h1, -, h3, -⟩
  · rw [hg] at hmiss
    cases hmiss
  · rw [hg] at hmiss
    rw [hmiss] at h1
    cases h1
  · rw [hg] at hmiss ⊢
    obtain ⟨slot, hload, hup, he⟩ := cache_glyph_cached env font c up e hmiss
    have hee : e2 = e := by
      rw [h1] at hmiss
      simp only [glyph_result.cached.injEq] at hmiss
      exact hmiss.2
    subst hee
    refine ⟨slot, hload, he, ?_, ?_, ?_, ?_, h3⟩
    · exact shift_right_6 _
    · rw [hup]
    · intro hrange
      have hc := cache_glyph_cases env font c slot hload hrange _ rfl
      obtain ⟨-, -, hc⟩ := hc
      have hs := atlas_new_row_state font slot hrange
      simp only [spec_reserve, show (atlas_state font).1 = font.atlas_x from rfl,
        show (atlas_state font).2.1 = font.atlas_y from rfl,
        show (atlas_state font).2.2 = font.atlas_row_height from rfl]
      rw [← hs] at hc ⊢
      rcases hc with ⟨-, hres, -⟩ | ⟨-, -, hres, -⟩ | ⟨hfit, -, e3, -, -, -⟩
      · rw [hmiss] at hres
        cases hres
      · rw [hmiss] at hres
        cases hres
      · rw [if_neg (not_lt.mpr hfit), hup]
        rfl
    · rw [hmiss]
      rfl

/-- Witness for C18: the entry cached for 'A' on a freshly loaded font. -/
theorem cached_entry_fields_witness :
    (get_glyph scenario_env loaded_font 65).2.placement = some ⟨0, 0, 12, 14⟩ ∧
    ∃ slot, scenario_env.FT_Load_Char 65 = some slot ∧
      new_entry loaded_font glyph_A 65 =
          ({ codepoint := 65
             atlas_x := (((0 : Int) : ℚ)) / ((loaded_font.atlas_width : Int) : ℚ)
             atlas_y := (((0 : Int) : ℚ)) / ((loaded_font.atlas_height : Int) : ℚ)
             atlas_width := ((slot.bitmap_width : Nat) : ℚ) / ((loaded_font.atlas_width : Int) : ℚ)
             atlas_height := ((slot.bitmap_rows : Nat) : ℚ) / ((loaded_font.atlas_height : Int) : ℚ)
             width := ((slot.bitmap_width : Nat) : ℚ)
             height := ((slot.bitmap_rows : Nat) : ℚ)
             bearing_x := ((slot.bitmap_left : Int) : ℚ)
             bearing_y := ((slot.bitmap_top : Int) : ℚ)
             advance := ((slot.advance_x >>> 6 : Int) : ℚ) } : glyph_cache_entry_t ℚ) :=
  ⟨by decide,
    (cached_entry_fields scenario_env loaded_font 65 ⟨0, 0, 12, 14⟩
      (new_entry loaded_font glyph_A 65) rfl).imp (fun _ h => ⟨h.1, h.2.1⟩)⟩

/-- C11: within one `ocfx_text_draw` call the bytes are processed in input order.  With
`gs` the glyphs that resolve when `get_glyph` is called once per byte of the text in
text order (lookups that return `NULL` contribute nothing to `gs`), the call submits
exactly one quad per element of `gs`, in that order; the quad of the `k`-th resolved
glyph is built at pen position `x` plus the advances of the `k` resolved glyphs before
it; the pen ends at `x` plus all these advances; and a byte whose lookup fails is
skipped: the loop continues with the rest of the text at the same pen position. -/
theorem draw_in_input_order [Add F] [Sub F] (env : Env) (rd : ocfx_renderer_t)
    (font : ocfx_font_t F) (text : List Nat) (x y : F) (color : ocfx_color_t F) :
    resolved_glyphs env text font =
      (get_glyphs env font ((text.takeWhile (fun b => b != 0)).map
        (char_codepoint env))).2.filterMap glyph_result.entry ∧
    (ocfx_text_draw env (some rd) (some font) (some text) x y color).quads.length =
      (resolved_glyphs env text font).length ∧
    (∀ k : Nat,
      (ocfx_text_draw env (some rd) (some font) (some text) x y color).quads[k]? =
        ((resolved_glyphs env text font)[k]?).map (fun g =>
          quad_vertices
            ((((resolved_glyphs env text font).take k).map (fun g => g.advance)).foldl
              (· + ·) x)
            (y + ((font.ascent : Int) : F)) g color)) ∧
    (ocfx_text_draw env (some rd) (some font) (some text) x y color).pen_x =
      ((resolved_glyphs env text font).map (fun g => g.advance)).foldl (· + ·) x ∧
    (∀ (b : Nat) (rest : List Nat) (f : ocfx_font_t F) (pen_x pen_y : F), b ≠ 0 →
      (get_glyph env f (char_codepoint env b)).2.entry = none →
      draw_loop env color pen_y (b :: rest) f pen_x =
        draw_loop env color pen_y rest (get_glyph env f (char_codepoint env b)).1 pen_x) := by
  have ht := draw_loop_trace env color (y + ((font.ascent : Int) : F)) text font x
  have hq : (ocfx_text_draw env (some rd) (some font) (some text) x y color).quads =
      List.zipWith (fun p g => quad_vertices p (y + ((font.ascent : Int) : F)) g color)
        (pen_positions x (resolved_glyphs env text font))
        (resolved_glyphs env text font) := ht.1
  have hk : ∀ k : Nat,
      (ocfx_text_draw env (some rd) (some font) (some text) x y color).quads[k]? =
        ((resolved_glyphs env text font)[k]?).map (fun g =>
          quad_vertices
            ((((resolved_glyphs env text font).take k).map (fun g => g.advance)).foldl
              (· + ·) x)
            (y + ((font.ascent : Int) : F)) g color) := by
    intro k
    rw [hq]
    exact zipWith_pen_positions
      (fun p g => quad_vertices p (y + ((font.ascent : Int) : F)) g color) _ x k
  refine ⟨rfl, ?_, hk, ht.2, ?_⟩
  · apply le_antisymm
    · by_contra hlt
      have h1 := hk (resolved_glyphs env text font).length
      rw [List.getElem?_eq_none (le_refl _), Option.map_none'] at h1
      rw [List.getElem?_eq_none_iff] at h1
      omega
    · by_contra hlt
      have h1 := hk
        (ocfx_text_draw env (some rd) (some font) (some text) x y color).quads.length
      rw [List.getElem?_eq_none (le_refl _)] at h1
      have h2 := h1.symm
      rw [Option.map_eq_none', List.getElem?_eq_none_iff] at h2
      omega
  · intro b rest f pen_x pen_y hb hnone
    simp only [draw_loop, hb, if_false, hnone]

/-- C19: starting from a font as `ocfx_font_load` returns it, and provided every bitmap
requested is no wider than the atlas (and its height fits an `int`), after any sequence
of `get_glyph` calls every cache entry has `0 ≤ atlas_x`, `0 ≤ atlas_y`,
`atlas_x + atlas_width ≤ 1` and `atlas_y + atlas_height ≤ 1`, and every rectangle
reserved satisfies `0 ≤ x`, `0 ≤ y`, `x + w ≤ atlas_width` and `y + h ≤ atlas_height`.
The normalized coordinates are taken in an ordered field (exact division). -/
theorem cached_uv_in_unit_square {F : Type} [LinearOrderedField F] (lenv : LoadEnv)
    (renderer : Option ocfx_renderer_t) (font_path : Option String) (size : Int)
    (font : ocfx_font_t F)
    (hload : ocfx_font_load lenv renderer font_path size = some font)
    (env : Env) (cs : List Nat)
    (hbit : ∀ c ∈ cs, ∀ slot, env.FT_Load_Char c = some slot →
      (slot.bitmap_width : Int) ≤ font.atlas_width ∧ slot.bitmap_rows < 2147483648) :
    (∀ e ∈ (get_glyphs env font cs).1.glyph_cache,
      0 ≤ e.atlas_x ∧ 0 ≤ e.atlas_y ∧
      e.atlas_x + e.atlas_width ≤ 1 ∧ e.atlas_y + e.atlas_height ≤ 1) ∧
    (∀ p ∈ placements (get_glyphs env font cs).2,
      0 ≤ p.xoffset ∧ 0 ≤ p.yoffset ∧
      p.xoffset + p.width ≤ font.atlas_width ∧ p.yoffset + p.height ≤ font.atlas_height) := by
  obtain ⟨-, -, hw, hh, hx, hy, hr, hc, -⟩ :=
    font_load_some lenv renderer font_path size font hload
  have hok : atlas_ok font := by
    unfold atlas_ok
    omega
  exact get_glyphs_uv env cs font hok (by omega) (by omega) hbit
    (fun e he => by rw [hc] at he; cases he)

/-- C12 (counterexample): on a freshly loaded font (2048 x 2048 atlas) with glyphs 'A'
2000 x 1500, 'B' 100 x 1000 and 'C' 40 x 600: in "AC" both glyphs resolve and the width
is 2040.  After 'A', 'B' fails to resolve (atlas full), yet in "ABC" the glyph 'C' no
longer resolves and the width is 2000: the failed lookup of 'B' has moved the cursor
to a new row in which 'C' does not fit. -/
theorem inserted_failure_changes_rest :
    (get_glyph skip_env (get_glyphs skip_env loaded_font (text_keys skip_env [65])).1
      (char_codepoint skip_env 66)).2.is_full = true ∧
    (resolved_glyphs skip_env [65, 67] loaded_font).map (fun g => g.codepoint) = [65, 67] ∧
    (resolved_glyphs skip_env [65, 66, 67] loaded_font).map (fun g => g.codepoint) = [65] ∧
    (ocfx_text_measure skip_env (some loaded_font) (some [65, 67])).width = 2040 ∧
    (ocfx_text_measure skip_env (some loaded_font) (some [65, 66, 67])).width = 2000 ∧
    (ocfx_text_measure skip_env (some loaded_font) (some [65, 66, 67])).width ≠
      (ocfx_text_measure skip_env (some loaded_font) (some [65, 67])).width := by
  have h1 := (measure_loop_trace skip_env [65, 67] loaded_font ((0 : Int) : ℚ)).1
  have a1 : (resolved_glyphs skip_env [65, 67] loaded_font).map (fun g => g.advance)
      = [2000, 40] := by decide
  have h2 := (measure_loop_trace skip_env [65, 66, 67] loaded_font ((0 : Int) : ℚ)).1
  have a2 : (resolved_glyphs skip_env [65, 66, 67] loaded_font).map (fun g => g.advance)
      = [2000] := by decide
  have w1 : (ocfx_text_measure skip_env (some loaded_font) (some [65, 67])).width = 2040 := by
    simp only [ocfx_text_measure]
    rw [h1, a1]
    norm_num
  have w2 : (ocfx_text_measure skip_env (some loaded_font) (some [65, 66, 67])).width
      = 2000 := by
    simp only [ocfx_text_measure]
    rw [h2, a2]
    norm_num
  refine ⟨by decide, by decide, by decide, w1, w2, ?_⟩
  rw [w1, w2]
  norm_num

/-- C12 (amended): for every font state, all texts `s1` and `s2` and every byte `u`
whose lookup after `s1` fails without moving the packing cursor (in particular
whenever FreeType has no glyph for `u`), inserting `u` between `s1` and `s2` changes
nothing else: `ocfx_text_measure` returns the same width for `s1 ++ [u] ++ s2` as for
`s1 ++ s2`, exactly the same glyphs resolve, and the font ends in the same state. -/
theorem skip_on_unchanged_failure [Add F] (env : Env) (font : ocfx_font_t F)
    (s1 s2 : List Nat) (u : Nat) (hu : u ≠ 0)
    (hfail :
      (get_glyph env (get_glyphs env font (text_keys env s1)).1 (char_codepoint env u)).2
        = glyph_result.load_failed ∨
      ((get_glyph env (get_glyphs env font (text_keys env s1)).1
          (char_codepoint env u)).2.entry = none ∧
        atlas_state (get_glyph env (get_glyphs env font (text_keys env s1)).1
          (char_codepoint env u)).1 =
        atlas_state (get_glyphs env font (text_keys env s1)).1)) :
    (ocfx_text_measure env (some font) (some (s1 ++ [u] ++ s2))).width =
      (ocfx_text_measure env (some font) (some (s1 ++ s2))).width ∧
    resolved_glyphs env (s1 ++ [u] ++ s2) font = resolved_glyphs env (s1 ++ s2) font ∧
    (ocfx_text_measure env (some font) (some (s1 ++ [u] ++ s2))).font =
      (ocfx_text_measure env (some font) (some (s1 ++ s2))).font := by
  obtain ⟨hnone, hsame⟩ := get_glyph_failed_same env _ _ hfail
  obtain ⟨hf, hr⟩ := get_glyphs_skip env u s2 hu s1 font hnone hsame
  have happ : s1 ++ [u] ++ s2 = s1 ++ u :: s2 := by simp
  rw [happ]
  have hres : resolved_glyphs env (s1 ++ u :: s2) font = resolved_glyphs env (s1 ++ s2) font := hr
  refine ⟨?_, hres, ?_⟩
  · simp only [ocfx_text_measure]
    rw [(measure_loop_trace env _ font _).1, (measure_loop_trace env _ font _).1, hres]
  · simp only [ocfx_text_measure]
    rw [measure_loop_font, measure_loop_font, hf]

/-- Witness for C12 (amended): 'C' (67), for which the scenario face has no glyph,
inserted between "A" and "B". -/
theorem skip_on_unchanged_failure_witness :
    (get_glyph scenario_env (get_glyphs scenario_env loaded_font
      (text_keys scenario_env [65])).1 (char_codepoint scenario_env 67)).2.entry.isSome
        = false ∧
    (resolved_glyphs scenario_env [65, 66] loaded_font).map (fun g => g.codepoint)
      = [65, 66] ∧
    (ocfx_text_measure scenario_env (some loaded_font) (some ([65] ++ [67] ++ [66]))).width =
      (ocfx_text_measure scenario_env (some loaded_font) (some ([65] ++ [66]))).width :=
  ⟨by decide, by decide,
    (skip_on_unchanged_failure scenario_env loaded_font [65] [66] 67 (by decide)
      (Or.inl rfl)).1⟩

/-- C13: for every font state and every text `s`, the width returned by
`ocfx_text_measure (s)` equals the total advance that `ocfx_text_draw (s, x, y, color)`
applies to the pen from the same font state, the final `pen_x` minus `x`; both add up
the advances of the same resolved glyphs.  Advances are exact values (a field). -/
theorem measure_equals_draw_advance {F : Type} [Field F] (env : Env)
    (rd : ocfx_renderer_t) (font : ocfx_font_t F) (text : List Nat) (x y : F)
    (color : ocfx_color_t F) :
    (ocfx_text_measure env (some font) (some text)).width =
      (ocfx_text_draw env (some rd) (some font) (some text) x y color).pen_x - x ∧
    (ocfx_text_measure env (some font) (some text)).width =
      ((resolved_glyphs env text font).map (fun g => g.advance)).sum ∧
    (ocfx_text_draw env (some rd) (some font) (some text) x y color).pen_x =
      x + ((resolved_glyphs env text font).map (fun g => g.advance)).sum := by
  have hm : (ocfx_text_measure env (some font) (some text)).width =
      ((resolved_glyphs env text font).map (fun g => g.advance)).foldl (· + ·)
        ((0 : Int) : F) := (measure_loop_trace env text font _).1
  have hd : (ocfx_text_draw env (some rd) (some font) (some text) x y color).pen_x =
      ((resolved_glyphs env text font).map (fun g => g.advance)).foldl (· + ·) x :=
    (draw_loop_trace env color _ text font x).2
  have hsum : ((resolved_glyphs env text font).map (fun g => g.advance)).foldl (· + ·) 0
      = ((resolved_glyphs env text font).map (fun g => g.advance)).sum := by
    rw [List.sum_eq_foldl]
  rw [Int.cast_zero] at hm
  rw [foldl_add_start] at hd
  rw [hm, hd, hsum]
  refine ⟨by ring, rfl, rfl⟩

/-- Witness for C19: 'A', 'B', 'A' looked up on the font loaded from "mono.ttf". -/
theorem cached_uv_in_unit_square_witness :
    ocfx_font_load scenario_load_env (some scenario_renderer) (some "mono.ttf") 16
      = some loaded_font ∧
    (get_glyphs scenario_env loaded_font [65, 66, 65]).1.glyph_cache.length = 2 ∧
    (∀ e ∈ (get_glyphs scenario_env loaded_font [65, 66, 65]).1.glyph_cache,
      0 ≤ e.atlas_x ∧ 0 ≤ e.atlas_y ∧
      e.atlas_x + e.atlas_width ≤ 1 ∧ e.atlas_y + e.atlas_height ≤ 1) :=
  ⟨loaded_font_eq, by decide,
    (cached_uv_in_unit_square scenario_load_env (some scenario_renderer) (some "mono.ttf") 16
      loaded_font loaded_font_eq scenario_env [65, 66, 65]
      (fun c _ slot hs =>
        ⟨(scenario_env_sizes c slot hs).2.1,
          lt_of_le_of_lt (Int.ofNat_le.mp (scenario_env_sizes c slot hs).2.2.2)
            (by decide)⟩)).1⟩

/-- C21: `ocfx_text_draw_aligned` and `ocfx_text_draw_wrapped` are pass-throughs: for
all arguments (null or not) their whole outcome (vertex arrays, uniform, font state
afterwards, final pen) is that of `ocfx_text_draw (renderer, font, text, rect.x,
rect.y, color)`; hence it does not depend on `align`, `baseline`, `line_spacing`,
`rect.width` or `rect.height`. -/
theorem draw_variants_pass_through [Add F] [Sub F] (env : Env)
    (renderer : Option ocfx_renderer_t) (font : Option (ocfx_font_t F))
    (text : Option (List Nat)) (rect : ocfx_rect_t F) (align : ocfx_text_align_t)
    (baseline : ocfx_text_baseline_t) (line_spacing : F) (color : ocfx_color_t F) :
    ocfx_text_draw_aligned env renderer font text rect align baseline color =
      ocfx_text_draw env renderer font text rect.x rect.y color ∧
    ocfx_text_draw_wrapped env renderer font text rect line_spacing color =
      ocfx_text_draw env renderer font text rect.x rect.y color ∧
    (∀ (width2 height2 : F) (align2 : ocfx_text_align_t) (baseline2 : ocfx_text_baseline_t)
      (line_spacing2 : F),
      ocfx_text_draw_aligned env renderer font text
          { x := rect.x, y := rect.y, width := width2, height := height2 }
          align2 baseline2 color =
        ocfx_text_draw_aligned env renderer font text rect align baseline color ∧
      ocfx_text_draw_wrapped env renderer font text
          { x := rect.x, y := rect.y, width := width2, height := height2 }
          line_spacing2 color =
        ocfx_text_draw_wrapped env renderer font text rect line_spacing color) :=
  ⟨rfl, rfl, fun _ _ _ _ _ => ⟨rfl, rfl⟩⟩

/-- C22 (evaluation at the failing input): for a window whose display connection has
failed with `EPIPE` (32), `ocfx_window_dispatch` returns 32, which is neither -1 nor
negative, so the caller's test `ocfx_window_dispatch (window) < 0` does not detect the
error.  In general the function returns whatever `wl_display_get_error` reports; it
returns -1 only for a null window or a window without display. -/
theorem window_dispatch_returns_errno :
    ocfx_window_dispatch (some { display := some { wl_display_get_error := 32 },
                                 should_close := false }) = 32 ∧
    ¬ (ocfx_window_dispatch (some { display := some { wl_display_get_error := 32 },
                                    should_close := false }) < 0) ∧
    (∀ (d : wl_display) (sc : Bool),
      ocfx_window_dispatch (some { display := some d, should_close := sc })
        = d.wl_display_get_error) ∧
    ocfx_window_dispatch none = -1 ∧
    (∀ sc : Bool, ocfx_window_dispatch (some { display := none, should_close := sc }) = -1) :=
  ⟨rfl, by decide, fun _ _ => rfl, rfl, fun _ => rfl⟩

/-- C23 (evaluation at the failing input): where plain `char` is signed, the byte 0xE9
(233) is passed to `get_glyph` as key 4294967273 (0xFFFFFFE9), not as 233, and is
cached under that key; every byte of 128 or more gets a key above 255.  The rest of
the claim holds: the font state after `ocfx_text_measure` and `ocfx_text_draw` is the
state after exactly one `get_glyph` call per byte in front of the first NUL, bytes
below 128 are keyed by their value, and where `char` is unsigned every byte is. -/
theorem high_byte_key_is_sign_extended [Add F] [Sub F] (env : Env)
    (font : ocfx_font_t F) (text : List Nat) (x y : F) (rd : ocfx_renderer_t)
    (color : ocfx_color_t F) :
    char_codepoint scenario_env 233 = 4294967273 ∧
    text_keys scenario_env [65, 233, 66, 0, 67] = [65, 4294967273, 66] ∧
    (∀ b, 128 ≤ b → env.char_is_signed = true → 255 < char_codepoint env b) ∧
    (∀ b, b < 128 → char_codepoint env b = b) ∧
    (∀ b, env.char_is_signed = false → char_codepoint env b = b) ∧
    (text_keys env text).length = (c_string text).length ∧
    (ocfx_text_measure env (some font) (some text)).font =
      some (get_glyphs env font (text_keys env text)).1 ∧
    (ocfx_text_draw env (some rd) (some font) (some text) x y color).font =
      some (get_glyphs env font (text_keys env text)).1 := by
  refine ⟨by decide, by decide, ?_, ?_, ?_, ?_, ?_, ?_⟩
  · intro b hb hs
    unfold char_codepoint
    rw [if_pos ⟨hs, hb⟩]
    omega
  · intro b hb
    unfold char_codepoint
    rw [if_neg (fun h => by omega)]
  · intro b hs
    unfold char_codepoint
    rw [if_neg (fun h => by rw [hs] at h; exact absurd h.1 (by decide))]
  · unfold text_keys
    rw [List.length_map]
  · simp only [ocfx_text_measure]
    rw [measure_loop_font]
  · simp only [ocfx_text_draw]
    rw [draw_loop_font]

/-- C26: when `cache_glyph` returns FULL for a bitmap `(w, h)` in atlas state
`(x, y, row_height)` (32-bit arithmetic not overflowing), the atlas state afterwards
is unchanged if `x + w ≤ atlas_width` and is `(0, y + row_height, 0)` if
`x + w > atlas_width`; the glyph cache and its capacity are unchanged.  When the
rasterization fails, the whole font state is unchanged. -/
theorem full_is_not_rolled_back (env : Env) (font : ocfx_font_t F) (c : Nat)
    (slot : FT_GlyphSlotRec) (hload : env.FT_Load_Char c = some slot)
    (hrange : no_overflow font slot)
    (hfull : (cache_glyph env font c).2 = glyph_result.atlas_full) :
    (font.atlas_x + slot.bitmap_width ≤ font.atlas_width →
      atlas_state (cache_glyph env font c).1 = atlas_state font) ∧
    (font.atlas_x + slot.bitmap_width > font.atlas_width →
      atlas_state (cache_glyph env font c).1
        = (0, font.atlas_y + font.atlas_row_height, 0)) ∧
    (cache_glyph env font c).1.glyph_cache = font.glyph_cache ∧
    (cache_glyph env font c).1.glyph_cache_capacity = font.glyph_cache_capacity ∧
    (∀ (env2 : Env) (f : ocfx_font_t F) (d : Nat), env2.FT_Load_Char d = none →
      cache_glyph env2 f d = (f, glyph_result.load_failed)) := by
  have hc := cache_glyph_cases env font c slot hload hrange _ rfl
  obtain ⟨-, -, hc⟩ := hc
  have hlast : ∀ (env2 : Env) (f : ocfx_font_t F) (d : Nat), env2.FT_Load_Char d = none →
      cache_glyph env2 f d = (f, glyph_result.load_failed) := by
    intro env2 f d hd
    simp only [cache_glyph, hd]
  rcases hc with ⟨-, -, hst, hcache, hcap⟩ | ⟨-, -, hres, -⟩ | ⟨-, -, e, hres, -⟩
  · refine ⟨fun hle => ?_, fun hgt => ?_, hcache, hcap, hlast⟩
    · rw [hst, if_neg (not_lt.mpr hle)]
    · rw [hst, if_pos hgt]
  · rw [hfull] at hres
    cases hres
  · rw [hfull] at hres
    cases hres

/-- Witness for C26: after the 2000 x 1500 glyph on a fresh atlas, the 100 x 1000
request wraps (2000 + 100 > 2048) and is FULL; the cursor stays at (0, 1500, 0). -/
theorem full_is_not_rolled_back_witness :
    atlas_state (cache_glyph tall_env scenario_font 65).1 = (2000, 0, 1500) ∧
    (cache_glyph tall_env (cache_glyph tall_env scenario_font 65).1 66).2 =
      glyph_result.atlas_full ∧
    atlas_state (cache_glyph tall_env (cache_glyph tall_env scenario_font 65).1 66).1
      = (0, 1500, 0) :=
  ⟨by decide, rfl,
    (full_is_not_rolled_back tall_env (cache_glyph tall_env scenario_font 65).1 66
      { bitmap_rows := 1000, bitmap_width := 100, bitmap_left := 0,
        bitmap_top := 1000, advance_x := 6400 }
      rfl (by unfold no_overflow; decide) rfl).2.1 (by decide)⟩

/-- C29: for all arguments (null or not), `ocfx_text_measure_n (font, text, len)` has
the outcome (width, height and font state afterwards) of `ocfx_text_measure` applied
to the first `len` of the bytes in front of the first NUL of `text`; for `len` at
least the length of the text that is `ocfx_text_measure (font, text)`, and for
`len = 0` the width is 0 and the height the font's line height. -/
theorem measure_n_is_measure_of_prefix [Add F] (env : Env)
    (font : Option (ocfx_font_t F)) (text : Option (List Nat)) (len : Nat) :
    ocfx_text_measure_n env font text len =
      ocfx_text_measure env font (text.map (fun t => (c_string t).take len)) ∧
    (∀ t, text = some t → (c_string t).length ≤ len →
      ocfx_text_measure_n env font text len = ocfx_text_measure env font text) ∧
    (∀ f t, font = some f → text = some t →
      (ocfx_text_measure_n env font text 0).width = ((0 : Int) : F) ∧
      (ocfx_text_measure_n env font text 0).height = ((f.height : Int) : F) ∧
      (ocfx_text_measure_n env font text 0).font = some f) := by
  have hmain : ∀ n, ocfx_text_measure_n env font text n =
      ocfx_text_measure env font (text.map (fun t => (c_string t).take n)) := by
    intro n
    cases font with
    | none => cases text <;> rfl
    | some f =>
      cases text with
      | none => rfl
      | some t =>
        simp only [ocfx_text_measure_n, ocfx_text_measure, Option.map_some',
          measure_n_loop_eq]
  refine ⟨hmain len, ?_, ?_⟩
  · intro t ht hlen
    rw [hmain len, ht]
    simp only [Option.map_some', List.take_of_length_le hlen]
    cases font with
    | none => rfl
    | some f => simp only [ocfx_text_measure, measure_loop_c_string]
  · intro f t hf ht
    subst hf
    subst ht
    exact ⟨rfl, rfl, rfl⟩

/-- C30: `ocfx_key_is_printable (keysym)` is true exactly when
`0x20 ≤ keysym ≤ 0x7E` or `0xA0 ≤ keysym ≤ 0xFF`; it is false for 0x7F (DEL), below
0x20, from 0x80 to 0x9F and from 0x100 on. -/
theorem key_is_printable_iff (keysym : Nat) :
    (ocfx_key_is_printable keysym = true ↔
      (0x20 ≤ keysym ∧ keysym ≤ 0x7E) ∨ (0xA0 ≤ keysym ∧ keysym ≤ 0xFF)) ∧
    ocfx_key_is_printable 0x7F = false ∧
    (keysym < 0x20 → ocfx_key_is_printable keysym = false) ∧
    (0x80 ≤ keysym → keysym ≤ 0x9F → ocfx_key_is_printable keysym = false) ∧
    (0x100 ≤ keysym → ocfx_key_is_printable keysym = false) := by
  have hiff : ocfx_key_is_printable keysym = true ↔
      (0x20 ≤ keysym ∧ keysym ≤ 0x7E) ∨ (0xA0 ≤ keysym ∧ keysym ≤ 0xFF) := by
    unfold ocfx_key_is_printable
    simp only [Bool.or_eq_true, Bool.and_eq_true, decide_eq_true_eq]
    omega
  refine ⟨hiff, by decide, ?_, ?_, ?_⟩
  · intro h
    rw [← Bool.not_eq_true, hiff]
    omega
  · intro h1 h2
    rw [← Bool.not_eq_true, hiff]
    omega
  · intro h
    rw [← Bool.not_eq_true, hiff]
    omega

/-- C24: starting from a font as `ocfx_font_load` returns it, after any sequence of
`get_glyph` calls (whatever `realloc` does) the capacity is 0 exactly when no glyph has
been cached (no call created an entry, the cache is empty) and otherwise equals
`128 * 2^k` for the least `k` with `128 * 2^k ≥ size`; `size ≤ capacity` holds; and
the capacity never shrinks: it is at least what it was before the sequence, and a
further call does not make it smaller.  The relation between size and capacity
(`capacity_ok`) is kept by every single call, whatever the rasterizer and the
allocator do in that call. -/
theorem cache_capacity_doubles (lenv : LoadEnv) (renderer : Option ocfx_renderer_t)
    (font_path : Option String) (size : Int) (font : ocfx_font_t F)
    (hload : ocfx_font_load lenv renderer font_path size = some font)
    (env : Env) (cs : List Nat) :
    ((get_glyphs env font cs).1.glyph_cache_capacity = 0 ↔
      (get_glyphs env font cs).2.filterMap glyph_result.cached_codepoint = []) ∧
    ((get_glyphs env font cs).1.glyph_cache_capacity = 0 ↔
      (get_glyphs env font cs).1.glyph_cache.length = 0) ∧
    ((get_glyphs env font cs).1.glyph_cache.length ≠ 0 →
      ∃ k, (get_glyphs env font cs).1.glyph_cache_capacity = 128 * 2 ^ k ∧
        (get_glyphs env font cs).1.glyph_cache.length ≤ 128 * 2 ^ k ∧
        ∀ j, (get_glyphs env font cs).1.glyph_cache.length ≤ 128 * 2 ^ j → k ≤ j) ∧
    (get_glyphs env font cs).1.glyph_cache.length ≤
      (get_glyphs env font cs).1.glyph_cache_capacity ∧
    font.glyph_cache_capacity ≤ (get_glyphs env font cs).1.glyph_cache_capacity ∧
    (∀ (env2 : Env) (c : Nat), (get_glyphs env font cs).1.glyph_cache_capacity ≤
      (get_glyph env2 (get_glyphs env font cs).1 c).1.glyph_cache_capacity) ∧
    (∀ (env2 : Env) (f : ocfx_font_t F) (c : Nat),
      capacity_ok f.glyph_cache.length f.glyph_cache_capacity →
      capacity_ok (get_glyph env2 f c).1.glyph_cache.length
        (get_glyph env2 f c).1.glyph_cache_capacity ∧
      f.glyph_cache_capacity ≤ (get_glyph env2 f c).1.glyph_cache_capacity) := by
  obtain ⟨-, -, -, -, -, -, -, hc, hk⟩ := font_load_some lenv renderer font_path size font hload
  have h0 : capacity_ok font.glyph_cache.length font.glyph_cache_capacity := by
    rw [hc, hk]
    exact Or.inl ⟨rfl, rfl⟩
  obtain ⟨hmono, hok⟩ := get_glyphs_capacity env cs font
  have hok1 := hok h0
  have hcp := get_glyphs_codepoints env cs font
  rw [hc, List.map_nil, List.nil_append] at hcp
  have hlen := congrArg List.length hcp
  rw [List.length_map] at hlen
  have hz := capacity_ok_zero _ _ hok1
  refine ⟨?_, hz, ?_, capacity_ok_le _ _ hok1, hmono,
    fun env2 c => (get_glyph_capacity env2 _ c).1,
    fun env2 f c h => ⟨(get_glyph_capacity env2 f c).2 h, (get_glyph_capacity env2 f c).1⟩⟩
  · rw [hz, hlen, List.length_eq_zero]
  · intro hne
    rcases hok1 with ⟨h1, -⟩ | ⟨-, hleast⟩
    · exact absurd h1 hne
    · exact hleast

/-- Witness for C24: after 'A', 'B', 'A' on the font loaded from "mono.ttf" the cache
holds 2 entries and the capacity is 128. -/
theorem cache_capacity_doubles_witness :
    (get_glyphs scenario_env loaded_font [65, 66, 65]).1.glyph_cache.length = 2 ∧
    (get_glyphs scenario_env loaded_font [65, 66, 65]).1.glyph_cache_capacity = 128 ∧
    (get_glyphs scenario_env loaded_font [65, 66, 65]).1.glyph_cache.length ≤
      (get_glyphs scenario_env loaded_font [65, 66, 65]).1.glyph_cache_capacity :=
  ⟨by decide, by decide,
    (cache_capacity_doubles scenario_load_env (some scenario_renderer) (some "mono.ttf") 16
      loaded_font loaded_font_eq scenario_env [65, 66, 65]).2.2.2.1⟩

/-- C25: from any font state satisfying the packing invariant (rasterizer delivering
bitmaps with `int` dimensions), once a lookup of `c` (bitmap height `h`) has returned
FULL, after any sequence of further `get_glyph` calls (hits, successful misses,
failures) every reserve request for a bitmap of height at least `h` returns FULL, so a
lookup of such a codepoint that is not cached returns FULL; and `c` itself is never
cached: each later lookup of `c` returns FULL, that is no entry. -/
theorem exhaustion_is_monotone (env : Env) (font : ocfx_font_t F) (c : Nat)
    (cs : List Nat) (slot : FT_GlyphSlotRec) (hok : atlas_ok font)
    (hb : ∀ ks, bitmaps_in_range env ks) (hc : env.FT_Load_Char c = some slot)
    (hfull : (get_glyph env font c).2 = glyph_result.atlas_full) :
    (∀ d slot2, env.FT_Load_Char d = some slot2 → slot.bitmap_rows ≤ slot2.bitmap_rows →
      (cache_glyph env (get_glyphs env (get_glyph env font c).1 cs).1 d).2 =
        glyph_result.atlas_full ∧
      (find_glyph (get_glyphs env (get_glyph env font c).1 cs).1 d = none →
        (get_glyph env (get_glyphs env (get_glyph env font c).1 cs).1 d).2 =
          glyph_result.atlas_full)) ∧
    find_glyph (get_glyphs env (get_glyph env font c).1 cs).1 c = none ∧
    (get_glyph env (get_glyphs env (get_glyph env font c).1 cs).1 c).2 =
      glyph_result.atlas_full ∧
    (get_glyph env (get_glyphs env (get_glyph env font c).1 cs).1 c).2.entry = none := by
  have hs := hb [c] c (List.mem_singleton.mpr rfl) slot hc
  obtain ⟨hok1, -⟩ := get_glyph_step env font c hok (hb [c])
  have hset : settled env (get_glyph env font c).1 c none ∧
      (get_glyph env font c).1.atlas_y + slot.bitmap_rows >
        (get_glyph env font c).1.atlas_height := by
    rcases get_glyph_cases env font c with ⟨e, -, hg⟩ | ⟨hf, hg⟩
    · rw [hg] at hfull
      cases hfull
    · rw [hg] at hfull ⊢
      rcases cache_glyph_verdict env font c slot hc hok hs with ⟨-, hy, hcache, -⟩ |
        ⟨-, -, ⟨up, h⟩, -⟩ | ⟨-, -, up, e, h⟩
      · refine ⟨⟨?_, Or.inr (Or.inl ⟨slot, hc, hy⟩)⟩, hy⟩
        unfold find_glyph at hf ⊢
        rw [hcache]
        exact hf
      · rw [hfull] at h
        cases h
      · rw [hfull] at h
        cases h
  obtain ⟨hset1, hy1⟩ := hset
  obtain ⟨hok2, hy2, -, hH2⟩ := get_glyphs_run env cs _ hok1 (hb cs)
  have hset2 := settled_run env c none cs _ hok1 (hb cs) hset1
  generalize (get_glyphs env (get_glyph env font c).1 cs).1 = f2 at hok2 hy2 hH2 hset2 ⊢
  have hall : ∀ d slot2, env.FT_Load_Char d = some slot2 →
      slot.bitmap_rows ≤ slot2.bitmap_rows →
      (cache_glyph env f2 d).2 = glyph_result.atlas_full := by
    intro d slot2 hd hh
    exact cache_glyph_blocked env f2 d slot2 hd hok2
      (hb [d] d (List.mem_singleton.mpr rfl) slot2 hd) (by omega)
  have hmiss : find_glyph f2 c = none := hset2.1
  have hres : (get_glyph env f2 c).2 = glyph_result.atlas_full := by
    rw [get_glyph_of_miss env f2 c hmiss]
    exact hall c slot hc (le_refl _)
  refine ⟨fun d slot2 hd hh => ⟨hall d slot2 hd hh, fun hf => ?_⟩, hmiss, hres, ?_⟩
  · rw [get_glyph_of_miss env f2 d hf]
    exact hall d slot2 hd hh
  · rw [hres]
    rfl

/-- Witness for C25: after the 2000 x 1500 glyph the 100 x 1000 glyph (66) is FULL;
a 10 x 10 glyph (67) is then cached, and 66 is FULL again. -/
theorem exhaustion_is_monotone_witness :
    atlas_ok (get_glyph tall_env scenario_font 65).1 ∧
    (get_glyph tall_env (get_glyph tall_env scenario_font 65).1 66).2 =
      glyph_result.atlas_full ∧
    (get_glyphs tall_env (get_glyph tall_env (get_glyph tall_env scenario_font 65).1 66).1
      [67]).2.map glyph_result.placement = [some ⟨0, 1500, 10, 10⟩] ∧
    (get_glyph tall_env (get_glyphs tall_env
      (get_glyph tall_env (get_glyph tall_env scenario_font 65).1 66).1 [67]).1 66).2 =
      glyph_result.atlas_full :=
  ⟨by unfold atlas_ok; decide, rfl, by decide,
    (exhaustion_is_monotone tall_env (get_glyph tall_env scenario_font 65).1 66 [67]
      { bitmap_rows := 1000, bitmap_width := 100, bitmap_left := 0,
        bitmap_top := 1000, advance_x := 6400 }
      (by unfold atlas_ok; decide) tall_env_sizes rfl rfl).2.2.1⟩

/-- C27: with a deterministic rasterizer and allocator (the environment `env`, whose
bitmaps have `int` dimensions), for the font returned by `ocfx_font_load` after any
history of glyph lookups (the only way the text interface changes a font), and more
generally for every font state satisfying the packing invariant, two
`ocfx_text_measure` calls in succession on the same text return the same width and
the same height, the second call running in the font state left by the first. -/
theorem measure_is_repeatable [Add F] (lenv : LoadEnv) (renderer : Option ocfx_renderer_t)
    (font_path : Option String) (size : Int) (font0 : ocfx_font_t F)
    (hload : ocfx_font_load lenv renderer font_path size = some font0)
    (env : Env) (hb : ∀ ks, bitmaps_in_range env ks) :
    (∀ (history text : List Nat),
      (ocfx_text_measure env
        (ocfx_text_measure env (some (get_glyphs env font0 history).1) (some text)).font
        (some text)).width =
        (ocfx_text_measure env (some (get_glyphs env font0 history).1) (some text)).width ∧
      (ocfx_text_measure env
        (ocfx_text_measure env (some (get_glyphs env font0 history).1) (some text)).font
        (some text)).height =
        (ocfx_text_measure env (some (get_glyphs env font0 history).1) (some text)).height) ∧
    (∀ (font : ocfx_font_t F) (text : List Nat), atlas_ok font →
      (ocfx_text_measure env (ocfx_text_measure env (some font) (some text)).font
        (some text)).width = (ocfx_text_measure env (some font) (some text)).width ∧
      (ocfx_text_measure env (ocfx_text_measure env (some font) (some text)).font
        (some text)).height = (ocfx_text_measure env (some font) (some text)).height) := by
  have hok0 := font_load_ok lenv renderer font_path size font0 hload
  exact ⟨fun history text => measure_twice env _ text
      (get_glyphs_run env history font0 hok0 (hb history)).1 (hb _),
    fun font text hok => measure_twice env font text hok (hb _)⟩

/-- Witness for C27: "AB" measured twice on the font loaded from "mono.ttf"; the first
call caches both glyphs and moves the cursor to x = 23. -/
theorem measure_is_repeatable_witness :
    (ocfx_text_measure scenario_env (some loaded_font) (some [65, 66, 0])).font.map
      (fun f => (f.glyph_cache.length, f.atlas_x)) = some (2, 23) ∧
    (ocfx_text_measure scenario_env
      (ocfx_text_measure scenario_env (some loaded_font) (some [65, 66, 0])).font
      (some [65, 66, 0])).width =
      (ocfx_text_measure scenario_env (some loaded_font) (some [65, 66, 0])).width :=
  ⟨by decide,
    ((measure_is_repeatable scenario_load_env (some scenario_renderer) (some "mono.ttf") 16
      loaded_font loaded_font_eq scenario_env scenario_env_range).1 [] [65, 66, 0]).1⟩

/-- C28: starting from a font as `ocfx_font_load` returns it (atlas 2048 x 2048), and
provided every rasterized bitmap fits the atlas dimensions, after any sequence of
`get_glyph` calls (hits, successful misses, rasterization failures and FULL results
interleaved) the pixel rectangles `[atlas_x * 2048, + width) x [atlas_y * 2048, +
height)` of the entries at any two distinct positions of the glyph cache are
disjoint (separated along an axis), so no point of the atlas lies in both.  The
normalized coordinates are taken in an ordered field (exact division). -/
theorem cache_rects_disjoint {F : Type} [LinearOrderedField F] (lenv : LoadEnv)
    (renderer : Option ocfx_renderer_t) (font_path : Option String) (size : Int)
    (font : ocfx_font_t F)
    (hload : ocfx_font_load lenv renderer font_path size = some font)
    (env : Env) (cs : List Nat)
    (hfit : ∀ c ∈ cs, ∀ slot, env.FT_Load_Char c = some slot →
      (slot.bitmap_width : Int) ≤ font.atlas_width ∧
      (slot.bitmap_rows : Int) ≤ font.atlas_height) :
    (get_glyphs env font cs).1.glyph_cache.Pairwise
      (fun a b => pixel_disjoint (entry_rect 2048 2048 a) (entry_rect 2048 2048 b)) ∧
    (∀ (i j : Nat) (a b : glyph_cache_entry_t F), i ≠ j →
      (get_glyphs env font cs).1.glyph_cache[i]? = some a →
      (get_glyphs env font cs).1.glyph_cache[j]? = some b →
      pixel_disjoint (entry_rect 2048 2048 a) (entry_rect 2048 2048 b) ∧
      ∀ px py : F, ¬ ((entry_rect 2048 2048 a).covers px py ∧
        (entry_rect 2048 2048 b).covers px py)) := by
  obtain ⟨-, -, hw, hh, hx, hy, hr, hc, -⟩ :=
    font_load_some lenv renderer font_path size font hload
  have hok : atlas_ok font := font_load_ok lenv renderer font_path size font hload
  have hb : bitmaps_in_range env cs := fun c hcm slot hs => by
    obtain ⟨h1, h2⟩ := hfit c hcm slot hs
    omega
  obtain ⟨rects, hmap, hp⟩ := get_glyphs_rects env 2048 2048 (by decide) (by decide) cs font []
    hok hw hh hb (by rw [hc]; rfl) (fun p hpm => by cases hpm) List.Pairwise.nil
  have hpair : (get_glyphs env font cs).1.glyph_cache.Pairwise
      (fun a b => pixel_disjoint (entry_rect 2048 2048 a) (entry_rect 2048 2048 b)) := by
    have h1 : (rects.map (upload_rect : tex_upload → pixel_rect F)).Pairwise pixel_disjoint :=
      List.pairwise_map.mpr (hp.imp (fun hab => shelf_before_disjoint _ _ hab))
    rw [← hmap] at h1
    exact List.pairwise_map.mp h1
  refine ⟨hpair, ?_⟩
  intro i j a b hij ha hb2
  have hsymm : ∀ r s : pixel_rect F, pixel_disjoint r s → pixel_disjoint s r := by
    intro r s h
    unfold pixel_disjoint at h ⊢
    tauto
  have hd : pixel_disjoint (entry_rect 2048 2048 a) (entry_rect 2048 2048 b) := by
    obtain ⟨hi, hai⟩ := List.getElem?_eq_some.mp ha
    obtain ⟨hj, hbj⟩ := List.getElem?_eq_some.mp hb2
    rcases Nat.lt_or_gt_of_ne hij with hlt | hgt
    · have h := List.pairwise_iff_getElem.mp hpair i j hi hj hlt
      rw [hai, hbj] at h
      exact h
    · have h := List.pairwise_iff_getElem.mp hpair j i hj hi hgt
      rw [hai, hbj] at h
      exact hsymm _ _ h
  exact ⟨hd, fun px py => pixel_disjoint_no_common _ _ hd px py⟩

/-- Witness for C28: 'A', 'B', 'A' looked up on the font loaded from "mono.ttf"; the
cache holds two entries and their pixel rectangles are disjoint. -/
theorem cache_rects_disjoint_witness :
    (get_glyphs scenario_env loaded_font [65, 66, 65]).1.glyph_cache.length = 2 ∧
    (get_glyphs scenario_env loaded_font [65, 66, 65]).1.glyph_cache.Pairwise
      (fun a b => pixel_disjoint (entry_rect 2048 2048 a) (entry_rect 2048 2048 b)) :=
  ⟨by decide,
    (cache_rects_disjoint scenario_load_env (some scenario_renderer) (some "mono.ttf") 16
      loaded_font loaded_font_eq scenario_env [65, 66, 65]
      (fun c _ slot hs =>
        ⟨(scenario_env_sizes c slot hs).2.1, (scenario_env_sizes c slot hs).2.2.2⟩)).1⟩

end Theorems

end OCFX
